import Mathlib

/-!
# Variational form kernels of serac: element integration, gradient action, gradient matrix

A shallow embedding of `src/serac/physics/utilities/variational_form/integral.hpp`.

* `double` is embedded as an arbitrary commutative ring `R` (exact arithmetic).
* `tensor<double, n>` is `Fin n → R`, `tensor<double, m, n>` is `Fin m → Fin n → R`.
* `mfem::Vector` storage, seen through `Read()` / `ReadWrite()`, is a map from flat
  offsets to entries; `mfem::Reshape` is the column-major offset computation
  (first index fastest).
* loops are left folds over `List.range` / `List.finRange`, threading the mutated
  buffers explicitly.
* The kernels are embedded for the H1 family on volume integrals
  (`spatial_dim = geometry_dim = dim`), for a field with `c` components.  For
  `components == 1` the source uses the rank-reduced types (`reduced_tensor`); the
  embedding keeps the component index, which then ranges over `Fin 1`.
* `tensor.hpp`, `tuple_arithmetic.hpp`, `quadrature.hpp` and `finite_element.hpp` are not
  part of the sources: `det`, `inv`, `sqrt`, the quadrature rule and the element shape
  functions are parameters; `dot`, `outer`, the dual numbers and `chain_rule` are
  modelled from the specification.
-/

namespace serac

variable {R : Type} [CommRing R]

/-- The type `tensor<double, n>`. -/
abbrev Vec (R : Type) (n : Nat) : Type := Fin n → R

/-- The type `tensor<double, m, n>`. -/
abbrev Mat (R : Type) (m n : Nat) : Type := Fin m → Fin n → R

/-- Storage of an `mfem::Vector` as the kernels see it: flat offset to entry. -/
abbrev Buffer (R : Type) : Type := Nat → R

/-- Functions of `tensor.hpp` called by `integral.hpp` whose source is not available:
they are parameters of the embedding. -/
structure TensorLib (R : Type) where
  /-- `det(A)` for a square matrix -/
  det : {n : Nat} → Mat R n n → R
  /-- `inv(A)` for a square matrix -/
  inv : {n : Nat} → Mat R n n → Mat R n n
  /-- `sqrt(x)` -/
  sqrt : R → R

/-- The descriptor `finite_element<g, space>` of an H1-family element
(`family == Family::H1`) with `ndof` shape functions on a `dim`-dimensional
reference cell.  The tables come from `finite_element.hpp` and are parameters. -/
structure finite_element (R : Type) (dim ndof : Nat) where
  /-- `shape_functions(xi)` -/
  shape_functions : Vec R dim → Vec R ndof
  /-- `shape_function_gradients(xi)` -/
  shape_function_gradients : Vec R dim → Mat R ndof dim

/-- The value of `GaussQuadratureRule<g, Q>()`: `size()` points and weights
(from `quadrature.hpp`, a parameter). -/
structure QuadratureRule (R : Type) (dim : Nat) where
  /-- `rule.size()` -/
  size : Nat
  /-- `rule.points[q]` -/
  points : Fin size → Vec R dim
  /-- `rule.weights[q]` -/
  weights : Fin size → R

/-! ## Tensor operations -/

/-- Modelled from the spec: `dot` of `tensor.hpp` on a matrix and a matrix contracts the
last index of the first operand with the first index of the second. -/
def dot {m n p : Nat} (A : Mat R m n) (B : Mat R n p) : Mat R m p :=
  fun i j => ∑ k, A i k * B k j

/-- Modelled from the spec: `dot` of `tensor.hpp` on two vectors is their full contraction. -/
def dot_vv {n : Nat} (u v : Vec R n) : R := ∑ i, u i * v i

/-- Modelled from the spec: `dot` of `tensor.hpp` on a vector and a matrix contracts the
vector index with the first matrix index. -/
def dot_vm {m n : Nat} (u : Vec R m) (A : Mat R m n) : Vec R n :=
  fun j => ∑ i, u i * A i j

/-- Modelled from the spec: `dot` of `tensor.hpp` on a matrix and a vector contracts the
last matrix index with the vector index. -/
def dot_mv {m n : Nat} (A : Mat R m n) (v : Vec R n) : Vec R m :=
  fun i => ∑ k, A i k * v k

/-- Modelled from the spec: `outer` of `tensor.hpp` on two vectors. -/
def outer {m n : Nat} (u : Vec R m) (v : Vec R n) : Mat R m n :=
  fun i j => u i * v j

/-- Modelled from the spec: `transpose` of `tensor.hpp`. -/
def transpose {m n : Nat} (A : Mat R m n) : Mat R n m := fun i j => A j i

/-! ## Dual numbers -/

/-- The argument of a q-function on an H1 space with `c` components in `dim`
dimensions: `std::tuple{value, gradient}` (`lambda_argument<H1<p, c>, dim, dim>::type`). -/
abbrev qf_argument (R : Type) (c dim : Nat) : Type := Vec R c × Mat R c dim

/-- Modelled from the spec: a dual number `{value, gradient}`; the gradient has the
shape of the seed, here the q-function argument tuple. -/
structure dual (R : Type) (c dim : Nat) where
  /-- the value -/
  value : R
  /-- the derivative with respect to every scalar slot of the seed -/
  gradient : qf_argument R c dim

namespace dual

variable {c dim : Nat}

/-- A plain number used in dual arithmetic: zero gradient. -/
def const (r : R) : dual R c dim := ⟨r, 0⟩

instance : Zero (dual R c dim) := ⟨const 0⟩

instance : Add (dual R c dim) := ⟨fun a b => ⟨a.value + b.value, a.gradient + b.gradient⟩⟩

instance : Sub (dual R c dim) := ⟨fun a b => ⟨a.value - b.value, a.gradient - b.gradient⟩⟩

instance : Neg (dual R c dim) := ⟨fun a => ⟨-a.value, -a.gradient⟩⟩

/-- The product rule. -/
instance : Mul (dual R c dim) :=
  ⟨fun a b => ⟨a.value * b.value, b.value • a.gradient + a.value • b.gradient⟩⟩

/-- The product `double * dual`. -/
instance : SMul R (dual R c dim) := ⟨fun r a => ⟨r * a.value, r • a.gradient⟩⟩

end dual

/-- The q-function input and output on an H1 space, over a number type `D`:
`std::tuple{f0, f1}` with `f0` of shape `[c]` and `f1` of shape `[c][dim]`. -/
abbrev qf_tuple (D : Type) (c dim : Nat) : Type := (Fin c → D) × (Fin c → Fin dim → D)

/-- Modelled from the spec: `make_dual(arg)` lifts every scalar slot of the argument
tuple to a dual number whose gradient is the identity seed of that slot. -/
def make_dual {c dim : Nat} (arg : qf_argument R c dim) : qf_tuple (dual R c dim) c dim :=
  (fun a => ⟨arg.1 a, (Pi.single a 1, 0)⟩,
   fun a k => ⟨arg.2 a k, (0, Pi.single a (Pi.single k 1))⟩)

/-- Modelled from the spec: `get_value` projects every dual entry to its value. -/
def get_value {c dim : Nat} (out : qf_tuple (dual R c dim) c dim) : qf_argument R c dim :=
  (fun a => (out.1 a).value, fun a k => (out.2 a k).value)

/-- The record `get_gradient(qf_output)` stored per quadrature point: the 2x2 block
derivative of `(f0, f1)` with respect to `(u, grad u)`. -/
structure derivatives_type (R : Type) (c dim : Nat) where
  /-- `std::get<0>(std::get<0>(dq_darg))`, shape `[c][c]` -/
  df0_du : Fin c → Fin c → R
  /-- `std::get<1>(std::get<0>(dq_darg))`, shape `[c][c][dim]` -/
  df0_dgradu : Fin c → Fin c → Fin dim → R
  /-- `std::get<0>(std::get<1>(dq_darg))`, shape `[c][dim][c]` -/
  df1_du : Fin c → Fin dim → Fin c → R
  /-- `std::get<1>(std::get<1>(dq_darg))`, shape `[c][dim][c][dim]` -/
  df1_dgradu : Fin c → Fin dim → Fin c → Fin dim → R

/-- The all-zero derivative record (the content of freshly value-initialised storage). -/
instance {c dim : Nat} : Zero (derivatives_type R c dim) :=
  ⟨⟨fun _ _ => 0, fun _ _ _ => 0, fun _ _ _ => 0, fun _ _ _ _ => 0⟩⟩

/-- Modelled from the spec: `get_gradient` collects the gradients of the entries of
`(f0, f1)` into the 2x2 block record. -/
def get_gradient {c dim : Nat} (out : qf_tuple (dual R c dim) c dim) :
    derivatives_type R c dim where
  df0_du := fun a b => (out.1 a).gradient.1 b
  df0_dgradu := fun a b k => (out.1 a).gradient.2 b k
  df1_du := fun a m b => (out.2 a m).gradient.1 b
  df1_dgradu := fun a m b k => (out.2 a m).gradient.2 b k

/-- Modelled from the spec: `chain_rule(J, dx)` applies the cached block Jacobian to a
perturbation of the argument tuple and returns a tuple of the shape of `(f0, f1)`. -/
def chain_rule {c dim : Nat} (dq_darg : derivatives_type R c dim)
    (darg : qf_argument R c dim) : qf_argument R c dim :=
  (fun a => (∑ b, dq_darg.df0_du a b * darg.1 b)
              + ∑ b, ∑ k, dq_darg.df0_dgradu a b k * darg.2 b k,
   fun a m => (∑ b, dq_darg.df1_du a m b * darg.1 b)
              + ∑ b, ∑ k, dq_darg.df1_dgradu a m b k * darg.2 b k)

/-! ## Strided views and the `impl` helpers -/

/-- The entry `X(q, i, e)` of `mfem::Reshape(X_.Read(), n1, n2, num_elements)`. -/
def Reshape3 (n1 n2 : Nat) (u : Buffer R) (q i e : Nat) : R := u (q + n1 * (i + n2 * e))

/-- The entry `J(q, i, j, e)` of `mfem::Reshape(J_.Read(), n1, n2, n3, num_elements)`. -/
def Reshape4 (n1 n2 n3 : Nat) (u : Buffer R) (q i j e : Nat) : R :=
  u (q + n1 * (i + n2 * (j + n3 * e)))

/-- The statement `a[k] += v` on a flat buffer. -/
def add_at (a : Buffer R) (k : Nat) (v : R) : Buffer R := Function.update a k (a k + v)

/-- The statement `K[r][s] += v` on a local matrix. -/
def add_at2 (K : Nat → Nat → R) (r s : Nat) (v : R) : Nat → Nat → R :=
  Function.update K r (Function.update (K r) s (K r s + v))

/-- The loop `for (int i = 0; i < n; i++) body(i)` and `for_constexpr<n>(body)`,
threading the mutated state. -/
def for_constexpr {σ : Type} (n : Nat) (body : Fin n → σ → σ) (s : σ) : σ :=
  (List.finRange n).foldl (fun s i => body i s) s

namespace impl

/-- The function `impl::Load<space>(u, e)` on the view `impl::Reshape<space>(U, ndof, num_elements)`:
for `components == 1` the entries `u(i, e)`, otherwise `u(i, j, e)` stored at `[j][i]`. -/
def Load (ndof c : Nat) (u : Buffer R) (e : Nat) : Fin c → Fin ndof → R :=
  if c = 1 then fun _ i => u (i + ndof * e)
  else fun j i => u (i + ndof * (j + c * e))

/-- The function `impl::Add(r_global, r_local, e)` on the view
`impl::Reshape<space>(R, ndof, num_elements)`: `r_global(i, e) += r_local[i]` for
`components == 1`, otherwise `r_global(i, j, e) += r_local[i][j]`. -/
def Add (ndof c : Nat) (r_global : Buffer R) (r_local : Fin ndof → Fin c → R) (e : Nat) :
    Buffer R :=
  if h : c = 1 then
    for_constexpr ndof (fun i r => add_at r (i + ndof * e) (r_local i ⟨0, by omega⟩)) r_global
  else
    for_constexpr ndof (fun i =>
      for_constexpr c (fun j r => add_at r (i + ndof * (j + c * e)) (r_local i j))) r_global

/-- The volume overload of `impl::Preprocess<element_type>(u, xi, J)`, H1 branch:
`std::tuple{dot(u, N(xi)), dot(u, dot(dN(xi), inv(J)))}`. -/
def Preprocess (T : TensorLib R) {dim ndof c : Nat} (element_type : finite_element R dim ndof)
    (u : Fin c → Fin ndof → R) (xi : Vec R dim) (J : Mat R dim dim) : qf_argument R c dim :=
  (dot_mv u (element_type.shape_functions xi),
   dot u (dot (element_type.shape_function_gradients xi) (T.inv J)))

/-- The volume overload of `impl::Postprocess<element_type>(f, xi, J)`, H1 branch:
`outer(W, get<0>(f)) + dot(dW_dx, get<1>(f))`.
For `c = 1` the flux `get<1>(f)` is a `tensor<double, dim>` and `dot` contracts its only
index.  For `c > 1` it is a `tensor<double, c, dim>` and `dot` contracts the column index
of `dW_dx` with its first index, which is defined when `c = dim`; for other `c` there is
no instantiation and the embedding returns the zero tensor. -/
def Postprocess (T : TensorLib R) {dim ndof c : Nat} (element_type : finite_element R dim ndof)
    (f : qf_argument R c dim) (xi : Vec R dim) (J : Mat R dim dim) : Fin ndof → Fin c → R :=
  let W := element_type.shape_functions xi
  let dW_dx := dot (element_type.shape_function_gradients xi) (T.inv J)
  if c = 1 then
    fun i a => outer W f.1 i a + dot_mv dW_dx (f.2 a) i
  else if h : c = dim then
    fun i a => outer W f.1 i a + dot dW_dx (fun k => f.2 (Fin.cast h.symm k)) i (Fin.cast h a)
  else 0

/-- The function `impl::Measure(A)`: `det(A)` for a square matrix, otherwise
`sqrt(det(transpose(A) * A))` with the matrix product of the doc comment. -/
def Measure (T : TensorLib R) {m n : Nat} (A : Mat R m n) : R :=
  if h : m = n then T.det (fun i j => A (Fin.cast h.symm i) j)
  else T.sqrt (T.det (dot (transpose A) A))

end impl

/-! ## The kernels -/

section kernels

variable {dim ndof c : Nat}

/-- The tensor `x_q = make_tensor<spatial_dim>([&](int i) { return X(q, i, e); })`. -/
def x_q (nq : Nat) (X_ : Buffer R) (e q : Nat) : Vec R dim :=
  fun i => Reshape3 nq dim X_ q i e

/-- The tensor `J_q = make_tensor<spatial_dim, geometry_dim>(... J(q, i, j, e) ...)`. -/
def J_q (nq : Nat) (J_ : Buffer R) (e q : Nat) : Mat R dim dim :=
  fun i j => Reshape4 nq dim dim J_ q i j e

/-- The value `qf_output = qf(x_q, make_dual(arg))` at quadrature point `q` of element `e`. -/
def qf_output (T : TensorLib R) (trial : finite_element R dim ndof) (rule : QuadratureRule R dim)
    (qf : Vec R dim → qf_tuple (dual R c dim) c dim → qf_tuple (dual R c dim) c dim)
    (U J_ X_ : Buffer R) (e : Nat) (q : Fin rule.size) : qf_tuple (dual R c dim) c dim :=
  qf (x_q rule.size X_ e q)
    (make_dual (impl.Preprocess T trial (impl.Load ndof c U e) (rule.points q)
      (J_q rule.size J_ e q)))

/-- The quadrature loop of `evaluation_kernel` for element `e`: returns the accumulated
`r_elem` and the derivative storage after the writes
`derivatives_ptr[e * rule.size() + q] = get_gradient(qf_output)`.
The accumulator `r_elem` has the `residual_type` of the trial element and receives
`Postprocess<test_element>(...)`, so the test and trial elements of an instantiation have
the same `ndof` and the same number of components. -/
def evaluation_kernel_element (T : TensorLib R) (test trial : finite_element R dim ndof)
    (rule : QuadratureRule R dim)
    (qf : Vec R dim → qf_tuple (dual R c dim) c dim → qf_tuple (dual R c dim) c dim)
    (U J_ X_ : Buffer R) (derivatives_ptr : Nat → derivatives_type R c dim) (e : Nat) :
    (Fin ndof → Fin c → R) × (Nat → derivatives_type R c dim) :=
  for_constexpr rule.size
    (fun q st =>
      let xi := rule.points q
      let dxi := rule.weights q
      let dx := impl.Measure T (J_q rule.size J_ e q : Mat R dim dim) * dxi
      let out := qf_output T trial rule qf U J_ X_ e q
      (st.1 + fun i a => impl.Postprocess T test (get_value out) xi (J_q rule.size J_ e q) i a * dx,
       Function.update st.2 (e * rule.size + q) (get_gradient out)))
    (0, derivatives_ptr)

/-- The kernel `evaluation_kernel(U, R, derivatives_ptr, J_, X_, num_elements, qf)`:
returns the residual buffer and the derivative storage after the call. -/
def evaluation_kernel (T : TensorLib R) (test trial : finite_element R dim ndof)
    (rule : QuadratureRule R dim)
    (qf : Vec R dim → qf_tuple (dual R c dim) c dim → qf_tuple (dual R c dim) c dim)
    (U R_ : Buffer R) (derivatives_ptr : Nat → derivatives_type R c dim) (J_ X_ : Buffer R)
    (num_elements : Nat) : Buffer R × (Nat → derivatives_type R c dim) :=
  (List.range num_elements).foldl
    (fun st e =>
      let el := evaluation_kernel_element T test trial rule qf U J_ X_ st.2 e
      (impl.Add ndof c st.1 el.1 e, el.2))
    (R_, derivatives_ptr)

/-- The quadrature loop of `gradient_kernel` for element `e`: the accumulated `dr_elem`. -/
def gradient_kernel_element (T : TensorLib R) (test trial : finite_element R dim ndof)
    (rule : QuadratureRule R dim) (dU J_ : Buffer R)
    (derivatives_ptr : Nat → derivatives_type R c dim) (e : Nat) : Fin ndof → Fin c → R :=
  for_constexpr rule.size
    (fun q dr_elem =>
      let xi := rule.points q
      let dxi := rule.weights q
      let dx := impl.Measure T (J_q rule.size J_ e q : Mat R dim dim) * dxi
      let darg := impl.Preprocess T trial (impl.Load ndof c dU e) xi (J_q rule.size J_ e q)
      let dq_darg := derivatives_ptr (e * rule.size + q)
      let dq := chain_rule dq_darg darg
      dr_elem + fun i a => impl.Postprocess T test dq xi (J_q rule.size J_ e q) i a * dx)
    0

/-- The kernel `gradient_kernel(dU, dR, derivatives_ptr, J_, num_elements)`: returns the
buffer `dR` after the call (the derivative storage is only read). -/
def gradient_kernel (T : TensorLib R) (test trial : finite_element R dim ndof)
    (rule : QuadratureRule R dim) (dU dR : Buffer R)
    (derivatives_ptr : Nat → derivatives_type R c dim) (J_ : Buffer R) (num_elements : Nat) :
    Buffer R :=
  (List.range num_elements).foldl
    (fun dr e =>
      impl.Add ndof c dr (gradient_kernel_element T test trial rule dU J_ derivatives_ptr e) e)
    dR

set_option linter.unusedVariables false in
/-- The quadrature loop of `gradient_matrix_kernel` for element `e`: the accumulated
`K_elem`, a `tensor<double, test_ndof * test_dim, trial_ndof * trial_dim>` indexed here by
naturals.  As in the source, `trial_dim` is read from the test element:
`trial_dim = test_element::components`; the components of the trial element are not used.
With the component index kept, the branch for `test_dim == 1 && trial_dim == 1` reads
`df1_dgradu[dummy_i][dummy_j]` at component indices `0`. -/
def gradient_matrix_kernel_element (T : TensorLib R) {test_ndof trial_ndof : Nat}
    (test : finite_element R dim test_ndof) (trial : finite_element R dim trial_ndof)
    (test_components trial_components : Nat) (rule : QuadratureRule R dim) (J_ : Buffer R)
    (derivatives_ptr : Nat → derivatives_type R test_components dim) (e : Nat) :
    Nat → Nat → R :=
  let test_dim := test_components
  let trial_dim := test_components
  for_constexpr rule.size
    (fun q K_elem =>
      let xi_q := rule.points q
      let dxi_q := rule.weights q
      let detJ_q := impl.Measure T (J_q rule.size J_ e q : Mat R dim dim)
      let dx := detJ_q * dxi_q
      let dq_darg := derivatives_ptr (e * rule.size + q)
      let dM_dx := dot (test.shape_function_gradients xi_q) (T.inv (J_q rule.size J_ e q))
      let dN_dx := dot (trial.shape_function_gradients xi_q) (T.inv (J_q rule.size J_ e q))
      let df0_du := dq_darg.df0_du
      let df0_dgradu := dq_darg.df0_dgradu
      let df1_dgradu := dq_darg.df1_dgradu
      let M := test.shape_functions xi_q
      let N := trial.shape_functions xi_q
      -- df0_du stiffness contribution
      let K1 :=
        for_constexpr test_ndof (fun i => for_constexpr test_dim (fun id =>
          for_constexpr trial_ndof (fun j => for_constexpr trial_dim (fun jd K =>
            add_at2 K (i * test_dim + id) (j * trial_dim + jd)
              (M i * df0_du id jd * N j * dx))))) K_elem
      -- df0_dgradu stiffness contribution
      let K2 :=
        for_constexpr test_ndof (fun i => for_constexpr test_dim (fun id =>
          for_constexpr trial_ndof (fun j => for_constexpr trial_dim (fun jd =>
            for_constexpr dim (fun dummy_i K =>
              add_at2 K (i * test_dim + id) (j * trial_dim + jd)
                (M i * df0_dgradu id jd dummy_i * dN_dx j dummy_i * dx)))))) K1
      -- df1_du stiffness contribution: none in the source
      -- df1_dgradu stiffness contribution
      if h : test_dim = 1 ∧ trial_dim = 1 then
        for_constexpr test_ndof (fun i => for_constexpr trial_ndof (fun j =>
          for_constexpr dim (fun dummy_i => for_constexpr dim (fun dummy_j K =>
            add_at2 K (i * test_dim) (j * trial_dim)
              (dM_dx i dummy_i * df1_dgradu ⟨0, by omega⟩ dummy_i ⟨0, by omega⟩ dummy_j
                * dN_dx j dummy_j * dx))))) K2
      else
        for_constexpr test_ndof (fun i => for_constexpr test_dim (fun id =>
          for_constexpr trial_ndof (fun j => for_constexpr trial_dim (fun jd =>
            for_constexpr dim (fun dummy_i => for_constexpr dim (fun dummy_j K =>
              add_at2 K (i * test_dim + id) (j * trial_dim + jd)
                (dM_dx i dummy_i * df1_dgradu id dummy_i jd dummy_j
                  * dN_dx j dummy_j * dx))))))) K2)
    (fun _ _ => 0)

/-- The kernel `gradient_matrix_kernel(K_e, derivatives_ptr, J_, num_elements)` for an H1
test element: returns the buffer `K_e` after the call, seen through
`mfem::Reshape(K_e, test_ndof * test_dim, trial_ndof * trial_dim, num_elements)`. -/
def gradient_matrix_kernel (T : TensorLib R) {test_ndof trial_ndof : Nat}
    (test : finite_element R dim test_ndof) (trial : finite_element R dim trial_ndof)
    (test_components trial_components : Nat) (rule : QuadratureRule R dim) (K_e : Buffer R)
    (derivatives_ptr : Nat → derivatives_type R test_components dim) (J_ : Buffer R)
    (num_elements : Nat) : Buffer R :=
  let test_dim := test_components
  let trial_dim := test_components
  (List.range num_elements).foldl
    (fun dk e =>
      let K_elem := gradient_matrix_kernel_element T test trial test_components
        trial_components rule J_ derivatives_ptr e
      (List.range (test_ndof * test_dim)).foldl (fun dk i =>
        (List.range (trial_ndof * trial_dim)).foldl (fun dk j =>
          add_at dk (i + test_ndof * test_dim * (j + trial_ndof * trial_dim * e)) (K_elem i j))
          dk) dk)
    K_e

end kernels

/-! ## The Integral handle -/

/-- An `mfem::Vector`: its `Size()` and its storage. -/
structure Vector (R : Type) where
  /-- `Size()` -/
  Size : Nat
  /-- the entries, by offset -/
  data : Buffer R

/-- The state of `Integral<test(trial)>` for an H1 test space: the members `J_`, `X_`,
`qf_derivatives` (as records, with the number of records allocated), and what the three
captured closures hold by value. -/
structure Integral (R : Type) (dim ndof c : Nat) where
  /-- parameter functions of the tensor library -/
  T : TensorLib R
  /-- descriptor of the test element -/
  test : finite_element R dim ndof
  /-- descriptor of the trial element -/
  trial : finite_element R dim ndof
  /-- the rule `GaussQuadratureRule<geometry, Q>()` -/
  rule : QuadratureRule R dim
  /-- the captured q-function -/
  qf : Vec R dim → qf_tuple (dual R c dim) c dim → qf_tuple (dual R c dim) c dim
  /-- the captured element count -/
  num_elements : Nat
  /-- member `J_` -/
  J_ : Vector R
  /-- member `X_` -/
  X_ : Vector R
  /-- the number of derivative records that `qf_derivatives` holds -/
  num_quadrature_points : Nat
  /-- the records addressed through `qf_derivatives_ptr` -/
  qf_derivatives : Nat → derivatives_type R c dim

namespace Integral

variable {dim ndof c : Nat}

/-- The constructor `Integral(num_elements, J, X, Dimension<dim>, Dimension<dim>, qf)`:
`Q = max(test_space::order, trial_space::order) + 1`, the storage is resized to
`X.Size() / spatial_dim` records, which `std::vector<char>::resize` fills with zero
bytes.  Records past the allocation are not part of the object; `outside` stands for
whatever memory holds there.  The division is the integer division of `int`
(`X.Size()` is non-negative, so the cast to `uint32_t` changes nothing). -/
def construct (T : TensorLib R) (test trial : finite_element R dim ndof)
    (test_order trial_order : Nat) (GaussQuadratureRule : Nat → QuadratureRule R dim)
    (outside : Nat → derivatives_type R c dim)
    (num_elements : Nat) (J X : Vector R)
    (qf : Vec R dim → qf_tuple (dual R c dim) c dim → qf_tuple (dual R c dim) c dim) :
    Integral R dim ndof c :=
  let Q := max test_order trial_order + 1
  let num_quadrature_points := X.Size / dim
  { T := T, test := test, trial := trial, rule := GaussQuadratureRule Q, qf := qf,
    num_elements := num_elements, J_ := J, X_ := X,
    num_quadrature_points := num_quadrature_points,
    qf_derivatives := fun k => if k < num_quadrature_points then 0 else outside k }

/-- The method `Mult(input_E, output_E)`: runs `evaluation_kernel`; returns the output
buffer and the Integral with the refreshed derivative records. -/
def Mult (I : Integral R dim ndof c) (input_E output_E : Buffer R) :
    Buffer R × Integral R dim ndof c :=
  let r := evaluation_kernel I.T I.test I.trial I.rule I.qf input_E output_E I.qf_derivatives
    I.J_.data I.X_.data I.num_elements
  (r.1, { I with qf_derivatives := r.2 })

/-- The method `GradientMult(input_E, output_E)`: runs `gradient_kernel`. -/
def GradientMult (I : Integral R dim ndof c) (input_E output_E : Buffer R) : Buffer R :=
  gradient_kernel I.T I.test I.trial I.rule input_E output_E I.qf_derivatives I.J_.data
    I.num_elements

end Integral

/-! ## Element matrices of the reference bilinear forms -/

section reference_forms

variable {dim ndof : Nat}

/-- The element mass matrix: `M_e[i][j] = sum_q N_i(xi_q) * N_j(xi_q) * dx_q` with
`dx_q = det(J_q) * w_q`. -/
def mass_matrix (T : TensorLib R) (el : finite_element R dim ndof) (rule : QuadratureRule R dim)
    (J_ : Buffer R) (e : Nat) : Mat R ndof ndof :=
  fun i j => ∑ q : Fin rule.size,
    el.shape_functions (rule.points q) i * el.shape_functions (rule.points q) j
      * (T.det (J_q rule.size J_ e q : Mat R dim dim) * rule.weights q)

/-- The element diffusion (stiffness) matrix:
`K_e[i][j] = sum_q (gradN(xi_q) * inv(J_q))_i . (gradN(xi_q) * inv(J_q))_j * dx_q` with
`dx_q = det(J_q) * w_q`. -/
def stiffness_matrix (T : TensorLib R) (el : finite_element R dim ndof)
    (rule : QuadratureRule R dim) (J_ : Buffer R) (e : Nat) : Mat R ndof ndof :=
  fun i j => ∑ q : Fin rule.size,
    (∑ k : Fin dim,
      dot (el.shape_function_gradients (rule.points q)) (T.inv (J_q rule.size J_ e q)) i k
        * dot (el.shape_function_gradients (rule.points q)) (T.inv (J_q rule.size J_ e q)) j k)
      * (T.det (J_q rule.size J_ e q : Mat R dim dim) * rule.weights q)

/-- The element load vector: `F_e[i] = sum_q N_i(xi_q) * s(x_q) * dx_q` with
`dx_q = det(J_q) * w_q`. -/
def load_vector (T : TensorLib R) (el : finite_element R dim ndof) (rule : QuadratureRule R dim)
    (s : Vec R dim → R) (J_ X_ : Buffer R) (e : Nat) : Vec R ndof :=
  fun i => ∑ q : Fin rule.size,
    el.shape_functions (rule.points q) i * s (x_q rule.size X_ e q)
      * (T.det (J_q rule.size J_ e q : Mat R dim dim) * rule.weights q)

end reference_forms

/-- The contraction of a gradient tuple with a perturbation of the argument tuple: the
directional derivative that the gradient of one dual number encodes (one row of
`chain_rule`). -/
def directional {c dim : Nat} (g darg : qf_argument R c dim) : R :=
  (∑ b, g.1 b * darg.1 b) + ∑ b, ∑ k, g.2 b k * darg.2 b k

/-! ## Q-functions built from tensor arithmetic -/

/-- An entry of the output of a q-function that is built from tensor arithmetic on the
entries of its arguments: plain numbers (which may depend on the position `x`), the
entries `u[a]` and `du_dx[a][k]` of the argument tuple, sums, differences, products,
negations and scalar multiples. -/
inductive qf_expr (R : Type) (c dim : Nat) : Type
  /-- a plain number, possibly computed from `x` -/
  | coef : (Vec R dim → R) → qf_expr R c dim
  /-- the entry `u[a]` of the value -/
  | u : Fin c → qf_expr R c dim
  /-- the entry `du_dx[a][k]` of the gradient -/
  | du_dx : Fin c → Fin dim → qf_expr R c dim
  /-- a sum -/
  | add : qf_expr R c dim → qf_expr R c dim → qf_expr R c dim
  /-- a difference -/
  | sub : qf_expr R c dim → qf_expr R c dim → qf_expr R c dim
  /-- a product -/
  | mul : qf_expr R c dim → qf_expr R c dim → qf_expr R c dim
  /-- a negation -/
  | neg : qf_expr R c dim → qf_expr R c dim
  /-- a scalar multiple `r * e` with a plain number `r` -/
  | smul : R → qf_expr R c dim → qf_expr R c dim

namespace qf_expr

variable {c dim : Nat}

/-- The value of an expression over a number type `D` (the generic lambda instantiated at
`D`): `D` is `double` with `number = id`, or the dual numbers with
`number = dual.const`. -/
def eval {D : Type} [Add D] [Sub D] [Mul D] [Neg D] [SMul R D] (number : R → D) :
    qf_expr R c dim → Vec R dim → qf_tuple D c dim → D
  | coef f, x, _ => number (f x)
  | u a, _, arg => arg.1 a
  | du_dx a k, _, arg => arg.2 a k
  | add e1 e2, x, arg => eval number e1 x arg + eval number e2 x arg
  | sub e1 e2, x, arg => eval number e1 x arg - eval number e2 x arg
  | mul e1 e2, x, arg => eval number e1 x arg * eval number e2 x arg
  | neg e1, x, arg => - eval number e1 x arg
  | smul r e1, x, arg => r • eval number e1 x arg

end qf_expr

/-- The q-function `(x, arg) -> std::tuple{f0, f1}` whose output entries are the given
expressions, instantiated at the number type `D`. -/
def qf_of_expr {c dim : Nat} {D : Type} [Add D] [Sub D] [Mul D] [Neg D] [SMul R D]
    (number : R → D) (f : qf_tuple (qf_expr R c dim) c dim) :
    Vec R dim → qf_tuple D c dim → qf_tuple D c dim :=
  fun x arg => (fun a => (f.1 a).eval number x arg, fun a k => (f.2 a k).eval number x arg)

/-- The q-function built from `f`, called on dual numbers as the evaluation kernel does. -/
def qf_dual {c dim : Nat} (f : qf_tuple (qf_expr R c dim) c dim) :
    Vec R dim → qf_tuple (dual R c dim) c dim → qf_tuple (dual R c dim) c dim :=
  qf_of_expr dual.const f

/-- The q-function built from `f`, called on plain numbers. -/
def qf_plain {c dim : Nat} (f : qf_tuple (qf_expr R c dim) c dim) :
    Vec R dim → qf_argument R c dim → qf_argument R c dim :=
  qf_of_expr id f

/-! ## The q-function of the thermal tests and small concrete data -/

/-- The q-function of `weak_form_test` for `H1<p>` (tests/weak_form_comparisons.cpp):
`f0 = a * u - s(x)`, `f1 = b * du_dx`, where the test has `s(x) = 100 * x[0] * x[1]`. -/
def affine_qf {dim : Nat} (a b : R) (s : Vec R dim → R) :
    Vec R dim → qf_tuple (dual R 1 dim) 1 dim → qf_tuple (dual R 1 dim) 1 dim :=
  fun x temperature =>
    let u := temperature.1
    let du_dx := temperature.2
    (fun i => a • u i - dual.const (s x), fun i k => b • du_dx i k)

namespace sample

/-- A tensor library instance on the integers for concrete evaluations: the product of
the diagonal as `det`, the identity as `inv` and as `sqrt`. -/
def T : TensorLib Int where
  det := fun A => ∏ i, A i i
  inv := fun A => A
  sqrt := fun x => x

/-- A one-dimensional element with two shape functions `(1 - xi, xi)`. -/
def segment : finite_element Int 1 2 where
  shape_functions := fun xi i => if i = 0 then 1 - xi 0 else xi 0
  shape_function_gradients := fun _ i _ => if i = 0 then -1 else 1

/-- A rule with two points `0` and `1` and unit weights. -/
def rule : QuadratureRule Int 1 where
  size := 2
  points := fun q _ => if q = 0 then 0 else 1
  weights := fun _ => 1

/-- The second point of the rule. -/
def q1 : Fin rule.size := ⟨1, by decide⟩

/-- Element-packed data: entry `k` holds `k + 1`. -/
def U : Buffer Int := fun k => (k : Int) + 1

/-- A Jacobian table with every entry `1`. -/
def J : Buffer Int := fun _ => 1

/-- A coordinate table: entry `k` holds `k`. -/
def X : Buffer Int := fun k => (k : Int)

/-- An output buffer that holds `5` everywhere before the call. -/
def R5 : Buffer Int := fun _ => 5

/-- The q-function `f0 = 2 * u - x[0]`, `f1 = 3 * du_dx`. -/
def qf : Vec Int 1 → qf_tuple (dual Int 1 1) 1 1 → qf_tuple (dual Int 1 1) 1 1 :=
  affine_qf 2 3 (fun x => x 0)

end sample

namespace sample

/-- The coordinate table as an `mfem::Vector` of `2 * 1 * 2` entries. -/
def Xv : Vector Int := ⟨4, X⟩

/-- The Jacobian table as an `mfem::Vector` of `2 * 1 * 1 * 2` entries. -/
def Jv : Vector Int := ⟨4, J⟩

/-- Memory content past the derivative storage: records with `df0_du = 7`. -/
def outside : Nat → derivatives_type Int 1 1 :=
  fun _ => ⟨fun _ _ => 7, fun _ _ _ => 0, fun _ _ _ => 0, fun _ _ _ _ => 0⟩

/-- A freshly constructed Integral over two elements of the sample data. -/
def fresh : Integral Int 1 2 1 :=
  Integral.construct T segment segment 1 1 (fun _ => rule) outside 2 Jv Xv qf

end sample

namespace sample

/-- The q-function that returns `(f0 = 0, f1 = 0)` for all inputs. -/
def zero_qf : Vec Int 1 → qf_tuple (dual Int 1 1) 1 1 → qf_tuple (dual Int 1 1) 1 1 :=
  fun _ _ => 0

end sample

namespace sample

/-- Derivative records whose only non-zero block is `df1_du = 1`. -/
def cache_df1_du : Nat → derivatives_type Int 1 1 :=
  fun _ => ⟨fun _ _ => 0, fun _ _ _ => 0, fun _ _ _ => 1, fun _ _ _ _ => 0⟩

/-- A two-dimensional element with one shape function, of value `1` and gradient `(1, 0)`. -/
def point2 : finite_element Int 2 1 where
  shape_functions := fun _ _ => 1
  shape_function_gradients := fun _ _ k => if k = 0 then 1 else 0

/-- A two-dimensional rule with one point and unit weight. -/
def rule2 : QuadratureRule Int 2 where
  size := 1
  points := fun _ _ => 0
  weights := fun _ => 1

/-- The derivative records of the vector q-function `f0 = 0`, `f1 = du_dx`:
`df1_dgradu[a][m][b][l] = 1` when `a = b` and `m = l`. -/
def cache_grad : Nat → derivatives_type Int 2 2 :=
  fun _ => ⟨fun _ _ => 0, fun _ _ _ => 0, fun _ _ _ => 0,
            fun a m b l => if a = b ∧ m = l then 1 else 0⟩

/-- The derivative records of the vector q-function `f0 = 0`,
`f1 = du_dx + transpose(du_dx)`, a symmetric flux. -/
def cache_sym : Nat → derivatives_type Int 2 2 :=
  fun _ => ⟨fun _ _ => 0, fun _ _ _ => 0, fun _ _ _ => 0,
            fun a m b l => (if a = b ∧ m = l then 1 else 0) + (if a = l ∧ m = b then 1 else 0)⟩

end sample

namespace sample

/-- The sample tensor library over any commutative ring. -/
def T_over (R : Type) [CommRing R] : TensorLib R where
  det := fun A => ∏ i, A i i
  inv := fun A => A
  sqrt := fun x => x

/-- The sample segment element over any commutative ring. -/
def segment_over (R : Type) [CommRing R] : finite_element R 1 2 where
  shape_functions := fun xi i => if i = 0 then 1 - xi 0 else xi 0
  shape_function_gradients := fun _ i _ => if i = 0 then -1 else 1

/-- The sample rule over any commutative ring. -/
def rule_over (R : Type) [CommRing R] : QuadratureRule R 1 where
  size := 2
  points := fun q _ => if q = 0 then 0 else 1
  weights := fun _ => 1

/-- The expressions of `f0 = u * u - x[0]`, `f1 = (3 * du_dx) * u` over any commutative
ring. -/
def nonlinear_over (R : Type) [CommRing R] : qf_tuple (qf_expr R 1 1) 1 1 :=
  (fun _ => .sub (.mul (.u 0) (.u 0)) (.coef (fun x => x 0)),
   fun _ _ => .mul (.smul 3 (.du_dx 0 0)) (.u 0))

/-- Element-packed data over any commutative ring: entry `k` holds `k + 1`. -/
def U_over (R : Type) [CommRing R] : Buffer R := fun k => (k : R) + 1

/-- A table over any commutative ring with every entry `1`. -/
def ones_over (R : Type) [CommRing R] : Buffer R := fun _ => 1

end sample

/-! ## Outcome of the evaluation kernel -/

/-- The error kinds that the specification lists for the engine. -/
inductive KernelError : Type
  /-- a non-positive measure at a quadrature point -/
  | DegenerateElement
  /-- a non-finite q-function output -/
  | NumericError
  deriving DecidableEq

/-- The outcome of a call of `evaluation_kernel`.  The source function returns `void` and
contains no `throw`, no early `return`, no assertion and no exit: both loops run to the
end for every input and the buffers hold the result, so the outcome is always a
result. -/
def evaluation_kernel_outcome {dim ndof c : Nat} (T : TensorLib R)
    (test trial : finite_element R dim ndof) (rule : QuadratureRule R dim)
    (qf : Vec R dim → qf_tuple (dual R c dim) c dim → qf_tuple (dual R c dim) c dim)
    (U R_ : Buffer R) (derivatives_ptr : Nat → derivatives_type R c dim) (J_ X_ : Buffer R)
    (num_elements : Nat) :
    Except KernelError (Buffer R × (Nat → derivatives_type R c dim)) :=
  Except.ok (evaluation_kernel T test trial rule qf U R_ derivatives_ptr J_ X_ num_elements)

/-! ## The derivative storage as seen by the three kernels -/

section storage

variable {dim ndof c : Nat}

/-- The kernel `gradient_kernel` as a transformer of the two storages it holds pointers
to: `dR` (`ReadWrite`) and the derivative records.  The source only reads
`derivatives_ptr[e * rule.size() + q]`; no statement assigns through `derivatives_ptr`. -/
def gradient_kernel_state (T : TensorLib R) (test trial : finite_element R dim ndof)
    (rule : QuadratureRule R dim) (dU dR : Buffer R)
    (derivatives_ptr : Nat → derivatives_type R c dim) (J_ : Buffer R) (num_elements : Nat) :
    Buffer R × (Nat → derivatives_type R c dim) :=
  (gradient_kernel T test trial rule dU dR derivatives_ptr J_ num_elements, derivatives_ptr)

/-- The kernel `gradient_matrix_kernel` as a transformer of the two storages it holds
pointers to: `K_e` (`ReadWrite`) and the derivative records, which the source only
reads. -/
def gradient_matrix_kernel_state (T : TensorLib R) {test_ndof trial_ndof : Nat}
    (test : finite_element R dim test_ndof) (trial : finite_element R dim trial_ndof)
    (test_components trial_components : Nat) (rule : QuadratureRule R dim) (K_e : Buffer R)
    (derivatives_ptr : Nat → derivatives_type R test_components dim) (J_ : Buffer R)
    (num_elements : Nat) : Buffer R × (Nat → derivatives_type R test_components dim) :=
  (gradient_matrix_kernel T test trial test_components trial_components rule K_e
    derivatives_ptr J_ num_elements, derivatives_ptr)

/-- The assignments `derivatives_ptr[e * rule.size() + q] = get_gradient(qf_output)` of
`evaluation_kernel`, as (index, record) pairs in the order in which the two loops execute
them. -/
def derivative_writes (T : TensorLib R) (trial : finite_element R dim ndof)
    (rule : QuadratureRule R dim)
    (qf : Vec R dim → qf_tuple (dual R c dim) c dim → qf_tuple (dual R c dim) c dim)
    (U J_ X_ : Buffer R) (num_elements : Nat) : List (Nat × derivatives_type R c dim) :=
  (List.range num_elements).flatMap (fun e =>
    (List.finRange rule.size).map (fun (q : Fin rule.size) =>
      (e * rule.size + q, get_gradient (qf_output T trial rule qf U J_ X_ e q))))

end storage

/-! ## H(curl) elements -/

/-- The number of entries of the curl of an H(curl) field: `3` in three dimensions
(`tensor<double, 3>`), `1` otherwise (a `double` in two dimensions), as in
`lambda_argument<Hcurl<p>, dim, dim>`. -/
abbrev curl_components (dim : Nat) : Nat := if dim = 3 then 3 else 1

/-- The descriptor `finite_element<g, Hcurl<p>>` (`family == Family::HCURL`): vector
valued shape functions and their curls.  The tables come from `finite_element.hpp` and
are parameters. -/
structure finite_element_Hcurl (F : Type) (dim ndof : Nat) where
  /-- `shape_functions(xi)`, a `tensor<double, ndof, dim>` -/
  shape_functions : Vec F dim → Mat F ndof dim
  /-- `shape_function_curl(xi)`, a `tensor<double, ndof>` in two dimensions and a
  `tensor<double, ndof, 3>` in three -/
  shape_function_curl : Vec F dim → Mat F ndof (curl_components dim)

namespace impl

/-- The volume overload of `impl::Preprocess<element_type>(u, xi, J)`, HCURL branch:
`value = dot(u, dot(N(xi), inv(J)))`, `curl = dot(u, curl_N(xi) / det(J))` and, for
`dim == 3`, `curl = dot(curl, transpose(J))`. -/
def Preprocess_Hcurl {F : Type} [Field F] (T : TensorLib F) {dim ndof : Nat}
    (element_type : finite_element_Hcurl F dim ndof) (u : Vec F ndof) (xi : Vec F dim)
    (J : Mat F dim dim) : Vec F dim × Vec F (curl_components dim) :=
  let value := dot_vm u (dot (element_type.shape_functions xi) (T.inv J))
  let curl := dot_vm u (fun i k => element_type.shape_function_curl xi i k / T.det J)
  if h : dim = 3 then
    (value, fun k =>
      dot_vm (fun m : Fin dim =>
          curl (Fin.cast (by unfold curl_components; rw [if_pos h]; exact h) m))
        (transpose J) (Fin.cast (by unfold curl_components; rw [if_pos h]; exact h.symm) k))
  else (value, curl)

/-- The volume overload of `impl::Postprocess<element_type>(f, xi, J)`, HCURL branch:
`W = dot(N(xi), inv(J))`, `curl_W = curl_N(xi) / det(J)`, for `dim == 3` replaced by
`dot(curl_W, transpose(J))`, and the result `W * get<0>(f) + curl_W * get<1>(f)`.
Modelled from the spec: `*` between two tensors contracts like `dot`
(`(N·J⁻¹)·f0 + (curl_N/det(J))·f1`). -/
def Postprocess_Hcurl {F : Type} [Field F] (T : TensorLib F) {dim ndof : Nat}
    (element_type : finite_element_Hcurl F dim ndof)
    (f : Vec F dim × Vec F (curl_components dim)) (xi : Vec F dim) (J : Mat F dim dim) :
    Vec F ndof :=
  let W := dot (element_type.shape_functions xi) (T.inv J)
  let curl_W : Mat F ndof (curl_components dim) :=
    fun i k => element_type.shape_function_curl xi i k / T.det J
  let curl_W : Mat F ndof (curl_components dim) :=
    if h : dim = 3 then
      fun i k =>
        dot (fun i (m : Fin dim) =>
            curl_W i (Fin.cast (by unfold curl_components; rw [if_pos h]; exact h) m))
          (transpose J) i (Fin.cast (by unfold curl_components; rw [if_pos h]; exact h.symm) k)
    else curl_W
  fun i => dot_mv W f.1 i + dot_mv curl_W f.2 i

end impl

/-! ## Hexahedron elements -/

/-- The loop nest that fills the tables of the hexahedron elements:
`int count = 0; for k, for j, for i: table[count++] = entry(i, j, k)`, over a store `S`
with a write operation; returns the final `count` and the store. -/
def hexahedron_loops {S V : Type} (write : S → Nat → V → S) (p : Nat)
    (entry : Fin (p + 1) → Fin (p + 1) → Fin (p + 1) → V) (table : S) : Nat × S :=
  for_constexpr (p + 1) (fun k => for_constexpr (p + 1) (fun j =>
    for_constexpr (p + 1) (fun i (st : Nat × S) =>
      (st.1 + 1, write st.2 st.1 (entry i j k))))) (0, table)

/-- The indices `count` at which the loop nest of a hexahedron table stores, in the order
of the stores. -/
def hexahedron_writes (p : Nat) : List Nat :=
  (hexahedron_loops (fun (log : List Nat) n (_ : Unit) => log ++ [n]) p
    (fun _ _ _ => ()) []).2

/-- The constant `ndof = (p + 1) * (p + 1) * (p + 1)` of the hexahedron descriptors. -/
abbrev hexahedron_ndof (p : Nat) : Nat := (p + 1) * (p + 1) * (p + 1)

namespace hexahedron_H1

/-- The function `finite_element<Geometry::Hexahedron, H1<p, c>>::shape_functions(xi)`;
the one-dimensional interpolant `GaussLobattoInterpolation01<p + 1>` is a parameter. -/
def shape_functions (p : Nat) (GaussLobattoInterpolation01 : R → Vec R (p + 1))
    (xi : Vec R 3) : Vec R (hexahedron_ndof p) :=
  let N_xi := GaussLobattoInterpolation01 (xi 0)
  let N_eta := GaussLobattoInterpolation01 (xi 1)
  let N_zeta := GaussLobattoInterpolation01 (xi 2)
  let N := (hexahedron_loops (fun (N : Nat → R) n v => Function.update N n v) p
    (fun i j k => N_xi i * N_eta j * N_zeta k) (fun _ => 0)).2
  fun n => N n

/-- The function
`finite_element<Geometry::Hexahedron, H1<p, c>>::shape_function_gradients(xi)`; the
interpolant and its derivative `GaussLobattoInterpolationDerivative01<p + 1>` are
parameters. -/
def shape_function_gradients (p : Nat) (GaussLobattoInterpolation01 : R → Vec R (p + 1))
    (GaussLobattoInterpolationDerivative01 : R → Vec R (p + 1))
    (xi : Vec R 3) : Mat R (hexahedron_ndof p) 3 :=
  let N_xi := GaussLobattoInterpolation01 (xi 0)
  let N_eta := GaussLobattoInterpolation01 (xi 1)
  let N_zeta := GaussLobattoInterpolation01 (xi 2)
  let dN_xi := GaussLobattoInterpolationDerivative01 (xi 0)
  let dN_eta := GaussLobattoInterpolationDerivative01 (xi 1)
  let dN_zeta := GaussLobattoInterpolationDerivative01 (xi 2)
  let dN := (hexahedron_loops (fun (dN : Nat → Vec R 3) n v => Function.update dN n v) p
    (fun i j k => ![dN_xi i * N_eta j * N_zeta k,
                    N_xi i * dN_eta j * N_zeta k,
                    N_xi i * N_eta j * dN_zeta k]) (fun _ => 0)).2
  fun n => dN n

/-- The descriptor `finite_element<Geometry::Hexahedron, H1<p, c>>` as an H1-family
element. -/
def element (p : Nat) (GaussLobattoInterpolation01 : R → Vec R (p + 1))
    (GaussLobattoInterpolationDerivative01 : R → Vec R (p + 1)) :
    finite_element R 3 (hexahedron_ndof p) where
  shape_functions := shape_functions p GaussLobattoInterpolation01
  shape_function_gradients :=
    shape_function_gradients p GaussLobattoInterpolation01
      GaussLobattoInterpolationDerivative01

end hexahedron_H1

namespace hexahedron_L2

/-- The function `finite_element<Geometry::Hexahedron, L2<p, c>>::shape_functions(xi)`;
the one-dimensional interpolant `GaussLegendreInterpolation<p + 1>` is a parameter. -/
def shape_functions (p : Nat) (GaussLegendreInterpolation : R → Vec R (p + 1))
    (xi : Vec R 3) : Vec R (hexahedron_ndof p) :=
  let N_xi := GaussLegendreInterpolation (xi 0)
  let N_eta := GaussLegendreInterpolation (xi 1)
  let N_zeta := GaussLegendreInterpolation (xi 2)
  let N := (hexahedron_loops (fun (N : Nat → R) n v => Function.update N n v) p
    (fun i j k => N_xi i * N_eta j * N_zeta k) (fun _ => 0)).2
  fun n => N n

/-- The function
`finite_element<Geometry::Hexahedron, L2<p, c>>::shape_function_gradients(xi)`; the
interpolant and its derivative `GaussLegendreInterpolationDerivative<p + 1>` are
parameters. -/
def shape_function_gradients (p : Nat) (GaussLegendreInterpolation : R → Vec R (p + 1))
    (GaussLegendreInterpolationDerivative : R → Vec R (p + 1))
    (xi : Vec R 3) : Mat R (hexahedron_ndof p) 3 :=
  let N_xi := GaussLegendreInterpolation (xi 0)
  let N_eta := GaussLegendreInterpolation (xi 1)
  let N_zeta := GaussLegendreInterpolation (xi 2)
  let dN_xi := GaussLegendreInterpolationDerivative (xi 0)
  let dN_eta := GaussLegendreInterpolationDerivative (xi 1)
  let dN_zeta := GaussLegendreInterpolationDerivative (xi 2)
  let dN := (hexahedron_loops (fun (dN : Nat → Vec R 3) n v => Function.update dN n v) p
    (fun i j k => ![dN_xi i * N_eta j * N_zeta k,
                    N_xi i * dN_eta j * N_zeta k,
                    N_xi i * N_eta j * dN_zeta k]) (fun _ => 0)).2
  fun n => dN n

/-- The descriptor `finite_element<Geometry::Hexahedron, L2<p, c>>`, which declares
`family = Family::H1`, as an H1-family element. -/
def element (p : Nat) (GaussLegendreInterpolation : R → Vec R (p + 1))
    (GaussLegendreInterpolationDerivative : R → Vec R (p + 1)) :
    finite_element R 3 (hexahedron_ndof p) where
  shape_functions := shape_functions p GaussLegendreInterpolation
  shape_function_gradients :=
    shape_function_gradients p GaussLegendreInterpolation
      GaussLegendreInterpolationDerivative

end hexahedron_L2

namespace sample

/-- A Jacobian table with every entry `-1`: negative measure at every point. -/
def J_neg : Buffer Int := fun _ => -1

/-- The identity matrix in two dimensions. -/
def I2 : Mat Int 2 2 := fun i j => if i = j then 1 else 0

/-- A flux that is not symmetric: `f1[0][1] = 1`, all other entries `0`. -/
def flux01 : qf_argument Int 2 2 := (fun _ => 0, fun a k => if a = 0 ∧ k = 1 then 1 else 0)

/-- The interpolant `(1 - x, x)` of order `p = 1` on `[0, 1]`. -/
def linear_interpolation : Int → Vec Int 2 := fun x i => if i = 0 then 1 - x else x

/-- A reference point of the hexahedron. -/
def xi3 : Vec Int 3 := fun k => (k : Int) + 2

/-- A coordinate table as an `mfem::Vector` of `3` entries, one less than
`2 * 1 * 2`. -/
def Xv3 : Vector Int := ⟨3, X⟩

end sample

/-! ## The H1 `Postprocess` in the words of the specification -/

/-- The entries that the specification gives for the H1 `Postprocess`:
`N_i(xi) * f0[a] + sum_k (gradN(xi) * inv(J))[i][k] * f1[a][k]`. -/
def impl.Postprocess_spec (T : TensorLib R) {dim ndof c : Nat}
    (element_type : finite_element R dim ndof) (f : qf_argument R c dim) (xi : Vec R dim)
    (J : Mat R dim dim) : Fin ndof → Fin c → R :=
  fun i a => element_type.shape_functions xi i * f.1 a
    + ∑ k, dot (element_type.shape_function_gradients xi) (T.inv J) i k * f.2 a k

/-- A `2 x 1` matrix over any commutative ring, with the entries `3` and `4`. -/
def sample.column_over (R : Type) [CommRing R] : Mat R 2 1 := fun i _ => if i = 0 then 3 else 4

/-! ## Static members of the element descriptors -/

/-- The enumerators of `Family` that `integral.hpp` and the descriptors name, and `L2`;
the enum is declared in `finite_element.hpp`. -/
inductive Family : Type
  /-- `Family::H1` -/
  | H1
  /-- `Family::HCURL` -/
  | HCURL
  /-- `Family::HDIV` -/
  | HDIV
  /-- `Family::L2` -/
  | L2
  deriving DecidableEq

/-- The enumerators of `Geometry` listed in `supported_geometries`. -/
inductive Geometry : Type
  /-- `Geometry::Point` -/
  | Point
  /-- `Geometry::Segment` -/
  | Segment
  /-- `Geometry::Quadrilateral` -/
  | Quadrilateral
  /-- `Geometry::Hexahedron` -/
  | Hexahedron
  deriving DecidableEq

/-- The static members of a specialization of `finite_element<g, space>`; the alias
`residual_type` is recorded by the extents of the tensor. -/
structure element_descriptor where
  /-- `geometry` -/
  geometry : Geometry
  /-- `family` -/
  family : Family
  /-- `components` -/
  components : Nat
  /-- `dim` -/
  dim : Nat
  /-- `ndof` -/
  ndof : Nat
  /-- the extents of `residual_type` -/
  residual_type : List Nat
  deriving DecidableEq

/-- The static members of `finite_element<Geometry::Hexahedron, H1<p, c>>`. -/
def hexahedron_H1.descriptor (p c : Nat) : element_descriptor where
  geometry := Geometry.Hexahedron
  family := Family.H1
  components := c
  dim := 3
  ndof := (p + 1) * (p + 1) * (p + 1)
  residual_type :=
    if c = 1 then [(p + 1) * (p + 1) * (p + 1)] else [(p + 1) * (p + 1) * (p + 1), c]

/-- The static members of `finite_element<Geometry::Hexahedron, L2<p, c>>`. -/
def hexahedron_L2.descriptor (p c : Nat) : element_descriptor where
  geometry := Geometry.Hexahedron
  family := Family.H1
  components := c
  dim := 3
  ndof := (p + 1) * (p + 1) * (p + 1)
  residual_type :=
    if c = 1 then [(p + 1) * (p + 1) * (p + 1)] else [(p + 1) * (p + 1) * (p + 1), c]

/-- The branches of the `if constexpr` chains on `element_type::family` in
`impl::Preprocess` and `impl::Postprocess`. -/
inductive family_branch : Type
  /-- the branch under `family == Family::H1` -/
  | H1
  /-- the branch under `family == Family::HCURL` -/
  | HCURL
  /-- no branch: the function has no `return` for the family -/
  | none
  deriving DecidableEq

/-- The branch of `impl::Preprocess<element_type>` and `impl::Postprocess<element_type>`
that is instantiated for a family: `if constexpr (family == Family::H1) { ... }` followed
by `if constexpr (family == Family::HCURL) { ... }`. -/
def impl.branch (family : Family) : family_branch :=
  if family = Family.H1 then family_branch.H1
  else if family = Family.HCURL then family_branch.HCURL
  else family_branch.none

/-- The `1 x 1` matrix with the entry `-1`, over any commutative ring. -/
def sample.minus_one_over (R : Type) [CommRing R] : Mat R 1 1 := fun _ _ => -1

/-- The interpolant `(1 - x, x)` of order `p = 1`, over any commutative ring. -/
def sample.linear_over (R : Type) [CommRing R] : R → Vec R 2 :=
  fun x i => if i = 0 then 1 - x else x

/-- The derivative `(-1, 1)` of the interpolant `(1 - x, x)`. -/
def sample.linear_derivative_over (R : Type) [CommRing R] : R → Vec R 2 :=
  fun _ i => if i = 0 then -1 else 1

/-- Element-packed data that agree with `sample.U` on the two entries of element `0` and
are `0` elsewhere. -/
def sample.U_first : Buffer Int := fun k => if k < 2 then (k : Int) + 1 else 0

/-- A table that agrees with `sample.J` on the two entries of element `0` and is `3`
elsewhere. -/
def sample.J_first : Buffer Int := fun k => if k < 2 then 1 else 3

section loops

variable {α σ M : Type}

theorem foldl_proj (proj : σ → M) (f : σ → α → σ) (g : M → α → M)
    (h : ∀ s x, proj (f s x) = g (proj s) x) (l : List α) (s : σ) :
    proj (l.foldl f s) = l.foldl g (proj s) := by
  induction l generalizing s with
  | nil => rfl
  | cons x l ih => simp only [List.foldl_cons]; rw [ih, h]

theorem foldl_obs [AddCommMonoid M] (obs : σ → M) (f : σ → α → σ) (g : α → M)
    (h : ∀ s x, obs (f s x) = obs s + g x) (l : List α) (s : σ) :
    obs (l.foldl f s) = obs s + (l.map g).sum := by
  induction l generalizing s with
  | nil => simp
  | cons x l ih => simp only [List.foldl_cons, List.map_cons, List.sum_cons]; rw [ih, h, add_assoc]

theorem for_constexpr_obs [AddCommMonoid M] (obs : σ → M) (n : Nat) (body : Fin n → σ → σ)
    (g : Fin n → M) (h : ∀ i s, obs (body i s) = obs s + g i) (s : σ) :
    obs (for_constexpr n body s) = obs s + ∑ i, g i := by
  unfold for_constexpr
  rw [foldl_obs obs _ g (fun s x => h x s), Fin.sum_univ_def]

theorem for_constexpr_acc [AddCommMonoid M] (n : Nat) (g : Fin n → M) (a : M) :
    for_constexpr n (fun i acc => acc + g i) a = a + ∑ i, g i :=
  for_constexpr_obs (fun x : M => x) n _ g (fun _ _ => rfl) a

theorem range_obs [AddCommMonoid M] (obs : σ → M) (f : σ → Nat → σ) (g : Nat → M)
    (h : ∀ s x, obs (f s x) = obs s + g x) (n : Nat) (s : σ) :
    obs ((List.range n).foldl f s) = obs s + ∑ i in Finset.range n, g i := by
  rw [foldl_obs obs f g h]
  rfl

theorem foldl_update_of_not_mem {D : Type} (idx : α → Nat) (v : α → D) (l : List α)
    (s : Nat → D) (k : Nat) (hk : ∀ x ∈ l, idx x ≠ k) :
    (l.foldl (fun s x => Function.update s (idx x) (v x)) s) k = s k := by
  induction l generalizing s with
  | nil => rfl
  | cons x l ih =>
    simp only [List.foldl_cons]
    rw [ih _ (fun y hy => hk y (List.mem_cons_of_mem _ hy))]
    exact Function.update_noteq (Ne.symm (hk x (List.mem_cons_self _ _))) _ _

theorem foldl_update_of_mem {D : Type} (idx : α → Nat) (v : α → D)
    (hinj : Function.Injective idx) (l : List α) (s : Nat → D) (x : α) (hx : x ∈ l) :
    (l.foldl (fun s x => Function.update s (idx x) (v x)) s) (idx x) = v x := by
  induction l generalizing s with
  | nil => simp at hx
  | cons y l ih =>
    simp only [List.foldl_cons]
    by_cases hxl : x ∈ l
    · exact ih _ hxl
    · have hxy : x = y := by
        rcases List.mem_cons.mp hx with h | h
        · exact h
        · exact absurd h hxl
      subst hxy
      rw [foldl_update_of_not_mem idx v l _ (idx x)
        (fun z hz hzx => hxl (hinj hzx ▸ hz))]
      exact Function.update_same _ _ _

end loops

/-! ## Buffers and the `impl` helpers -/

theorem add_at_apply (a : Buffer R) (k : Nat) (v : R) (j : Nat) :
    add_at a k v j = a j + if k = j then v else 0 := by
  unfold add_at
  by_cases h : k = j
  · subst h; simp
  · rw [Function.update_noteq (Ne.symm h)]; simp [h]

theorem add_at2_apply (K : Nat → Nat → R) (r s : Nat) (v : R) (i j : Nat) :
    add_at2 K r s v i j = K i j + if r = i ∧ s = j then v else 0 := by
  unfold add_at2
  by_cases hr : r = i
  · subst hr
    by_cases hs : s = j
    · subst hs; simp
    · rw [Function.update_same, Function.update_noteq (Ne.symm hs)]; simp [hs]
  · rw [Function.update_noteq (Ne.symm hr)]; simp [hr]

theorem impl.Add_apply (ndof c : Nat) (r_global : Buffer R) (r_local : Fin ndof → Fin c → R)
    (e k : Nat) :
    impl.Add ndof c r_global r_local e k
      = r_global k + ∑ i : Fin ndof, ∑ a : Fin c,
          if (i : Nat) + ndof * ((a : Nat) + c * e) = k then r_local i a else 0 := by
  unfold impl.Add
  split
  · rename_i h
    subst h
    rw [for_constexpr_obs (fun r : Buffer R => r k) ndof _
      (fun i => if (i : Nat) + ndof * e = k then r_local i ⟨0, by omega⟩ else 0)
      (fun i s => add_at_apply _ _ _ _)]
    congr 1
    apply Finset.sum_congr rfl
    intro i _
    simp
  · rw [for_constexpr_obs (fun r : Buffer R => r k) ndof _
      (fun i => ∑ a : Fin c, if (i : Nat) + ndof * ((a : Nat) + c * e) = k then r_local i a else 0)]
    intro i s
    exact for_constexpr_obs (fun r : Buffer R => r k) c _
      (fun a => if (i : Nat) + ndof * ((a : Nat) + c * e) = k then r_local i a else 0)
      (fun a s => add_at_apply _ _ _ _) s

/-- Offsets of the element-packed layout determine the local index, the component and
the element. -/
theorem packed_index_inj {ndof c : Nat} (i i0 : Fin ndof) (a a0 : Fin c) (e e0 : Nat)
    (h : (i : Nat) + ndof * ((a : Nat) + c * e) = (i0 : Nat) + ndof * ((a0 : Nat) + c * e0)) :
    i = i0 ∧ a = a0 ∧ e = e0 := by
  have hi := i.isLt
  have hi0 := i0.isLt
  have ha := a.isLt
  have ha0 := a0.isLt
  have h1 : ((i : Nat) + ndof * ((a : Nat) + c * e)) % ndof = (i : Nat) := by
    rw [Nat.add_mul_mod_self_left]; exact Nat.mod_eq_of_lt hi
  have h2 : ((i0 : Nat) + ndof * ((a0 : Nat) + c * e0)) % ndof = (i0 : Nat) := by
    rw [Nat.add_mul_mod_self_left]; exact Nat.mod_eq_of_lt hi0
  have hii : (i : Nat) = i0 := by rw [← h1, ← h2, h]
  have hpos : 0 < ndof := by omega
  have h3 : (a : Nat) + c * e = (a0 : Nat) + c * e0 := by
    have : ndof * ((a : Nat) + c * e) = ndof * ((a0 : Nat) + c * e0) := by omega
    exact Nat.eq_of_mul_eq_mul_left hpos this
  have h4 : ((a : Nat) + c * e) % c = (a : Nat) := by
    rw [Nat.add_mul_mod_self_left]; exact Nat.mod_eq_of_lt ha
  have h5 : ((a0 : Nat) + c * e0) % c = (a0 : Nat) := by
    rw [Nat.add_mul_mod_self_left]; exact Nat.mod_eq_of_lt ha0
  have haa : (a : Nat) = a0 := by rw [← h4, ← h5, h3]
  have hcpos : 0 < c := by omega
  have hee : e = e0 := by
    have : c * e = c * e0 := by omega
    exact Nat.eq_of_mul_eq_mul_left hcpos this
  exact ⟨Fin.ext hii, Fin.ext haa, hee⟩

/-- A sum over all slots of the packed layout that selects one offset returns the entry
of that slot. -/
theorem sum_packed_select {ndof c : Nat} (f : Nat → Fin ndof → Fin c → R) (n : Nat)
    (i0 : Fin ndof) (a0 : Fin c) (e0 : Nat) (he0 : e0 < n) :
    (∑ e in Finset.range n, ∑ i : Fin ndof, ∑ a : Fin c,
      if (i : Nat) + ndof * ((a : Nat) + c * e) = (i0 : Nat) + ndof * ((a0 : Nat) + c * e0)
      then f e i a else 0) = f e0 i0 a0 := by
  rw [Finset.sum_eq_single e0]
  · rw [Finset.sum_eq_single i0]
    · rw [Finset.sum_eq_single a0]
      · simp
      · intro a _ ha
        rw [if_neg]
        intro h
        exact ha (packed_index_inj i0 i0 a a0 e0 e0 h).2.1
      · simp
    · intro i _ hi
      apply Finset.sum_eq_zero
      intro a _
      rw [if_neg]
      intro h
      exact hi (packed_index_inj i i0 a a0 e0 e0 h).1
    · simp
  · intro e _ he
    apply Finset.sum_eq_zero
    intro i _
    apply Finset.sum_eq_zero
    intro a _
    rw [if_neg]
    intro h
    exact he (packed_index_inj i i0 a a0 e e0 h).2.2
  · intro h
    exact absurd (Finset.mem_range.mpr he0) h

/-! ## The quadrature loops -/

section kernel_lemmas

variable {dim ndof c : Nat}

theorem evaluation_kernel_element_fst (T : TensorLib R) (test trial : finite_element R dim ndof)
    (rule : QuadratureRule R dim)
    (qf : Vec R dim → qf_tuple (dual R c dim) c dim → qf_tuple (dual R c dim) c dim)
    (U J_ X_ : Buffer R) (cache : Nat → derivatives_type R c dim) (e : Nat) :
    (evaluation_kernel_element T test trial rule qf U J_ X_ cache e).1
      = fun i a => ∑ q : Fin rule.size,
          impl.Postprocess T test (get_value (qf_output T trial rule qf U J_ X_ e q))
            (rule.points q) (J_q rule.size J_ e q) i a
          * (impl.Measure T (J_q rule.size J_ e q : Mat R dim dim) * rule.weights q) := by
  unfold evaluation_kernel_element
  rw [for_constexpr_obs Prod.fst rule.size _
    (fun q => fun i a =>
      impl.Postprocess T test (get_value (qf_output T trial rule qf U J_ X_ e q))
        (rule.points q) (J_q rule.size J_ e q) i a
      * (impl.Measure T (J_q rule.size J_ e q : Mat R dim dim) * rule.weights q))
    (fun _ _ => rfl)]
  funext i a
  simp [Finset.sum_apply]

theorem evaluation_kernel_element_snd (T : TensorLib R) (test trial : finite_element R dim ndof)
    (rule : QuadratureRule R dim)
    (qf : Vec R dim → qf_tuple (dual R c dim) c dim → qf_tuple (dual R c dim) c dim)
    (U J_ X_ : Buffer R) (cache : Nat → derivatives_type R c dim) (e : Nat) :
    (evaluation_kernel_element T test trial rule qf U J_ X_ cache e).2
      = (List.finRange rule.size).foldl
          (fun (s : Nat → derivatives_type R c dim) (q : Fin rule.size) =>
            Function.update s (e * rule.size + q)
              (get_gradient (qf_output T trial rule qf U J_ X_ e q))) cache := by
  unfold evaluation_kernel_element for_constexpr
  exact foldl_proj Prod.snd _
    (fun (s : Nat → derivatives_type R c dim) (q : Fin rule.size) =>
      Function.update s (e * rule.size + q)
        (get_gradient (qf_output T trial rule qf U J_ X_ e q)))
    (fun _ _ => rfl) _ _

theorem evaluation_kernel_element_snd_written (T : TensorLib R)
    (test trial : finite_element R dim ndof) (rule : QuadratureRule R dim)
    (qf : Vec R dim → qf_tuple (dual R c dim) c dim → qf_tuple (dual R c dim) c dim)
    (U J_ X_ : Buffer R) (cache : Nat → derivatives_type R c dim) (e : Nat)
    (q : Fin rule.size) :
    (evaluation_kernel_element T test trial rule qf U J_ X_ cache e).2 (e * rule.size + q)
      = get_gradient (qf_output T trial rule qf U J_ X_ e q) := by
  rw [evaluation_kernel_element_snd]
  exact foldl_update_of_mem (fun q : Fin rule.size => e * rule.size + (q : Nat)) _
    (fun x y h => Fin.ext (by simpa using h)) _ _ q (List.mem_finRange q)

theorem evaluation_kernel_element_snd_frame (T : TensorLib R)
    (test trial : finite_element R dim ndof) (rule : QuadratureRule R dim)
    (qf : Vec R dim → qf_tuple (dual R c dim) c dim → qf_tuple (dual R c dim) c dim)
    (U J_ X_ : Buffer R) (cache : Nat → derivatives_type R c dim) (e k : Nat)
    (hk : ∀ q : Fin rule.size, e * rule.size + q ≠ k) :
    (evaluation_kernel_element T test trial rule qf U J_ X_ cache e).2 k = cache k := by
  rw [evaluation_kernel_element_snd]
  exact foldl_update_of_not_mem (fun q : Fin rule.size => e * rule.size + (q : Nat)) _ _ _ k
    (fun q _ => hk q)

theorem evaluation_kernel_succ (T : TensorLib R) (test trial : finite_element R dim ndof)
    (rule : QuadratureRule R dim)
    (qf : Vec R dim → qf_tuple (dual R c dim) c dim → qf_tuple (dual R c dim) c dim)
    (U R_ : Buffer R) (cache : Nat → derivatives_type R c dim) (J_ X_ : Buffer R) (n : Nat) :
    evaluation_kernel T test trial rule qf U R_ cache J_ X_ (n + 1)
      = (impl.Add ndof c (evaluation_kernel T test trial rule qf U R_ cache J_ X_ n).1
          (evaluation_kernel_element T test trial rule qf U J_ X_
            (evaluation_kernel T test trial rule qf U R_ cache J_ X_ n).2 n).1 n,
         (evaluation_kernel_element T test trial rule qf U J_ X_
            (evaluation_kernel T test trial rule qf U R_ cache J_ X_ n).2 n).2) := by
  unfold evaluation_kernel
  rw [List.range_succ, List.foldl_append]
  rfl

theorem evaluation_kernel_cache_frame (T : TensorLib R) (test trial : finite_element R dim ndof)
    (rule : QuadratureRule R dim)
    (qf : Vec R dim → qf_tuple (dual R c dim) c dim → qf_tuple (dual R c dim) c dim)
    (U R_ : Buffer R) (cache : Nat → derivatives_type R c dim) (J_ X_ : Buffer R) (n k : Nat)
    (hk : n * rule.size ≤ k) :
    (evaluation_kernel T test trial rule qf U R_ cache J_ X_ n).2 k = cache k := by
  induction n with
  | zero => rfl
  | succ n ih =>
    rw [evaluation_kernel_succ]
    have hle : n * rule.size ≤ k := le_trans (Nat.mul_le_mul_right _ (Nat.le_succ n)) hk
    rw [evaluation_kernel_element_snd_frame _ _ _ _ _ _ _ _ _ _ k, ih hle]
    intro q
    have hq := q.isLt
    have : (n + 1) * rule.size = n * rule.size + rule.size := by ring
    omega

theorem evaluation_kernel_cache (T : TensorLib R) (test trial : finite_element R dim ndof)
    (rule : QuadratureRule R dim)
    (qf : Vec R dim → qf_tuple (dual R c dim) c dim → qf_tuple (dual R c dim) c dim)
    (U R_ : Buffer R) (cache : Nat → derivatives_type R c dim) (J_ X_ : Buffer R) (n e : Nat)
    (he : e < n) (q : Fin rule.size) :
    (evaluation_kernel T test trial rule qf U R_ cache J_ X_ n).2 (e * rule.size + q)
      = get_gradient (qf_output T trial rule qf U J_ X_ e q) := by
  induction n with
  | zero => omega
  | succ n ih =>
    rw [evaluation_kernel_succ]
    by_cases hen : e = n
    · subst hen
      exact evaluation_kernel_element_snd_written _ _ _ _ _ _ _ _ _ _ q
    · have hlt : e < n := by omega
      rw [evaluation_kernel_element_snd_frame _ _ _ _ _ _ _ _ _ _ (e * rule.size + q), ih hlt]
      intro q1
      have hq := q.isLt
      have h1 : (e + 1) * rule.size ≤ n * rule.size := Nat.mul_le_mul_right _ hlt
      have h2 : (e + 1) * rule.size = e * rule.size + rule.size := by ring
      omega

theorem evaluation_kernel_fst_apply (T : TensorLib R) (test trial : finite_element R dim ndof)
    (rule : QuadratureRule R dim)
    (qf : Vec R dim → qf_tuple (dual R c dim) c dim → qf_tuple (dual R c dim) c dim)
    (U R_ : Buffer R) (cache : Nat → derivatives_type R c dim) (J_ X_ : Buffer R)
    (n k : Nat) :
    (evaluation_kernel T test trial rule qf U R_ cache J_ X_ n).1 k
      = R_ k + ∑ e in Finset.range n, ∑ i : Fin ndof, ∑ a : Fin c,
          if (i : Nat) + ndof * ((a : Nat) + c * e) = k
          then (evaluation_kernel_element T test trial rule qf U J_ X_ cache e).1 i a
          else 0 := by
  unfold evaluation_kernel
  rw [range_obs (fun st : Buffer R × (Nat → derivatives_type R c dim) => st.1 k) _
    (fun e => ∑ i : Fin ndof, ∑ a : Fin c,
      if (i : Nat) + ndof * ((a : Nat) + c * e) = k
      then (evaluation_kernel_element T test trial rule qf U J_ X_ cache e).1 i a else 0)]
  intro st e
  simp only [impl.Add_apply, evaluation_kernel_element_fst]

theorem gradient_kernel_element_eq (T : TensorLib R) (test trial : finite_element R dim ndof)
    (rule : QuadratureRule R dim) (dU J_ : Buffer R)
    (cache : Nat → derivatives_type R c dim) (e : Nat) :
    gradient_kernel_element T test trial rule dU J_ cache e
      = fun i a => ∑ q : Fin rule.size,
          impl.Postprocess T test
            (chain_rule (cache (e * rule.size + q))
              (impl.Preprocess T trial (impl.Load ndof c dU e) (rule.points q)
                (J_q rule.size J_ e q)))
            (rule.points q) (J_q rule.size J_ e q) i a
          * (impl.Measure T (J_q rule.size J_ e q : Mat R dim dim) * rule.weights q) := by
  unfold gradient_kernel_element
  rw [for_constexpr_acc rule.size
    (fun q => fun i a =>
      impl.Postprocess T test
        (chain_rule (cache (e * rule.size + q))
          (impl.Preprocess T trial (impl.Load ndof c dU e) (rule.points q)
            (J_q rule.size J_ e q)))
        (rule.points q) (J_q rule.size J_ e q) i a
      * (impl.Measure T (J_q rule.size J_ e q : Mat R dim dim) * rule.weights q))]
  funext i a
  simp [Finset.sum_apply]

theorem gradient_kernel_apply (T : TensorLib R) (test trial : finite_element R dim ndof)
    (rule : QuadratureRule R dim) (dU dR : Buffer R)
    (cache : Nat → derivatives_type R c dim) (J_ : Buffer R) (n k : Nat) :
    gradient_kernel T test trial rule dU dR cache J_ n k
      = dR k + ∑ e in Finset.range n, ∑ i : Fin ndof, ∑ a : Fin c,
          if (i : Nat) + ndof * ((a : Nat) + c * e) = k
          then gradient_kernel_element T test trial rule dU J_ cache e i a
          else 0 := by
  unfold gradient_kernel
  rw [range_obs (fun dr : Buffer R => dr k) _
    (fun e => ∑ i : Fin ndof, ∑ a : Fin c,
      if (i : Nat) + ndof * ((a : Nat) + c * e) = k
      then gradient_kernel_element T test trial rule dU J_ cache e i a else 0)]
  intro st e
  simp only [impl.Add_apply]

theorem evaluation_kernel_block (T : TensorLib R) (test trial : finite_element R dim ndof)
    (rule : QuadratureRule R dim)
    (qf : Vec R dim → qf_tuple (dual R c dim) c dim → qf_tuple (dual R c dim) c dim)
    (U R_ : Buffer R) (derivatives_ptr : Nat → derivatives_type R c dim) (J_ X_ : Buffer R)
    (n e : Nat) (he : e < n) (i : Fin ndof) (a : Fin c)
    (cache : Nat → derivatives_type R c dim) :
    (evaluation_kernel T test trial rule qf U R_ derivatives_ptr J_ X_ n).1
        (i + ndof * (a + c * e))
      = R_ (i + ndof * (a + c * e))
        + (evaluation_kernel_element T test trial rule qf U J_ X_ cache e).1 i a := by
  rw [evaluation_kernel_fst_apply]
  congr 1
  rw [sum_packed_select
    (fun e i a => (evaluation_kernel_element T test trial rule qf U J_ X_ derivatives_ptr e).1 i a)
    n i a e he]
  simp only [evaluation_kernel_element_fst]

theorem gradient_kernel_block (T : TensorLib R) (test trial : finite_element R dim ndof)
    (rule : QuadratureRule R dim) (dU dR : Buffer R)
    (cache : Nat → derivatives_type R c dim) (J_ : Buffer R) (n e : Nat) (he : e < n)
    (i : Fin ndof) (a : Fin c) :
    gradient_kernel T test trial rule dU dR cache J_ n (i + ndof * (a + c * e))
      = dR (i + ndof * (a + c * e))
        + gradient_kernel_element T test trial rule dU J_ cache e i a := by
  rw [gradient_kernel_apply]
  congr 1
  exact sum_packed_select
    (fun e i a => gradient_kernel_element T test trial rule dU J_ cache e i a) n i a e he

end kernel_lemmas


section matrix_lemmas

variable {dim : Nat}

theorem gradient_matrix_kernel_apply (T : TensorLib R) {test_ndof trial_ndof : Nat}
    (test : finite_element R dim test_ndof) (trial : finite_element R dim trial_ndof)
    (test_components trial_components : Nat) (rule : QuadratureRule R dim) (K_e : Buffer R)
    (cache : Nat → derivatives_type R test_components dim) (J_ : Buffer R) (n k : Nat) :
    gradient_matrix_kernel T test trial test_components trial_components rule K_e cache J_ n k
      = K_e k + ∑ e in Finset.range n, ∑ i in Finset.range (test_ndof * test_components),
          ∑ j in Finset.range (trial_ndof * test_components),
            if i + test_ndof * test_components * (j + trial_ndof * test_components * e) = k
            then gradient_matrix_kernel_element T test trial test_components trial_components
              rule J_ cache e i j
            else 0 := by
  unfold gradient_matrix_kernel
  simp only
  rw [range_obs (fun dk : Buffer R => dk k) _
    (fun e => ∑ i in Finset.range (test_ndof * test_components),
      ∑ j in Finset.range (trial_ndof * test_components),
        if i + test_ndof * test_components * (j + trial_ndof * test_components * e) = k
        then gradient_matrix_kernel_element T test trial test_components trial_components
          rule J_ cache e i j
        else 0)]
  intro dk e
  rw [range_obs (fun dk : Buffer R => dk k) _
    (fun i => ∑ j in Finset.range (trial_ndof * test_components),
        if i + test_ndof * test_components * (j + trial_ndof * test_components * e) = k
        then gradient_matrix_kernel_element T test trial test_components trial_components
          rule J_ cache e i j
        else 0)]
  intro dk i
  rw [range_obs (fun dk : Buffer R => dk k) _
    (fun j =>
        if i + test_ndof * test_components * (j + trial_ndof * test_components * e) = k
        then gradient_matrix_kernel_element T test trial test_components trial_components
          rule J_ cache e i j
        else 0)]
  intro dk j
  exact add_at_apply _ _ _ _

theorem gradient_matrix_kernel_block (T : TensorLib R) {test_ndof trial_ndof : Nat}
    (test : finite_element R dim test_ndof) (trial : finite_element R dim trial_ndof)
    (test_components trial_components : Nat) (rule : QuadratureRule R dim) (K_e : Buffer R)
    (cache : Nat → derivatives_type R test_components dim) (J_ : Buffer R) (n e : Nat)
    (he : e < n) (r s : Nat) (hr : r < test_ndof * test_components)
    (hs : s < trial_ndof * test_components) :
    gradient_matrix_kernel T test trial test_components trial_components rule K_e cache J_ n
        (r + test_ndof * test_components * (s + trial_ndof * test_components * e))
      = K_e (r + test_ndof * test_components * (s + trial_ndof * test_components * e))
        + gradient_matrix_kernel_element T test trial test_components trial_components
            rule J_ cache e r s := by
  rw [gradient_matrix_kernel_apply]
  congr 1
  have h := sum_packed_select
    (fun e (i : Fin (test_ndof * test_components)) (j : Fin (trial_ndof * test_components)) =>
      gradient_matrix_kernel_element T test trial test_components trial_components
        rule J_ cache e i j) n ⟨r, hr⟩ ⟨s, hs⟩ e he
  simpa only [Finset.sum_range] using h

end matrix_lemmas

/-! ## Dual arithmetic -/

namespace dual

variable {c dim : Nat}

@[simp] theorem const_value (r : R) : (const r : dual R c dim).value = r := rfl

@[simp] theorem const_gradient (r : R) : (const r : dual R c dim).gradient = 0 := rfl

@[simp] theorem zero_value : (0 : dual R c dim).value = 0 := rfl

@[simp] theorem zero_gradient : (0 : dual R c dim).gradient = 0 := rfl

@[simp] theorem add_value (x y : dual R c dim) : (x + y).value = x.value + y.value := rfl

@[simp] theorem add_gradient (x y : dual R c dim) :
    (x + y).gradient = x.gradient + y.gradient := rfl

@[simp] theorem sub_value (x y : dual R c dim) : (x - y).value = x.value - y.value := rfl

@[simp] theorem sub_gradient (x y : dual R c dim) :
    (x - y).gradient = x.gradient - y.gradient := rfl

@[simp] theorem neg_value (x : dual R c dim) : (-x).value = -x.value := rfl

@[simp] theorem neg_gradient (x : dual R c dim) : (-x).gradient = -x.gradient := rfl

@[simp] theorem mul_value (x y : dual R c dim) : (x * y).value = x.value * y.value := rfl

@[simp] theorem mul_gradient (x y : dual R c dim) :
    (x * y).gradient = y.value • x.gradient + x.value • y.gradient := rfl

@[simp] theorem smul_value (r : R) (x : dual R c dim) : (r • x).value = r * x.value := rfl

@[simp] theorem smul_gradient (r : R) (x : dual R c dim) :
    (r • x).gradient = r • x.gradient := rfl

end dual

/-! ## Scalar H1 fields and the affine q-function -/

section scalar_lemmas

variable {dim ndof : Nat}

theorem impl.Measure_square (T : TensorLib R) {n : Nat} (A : Mat R n n) :
    impl.Measure T A = T.det A := by
  unfold impl.Measure
  rw [dif_pos rfl]
  rfl

theorem impl.Postprocess_scalar (T : TensorLib R) (element_type : finite_element R dim ndof)
    (f : qf_argument R 1 dim) (xi : Vec R dim) (J : Mat R dim dim) (i : Fin ndof) (a : Fin 1) :
    impl.Postprocess T element_type f xi J i a
      = element_type.shape_functions xi i * f.1 a
        + ∑ k : Fin dim,
            dot (element_type.shape_function_gradients xi) (T.inv J) i k * f.2 a k := by
  unfold impl.Postprocess
  simp [outer, dot_mv]

theorem impl.Preprocess_fst (T : TensorLib R) {c : Nat} (element_type : finite_element R dim ndof)
    (u : Fin c → Fin ndof → R) (xi : Vec R dim) (J : Mat R dim dim) (a : Fin c) :
    (impl.Preprocess T element_type u xi J).1 a
      = ∑ j : Fin ndof, u a j * element_type.shape_functions xi j := rfl

theorem impl.Preprocess_snd (T : TensorLib R) {c : Nat} (element_type : finite_element R dim ndof)
    (u : Fin c → Fin ndof → R) (xi : Vec R dim) (J : Mat R dim dim) (a : Fin c) (k : Fin dim) :
    (impl.Preprocess T element_type u xi J).2 a k
      = ∑ j : Fin ndof,
          u a j * dot (element_type.shape_function_gradients xi) (T.inv J) j k := rfl

omit [CommRing R] in
theorem impl.Load_scalar (ndof : Nat) (u : Buffer R) (e : Nat) (a : Fin 1) (i : Fin ndof) :
    impl.Load ndof 1 u e a i = u (i + ndof * e) := by
  unfold impl.Load
  simp

theorem get_value_affine_qf (a b : R) (s : Vec R dim → R) (x : Vec R dim)
    (arg : qf_argument R 1 dim) :
    get_value (affine_qf a b s x (make_dual arg))
      = (fun i => a * arg.1 i - s x, fun i k => b * arg.2 i k) := rfl

theorem chain_rule_affine_qf (a b : R) (s : Vec R dim → R) (x : Vec R dim)
    (arg darg : qf_argument R 1 dim) :
    chain_rule (get_gradient (affine_qf a b s x (make_dual arg))) darg
      = (fun i => a * darg.1 i, fun i k => b * darg.2 i k) := by
  unfold chain_rule get_gradient affine_qf make_dual
  ext i
  · have hi : i = 0 := Subsingleton.elim _ _
    subst hi
    simp
  · rename_i k
    have hi : i = 0 := Subsingleton.elim _ _
    subst hi
    simp [Pi.single_apply]

/-- The quadrature sum of the affine integrand, regrouped by trial shape function. -/
theorem affine_sum_identity {nq ndof dim : Nat} (N : Fin nq → Fin ndof → R)
    (D : Fin nq → Fin ndof → Fin dim → R) (w sx : Fin nq → R) (a b : R) (u : Fin ndof → R)
    (i : Fin ndof) :
    (∑ q, (N q i * (a * (∑ j, u j * N q j) - sx q)
            + ∑ k, D q i k * (b * ∑ j, u j * D q j k)) * w q)
      = (∑ j, (a * (∑ q, N q i * N q j * w q)
                + b * (∑ q, (∑ k, D q i k * D q j k) * w q)) * u j)
        - ∑ q, N q i * sx q * w q := by
  have key : ∀ q, (N q i * (a * (∑ j, u j * N q j) - sx q)
            + ∑ k, D q i k * (b * ∑ j, u j * D q j k)) * w q
      = (∑ j, (a * (N q i * N q j * w q) + b * ((∑ k, D q i k * D q j k) * w q)) * u j)
        - N q i * sx q * w q := by
    intro q
    have h1 : ∑ k, D q i k * (b * ∑ j, u j * D q j k)
        = ∑ j, b * (∑ k, D q i k * D q j k) * u j := by
      simp only [Finset.mul_sum, Finset.sum_mul]
      rw [Finset.sum_comm]
      apply Finset.sum_congr rfl
      intro j _
      apply Finset.sum_congr rfl
      intro k _
      ring
    have hR : ∑ j, (a * (N q i * N q j * w q) + b * ((∑ k, D q i k * D q j k) * w q)) * u j
        = a * N q i * w q * (∑ j, u j * N q j)
          + w q * ∑ j, b * (∑ k, D q i k * D q j k) * u j := by
      rw [Finset.mul_sum, Finset.mul_sum, ← Finset.sum_add_distrib]
      apply Finset.sum_congr rfl
      intro j _
      ring
    rw [h1, hR]
    ring
  rw [Finset.sum_congr rfl (fun q _ => key q), Finset.sum_sub_distrib, Finset.sum_comm]
  congr 1
  apply Finset.sum_congr rfl
  intro j _
  rw [Finset.mul_sum, Finset.mul_sum, ← Finset.sum_add_distrib, Finset.sum_mul]

end scalar_lemmas

/-! ## The loops of the gradient matrix kernel -/

section matrix_element_lemmas

theorem for_constexpr_add_at2_4 {n1 n2 n3 n4 : Nat}
    (row col : Fin n1 → Fin n2 → Fin n3 → Fin n4 → Nat)
    (v : Fin n1 → Fin n2 → Fin n3 → Fin n4 → R) (K : Nat → Nat → R) (r s : Nat) :
    for_constexpr n1 (fun i1 => for_constexpr n2 (fun i2 => for_constexpr n3 (fun i3 =>
      for_constexpr n4 (fun i4 K =>
        add_at2 K (row i1 i2 i3 i4) (col i1 i2 i3 i4) (v i1 i2 i3 i4))))) K r s
      = K r s + ∑ i1, ∑ i2, ∑ i3, ∑ i4,
          if row i1 i2 i3 i4 = r ∧ col i1 i2 i3 i4 = s then v i1 i2 i3 i4 else 0 := by
  refine for_constexpr_obs (fun K : Nat → Nat → R => K r s) n1 _
    (fun i1 => ∑ i2, ∑ i3, ∑ i4,
      if row i1 i2 i3 i4 = r ∧ col i1 i2 i3 i4 = s then v i1 i2 i3 i4 else 0)
    (fun i1 K => ?_) K
  refine for_constexpr_obs (fun K : Nat → Nat → R => K r s) n2 _
    (fun i2 => ∑ i3, ∑ i4,
      if row i1 i2 i3 i4 = r ∧ col i1 i2 i3 i4 = s then v i1 i2 i3 i4 else 0)
    (fun i2 K => ?_) K
  refine for_constexpr_obs (fun K : Nat → Nat → R => K r s) n3 _
    (fun i3 => ∑ i4,
      if row i1 i2 i3 i4 = r ∧ col i1 i2 i3 i4 = s then v i1 i2 i3 i4 else 0)
    (fun i3 K => ?_) K
  exact for_constexpr_obs (fun K : Nat → Nat → R => K r s) n4 _
    (fun i4 => if row i1 i2 i3 i4 = r ∧ col i1 i2 i3 i4 = s then v i1 i2 i3 i4 else 0)
    (fun i4 K => add_at2_apply _ _ _ _ _ _) K

theorem for_constexpr_add_at2_5 {n1 n2 n3 n4 n5 : Nat}
    (row col : Fin n1 → Fin n2 → Fin n3 → Fin n4 → Nat)
    (v : Fin n1 → Fin n2 → Fin n3 → Fin n4 → Fin n5 → R) (K : Nat → Nat → R) (r s : Nat) :
    for_constexpr n1 (fun i1 => for_constexpr n2 (fun i2 => for_constexpr n3 (fun i3 =>
      for_constexpr n4 (fun i4 => for_constexpr n5 (fun i5 K =>
        add_at2 K (row i1 i2 i3 i4) (col i1 i2 i3 i4) (v i1 i2 i3 i4 i5)))))) K r s
      = K r s + ∑ i1, ∑ i2, ∑ i3, ∑ i4,
          if row i1 i2 i3 i4 = r ∧ col i1 i2 i3 i4 = s then ∑ i5, v i1 i2 i3 i4 i5 else 0 := by
  refine for_constexpr_obs (fun K : Nat → Nat → R => K r s) n1 _
    (fun i1 => ∑ i2, ∑ i3, ∑ i4,
      if row i1 i2 i3 i4 = r ∧ col i1 i2 i3 i4 = s then ∑ i5, v i1 i2 i3 i4 i5 else 0)
    (fun i1 K => ?_) K
  refine for_constexpr_obs (fun K : Nat → Nat → R => K r s) n2 _
    (fun i2 => ∑ i3, ∑ i4,
      if row i1 i2 i3 i4 = r ∧ col i1 i2 i3 i4 = s then ∑ i5, v i1 i2 i3 i4 i5 else 0)
    (fun i2 K => ?_) K
  refine for_constexpr_obs (fun K : Nat → Nat → R => K r s) n3 _
    (fun i3 => ∑ i4,
      if row i1 i2 i3 i4 = r ∧ col i1 i2 i3 i4 = s then ∑ i5, v i1 i2 i3 i4 i5 else 0)
    (fun i3 K => ?_) K
  refine for_constexpr_obs (fun K : Nat → Nat → R => K r s) n4 _
    (fun i4 =>
      if row i1 i2 i3 i4 = r ∧ col i1 i2 i3 i4 = s then ∑ i5, v i1 i2 i3 i4 i5 else 0)
    (fun i4 K => ?_) K
  beta_reduce
  rw [for_constexpr_obs (fun K : Nat → Nat → R => K r s) n5 _
    (fun i5 => if row i1 i2 i3 i4 = r ∧ col i1 i2 i3 i4 = s then v i1 i2 i3 i4 i5 else 0)
    (fun i5 K => add_at2_apply _ _ _ _ _ _) K]
  congr 1
  split_ifs <;> simp

theorem for_constexpr_add_at2_6 {n1 n2 n3 n4 n5 n6 : Nat}
    (row col : Fin n1 → Fin n2 → Fin n3 → Fin n4 → Nat)
    (v : Fin n1 → Fin n2 → Fin n3 → Fin n4 → Fin n5 → Fin n6 → R) (K : Nat → Nat → R)
    (r s : Nat) :
    for_constexpr n1 (fun i1 => for_constexpr n2 (fun i2 => for_constexpr n3 (fun i3 =>
      for_constexpr n4 (fun i4 => for_constexpr n5 (fun i5 => for_constexpr n6 (fun i6 K =>
        add_at2 K (row i1 i2 i3 i4) (col i1 i2 i3 i4) (v i1 i2 i3 i4 i5 i6))))))) K r s
      = K r s + ∑ i1, ∑ i2, ∑ i3, ∑ i4,
          if row i1 i2 i3 i4 = r ∧ col i1 i2 i3 i4 = s
          then ∑ i5, ∑ i6, v i1 i2 i3 i4 i5 i6 else 0 := by
  refine for_constexpr_obs (fun K : Nat → Nat → R => K r s) n1 _
    (fun i1 => ∑ i2, ∑ i3, ∑ i4,
      if row i1 i2 i3 i4 = r ∧ col i1 i2 i3 i4 = s
      then ∑ i5, ∑ i6, v i1 i2 i3 i4 i5 i6 else 0)
    (fun i1 K => ?_) K
  refine for_constexpr_obs (fun K : Nat → Nat → R => K r s) n2 _
    (fun i2 => ∑ i3, ∑ i4,
      if row i1 i2 i3 i4 = r ∧ col i1 i2 i3 i4 = s
      then ∑ i5, ∑ i6, v i1 i2 i3 i4 i5 i6 else 0)
    (fun i2 K => ?_) K
  refine for_constexpr_obs (fun K : Nat → Nat → R => K r s) n3 _
    (fun i3 => ∑ i4,
      if row i1 i2 i3 i4 = r ∧ col i1 i2 i3 i4 = s
      then ∑ i5, ∑ i6, v i1 i2 i3 i4 i5 i6 else 0)
    (fun i3 K => ?_) K
  refine for_constexpr_obs (fun K : Nat → Nat → R => K r s) n4 _
    (fun i4 =>
      if row i1 i2 i3 i4 = r ∧ col i1 i2 i3 i4 = s
      then ∑ i5, ∑ i6, v i1 i2 i3 i4 i5 i6 else 0)
    (fun i4 K => ?_) K
  beta_reduce
  rw [for_constexpr_obs (fun K : Nat → Nat → R => K r s) n5 _
    (fun i5 => ∑ i6,
      if row i1 i2 i3 i4 = r ∧ col i1 i2 i3 i4 = s then v i1 i2 i3 i4 i5 i6 else 0)
    (fun i5 K => for_constexpr_obs (fun K : Nat → Nat → R => K r s) n6 _
      (fun i6 => if row i1 i2 i3 i4 = r ∧ col i1 i2 i3 i4 = s then v i1 i2 i3 i4 i5 i6 else 0)
      (fun i6 K => add_at2_apply _ _ _ _ _ _) K) K]
  congr 1
  split_ifs <;> simp

/-- The row index `i * c + id` of the element matrix determines the dof and the
component. -/
theorem pair_index_inj {c : Nat} (i i0 : Nat) (a a0 : Fin c)
    (h : i * c + (a : Nat) = i0 * c + (a0 : Nat)) : i = i0 ∧ a = a0 := by
  have ha := a.isLt
  have ha0 := a0.isLt
  have h1 : (i * c + (a : Nat)) % c = (a : Nat) := by
    rw [Nat.mul_add_mod_of_lt ha]
  have h2 : (i0 * c + (a0 : Nat)) % c = (a0 : Nat) := by
    rw [Nat.mul_add_mod_of_lt ha0]
  have haa : (a : Nat) = a0 := by rw [← h1, ← h2, h]
  have hcpos : 0 < c := by omega
  have hii : i = i0 := by
    have : i * c = i0 * c := by omega
    exact Nat.eq_of_mul_eq_mul_right hcpos this
  exact ⟨hii, Fin.ext haa⟩

theorem sum_select4 {n1 n3 c : Nat} (v : Fin n1 → Fin c → Fin n3 → Fin c → R)
    (i0 : Fin n1) (id0 : Fin c) (j0 : Fin n3) (jd0 : Fin c) :
    (∑ i : Fin n1, ∑ id : Fin c, ∑ j : Fin n3, ∑ jd : Fin c,
      if (i : Nat) * c + id = (i0 : Nat) * c + id0 ∧ (j : Nat) * c + jd = (j0 : Nat) * c + jd0
      then v i id j jd else 0) = v i0 id0 j0 jd0 := by
  rw [Finset.sum_eq_single i0]
  · rw [Finset.sum_eq_single id0]
    · rw [Finset.sum_eq_single j0]
      · rw [Finset.sum_eq_single jd0]
        · simp
        · intro jd _ hjd
          rw [if_neg]
          intro h
          exact hjd (pair_index_inj _ _ jd jd0 h.2).2
        · simp
      · intro j _ hj
        apply Finset.sum_eq_zero
        intro jd _
        rw [if_neg]
        intro h
        exact hj (Fin.ext (pair_index_inj _ _ jd jd0 h.2).1)
      · simp
    · intro id _ hid
      apply Finset.sum_eq_zero
      intro j _
      apply Finset.sum_eq_zero
      intro jd _
      rw [if_neg]
      intro h
      exact hid (pair_index_inj _ _ id id0 h.1).2
    · simp
  · intro i _ hi
    apply Finset.sum_eq_zero
    intro id _
    apply Finset.sum_eq_zero
    intro j _
    apply Finset.sum_eq_zero
    intro jd _
    rw [if_neg]
    intro h
    exact hi (Fin.ext (pair_index_inj _ _ id id0 h.1).1)
  · simp

theorem sum_select_scalar {n1 n3 n5 n6 : Nat} (v : Fin n1 → Fin n3 → Fin n5 → Fin n6 → R)
    (i0 : Fin n1) (j0 : Fin n3) (id0 jd0 : Fin 1) :
    (∑ i : Fin n1, ∑ j : Fin n3, ∑ k : Fin n5, ∑ l : Fin n6,
      if (i : Nat) * 1 = (i0 : Nat) * 1 + id0 ∧ (j : Nat) * 1 = (j0 : Nat) * 1 + jd0
      then v i j k l else 0) = ∑ k : Fin n5, ∑ l : Fin n6, v i0 j0 k l := by
  have hid : (id0 : Nat) = 0 := by omega
  have hjd : (jd0 : Nat) = 0 := by omega
  rw [Finset.sum_eq_single i0]
  · rw [Finset.sum_eq_single j0]
    · simp [hid, hjd]
    · intro j _ hj
      apply Finset.sum_eq_zero
      intro k _
      apply Finset.sum_eq_zero
      intro l _
      rw [if_neg]
      intro h
      exact hj (Fin.ext (by omega))
    · simp
  · intro i _ hi
    apply Finset.sum_eq_zero
    intro j _
    apply Finset.sum_eq_zero
    intro k _
    apply Finset.sum_eq_zero
    intro l _
    rw [if_neg]
    intro h
    exact hi (Fin.ext (by omega))
  · simp

theorem gradient_matrix_kernel_element_entry {dim : Nat} (T : TensorLib R)
    {test_ndof trial_ndof : Nat}
    (test : finite_element R dim test_ndof) (trial : finite_element R dim trial_ndof)
    (c trial_components : Nat) (rule : QuadratureRule R dim) (J_ : Buffer R)
    (cache : Nat → derivatives_type R c dim) (e : Nat)
    (i0 : Fin test_ndof) (id0 : Fin c) (j0 : Fin trial_ndof) (jd0 : Fin c) :
    gradient_matrix_kernel_element T test trial c trial_components rule J_ cache e
        (i0 * c + id0) (j0 * c + jd0)
      = ∑ q : Fin rule.size,
          (test.shape_functions (rule.points q) i0
              * (cache (e * rule.size + q)).df0_du id0 jd0
              * trial.shape_functions (rule.points q) j0
              * (impl.Measure T (J_q rule.size J_ e q : Mat R dim dim) * rule.weights q)
            + (∑ k : Fin dim,
                test.shape_functions (rule.points q) i0
                  * (cache (e * rule.size + q)).df0_dgradu id0 jd0 k
                  * dot (trial.shape_function_gradients (rule.points q))
                      (T.inv (J_q rule.size J_ e q)) j0 k
                  * (impl.Measure T (J_q rule.size J_ e q : Mat R dim dim) * rule.weights q))
            + ∑ k : Fin dim, ∑ l : Fin dim,
                dot (test.shape_function_gradients (rule.points q))
                    (T.inv (J_q rule.size J_ e q)) i0 k
                  * (cache (e * rule.size + q)).df1_dgradu id0 k jd0 l
                  * dot (trial.shape_function_gradients (rule.points q))
                      (T.inv (J_q rule.size J_ e q)) j0 l
                  * (impl.Measure T (J_q rule.size J_ e q : Mat R dim dim) * rule.weights q))
      := by
  unfold gradient_matrix_kernel_element
  dsimp only
  have h := for_constexpr_obs
    (fun K : Nat → Nat → R => K ((i0 : Nat) * c + id0) ((j0 : Nat) * c + jd0)) rule.size
    (fun q K_elem =>
      if h : c = 1 ∧ c = 1 then
        for_constexpr test_ndof (fun i => for_constexpr trial_ndof (fun j =>
          for_constexpr dim (fun dummy_i => for_constexpr dim (fun dummy_j K =>
            add_at2 K (i * c) (j * c)
              (dot (test.shape_function_gradients (rule.points q))
                  (T.inv (J_q rule.size J_ e q)) i dummy_i
                * (cache (e * rule.size + q)).df1_dgradu ⟨0, by omega⟩ dummy_i ⟨0, by omega⟩
                    dummy_j
                * dot (trial.shape_function_gradients (rule.points q))
                    (T.inv (J_q rule.size J_ e q)) j dummy_j
                * (impl.Measure T (J_q rule.size J_ e q : Mat R dim dim) * rule.weights q))))))
          (for_constexpr test_ndof (fun i => for_constexpr c (fun id =>
            for_constexpr trial_ndof (fun j => for_constexpr c (fun jd =>
              for_constexpr dim (fun dummy_i K =>
                add_at2 K (i * c + id) (j * c + jd)
                  (test.shape_functions (rule.points q) i
                    * (cache (e * rule.size + q)).df0_dgradu id jd dummy_i
                    * dot (trial.shape_function_gradients (rule.points q))
                        (T.inv (J_q rule.size J_ e q)) j dummy_i
                    * (impl.Measure T (J_q rule.size J_ e q : Mat R dim dim)
                        * rule.weights q)))))))
            (for_constexpr test_ndof (fun i => for_constexpr c (fun id =>
              for_constexpr trial_ndof (fun j => for_constexpr c (fun jd K =>
                add_at2 K (i * c + id) (j * c + jd)
                  (test.shape_functions (rule.points q) i
                    * (cache (e * rule.size + q)).df0_du id jd
                    * trial.shape_functions (rule.points q) j
                    * (impl.Measure T (J_q rule.size J_ e q : Mat R dim dim)
                        * rule.weights q)))))) K_elem))
      else
        for_constexpr test_ndof (fun i => for_constexpr c (fun id =>
          for_constexpr trial_ndof (fun j => for_constexpr c (fun jd =>
            for_constexpr dim (fun dummy_i => for_constexpr dim (fun dummy_j K =>
              add_at2 K (i * c + id) (j * c + jd)
                (dot (test.shape_function_gradients (rule.points q))
                    (T.inv (J_q rule.size J_ e q)) i dummy_i
                  * (cache (e * rule.size + q)).df1_dgradu id dummy_i jd dummy_j
                  * dot (trial.shape_function_gradients (rule.points q))
                      (T.inv (J_q rule.size J_ e q)) j dummy_j
                  * (impl.Measure T (J_q rule.size J_ e q : Mat R dim dim)
                      * rule.weights q))))))))
          (for_constexpr test_ndof (fun i => for_constexpr c (fun id =>
            for_constexpr trial_ndof (fun j => for_constexpr c (fun jd =>
              for_constexpr dim (fun dummy_i K =>
                add_at2 K (i * c + id) (j * c + jd)
                  (test.shape_functions (rule.points q) i
                    * (cache (e * rule.size + q)).df0_dgradu id jd dummy_i
                    * dot (trial.shape_function_gradients (rule.points q))
                        (T.inv (J_q rule.size J_ e q)) j dummy_i
                    * (impl.Measure T (J_q rule.size J_ e q : Mat R dim dim)
                        * rule.weights q)))))))
            (for_constexpr test_ndof (fun i => for_constexpr c (fun id =>
              for_constexpr trial_ndof (fun j => for_constexpr c (fun jd K =>
                add_at2 K (i * c + id) (j * c + jd)
                  (test.shape_functions (rule.points q) i
                    * (cache (e * rule.size + q)).df0_du id jd
                    * trial.shape_functions (rule.points q) j
                    * (impl.Measure T (J_q rule.size J_ e q : Mat R dim dim)
                        * rule.weights q)))))) K_elem)))
    (fun q =>
      test.shape_functions (rule.points q) i0
          * (cache (e * rule.size + q)).df0_du id0 jd0
          * trial.shape_functions (rule.points q) j0
          * (impl.Measure T (J_q rule.size J_ e q : Mat R dim dim) * rule.weights q)
        + (∑ k : Fin dim,
            test.shape_functions (rule.points q) i0
              * (cache (e * rule.size + q)).df0_dgradu id0 jd0 k
              * dot (trial.shape_function_gradients (rule.points q))
                  (T.inv (J_q rule.size J_ e q)) j0 k
              * (impl.Measure T (J_q rule.size J_ e q : Mat R dim dim) * rule.weights q))
        + ∑ k : Fin dim, ∑ l : Fin dim,
            dot (test.shape_function_gradients (rule.points q))
                (T.inv (J_q rule.size J_ e q)) i0 k
              * (cache (e * rule.size + q)).df1_dgradu id0 k jd0 l
              * dot (trial.shape_function_gradients (rule.points q))
                  (T.inv (J_q rule.size J_ e q)) j0 l
              * (impl.Measure T (J_q rule.size J_ e q : Mat R dim dim) * rule.weights q))
    ?_ (fun _ _ => 0)
  · simpa using h
  · intro q K
    dsimp only
    split
    · rename_i hc
      obtain ⟨hc1, -⟩ := hc
      subst hc1
      rw [for_constexpr_add_at2_4, for_constexpr_add_at2_5, for_constexpr_add_at2_4,
        sum_select_scalar, sum_select4, sum_select4]
      have e1 : (⟨0, by omega⟩ : Fin 1) = id0 := Subsingleton.elim _ _
      have e2 : jd0 = id0 := Subsingleton.elim _ _
      subst e2
      simp only [e1, add_assoc]
    · rw [for_constexpr_add_at2_6, for_constexpr_add_at2_5, for_constexpr_add_at2_4,
        sum_select4, sum_select4, sum_select4]
      simp only [add_assoc]

theorem get_gradient_affine_qf_df0_du {dim : Nat} (a b : R) (s : Vec R dim → R) (x : Vec R dim)
    (arg : qf_argument R 1 dim) (i j : Fin 1) :
    (get_gradient (affine_qf a b s x (make_dual arg))).df0_du i j = a := by
  have hj : j = i := Subsingleton.elim _ _
  subst hj
  simp [get_gradient, affine_qf, make_dual]

theorem get_gradient_affine_qf_df0_dgradu {dim : Nat} (a b : R) (s : Vec R dim → R)
    (x : Vec R dim) (arg : qf_argument R 1 dim) (i j : Fin 1) (k : Fin dim) :
    (get_gradient (affine_qf a b s x (make_dual arg))).df0_dgradu i j k = 0 := by
  simp [get_gradient, affine_qf, make_dual]

theorem get_gradient_affine_qf_df1_dgradu {dim : Nat} (a b : R) (s : Vec R dim → R)
    (x : Vec R dim) (arg : qf_argument R 1 dim) (i j : Fin 1) (k l : Fin dim) :
    (get_gradient (affine_qf a b s x (make_dual arg))).df1_dgradu i k j l
      = if k = l then b else 0 := by
  have hj : j = i := Subsingleton.elim _ _
  subst hj
  by_cases hkl : k = l
  · subst hkl
    simp [get_gradient, affine_qf, make_dual]
  · simp [get_gradient, affine_qf, make_dual, hkl, Pi.single_apply, Ne.symm hkl]

theorem gradient_matrix_kernel_element_affine {dim ndof : Nat} (T : TensorLib R)
    (el : finite_element R dim ndof) (rule : QuadratureRule R dim) (a b : R)
    (s : Vec R dim → R) (U R_ J_ X_ : Buffer R)
    (derivatives_ptr : Nat → derivatives_type R 1 dim) (trial_components n e : Nat)
    (he : e < n) (i j : Fin ndof) :
    gradient_matrix_kernel_element T el el 1 trial_components rule J_
        (evaluation_kernel T el el rule (affine_qf a b s) U R_ derivatives_ptr J_ X_ n).2 e
        i j
      = a * mass_matrix T el rule J_ e i j + b * stiffness_matrix T el rule J_ e i j := by
  have h := gradient_matrix_kernel_element_entry T el el 1 trial_components rule J_
    (evaluation_kernel T el el rule (affine_qf a b s) U R_ derivatives_ptr J_ X_ n).2 e
    i 0 j 0
  simp only [Fin.val_zero, mul_one, add_zero] at h
  rw [h]
  simp only [evaluation_kernel_cache T el el rule (affine_qf a b s) U R_ derivatives_ptr J_ X_
    n e he, qf_output, get_gradient_affine_qf_df0_du, get_gradient_affine_qf_df0_dgradu,
    get_gradient_affine_qf_df1_dgradu, impl.Measure_square, mass_matrix, stiffness_matrix,
    Finset.mul_sum, ← Finset.sum_add_distrib]
  apply Finset.sum_congr rfl
  intro q _
  simp only [mul_ite, ite_mul, zero_mul, mul_zero, Finset.sum_ite_eq, Finset.mem_univ, if_true,
    Finset.sum_const_zero, add_zero, Finset.sum_mul]
  rw [Finset.mul_sum]
  congr 1
  · ring
  · apply Finset.sum_congr rfl
    intro k _
    ring

end matrix_element_lemmas

/-! ## The gradient matrix applied to a perturbation -/

section matrix_action

theorem matrix_action_term0 {ndof c : Nat} (m dx : R) (A : Fin c → R) (N : Fin ndof → R)
    (du : Fin c → Fin ndof → R) :
    (∑ j : Fin ndof, ∑ b : Fin c, (m * A b * N j * dx) * du b j)
      = m * (∑ b, A b * ∑ j, du b j * N j) * dx := by
  simp only [Finset.mul_sum, Finset.sum_mul]
  rw [Finset.sum_comm]
  apply Finset.sum_congr rfl
  intro b _
  apply Finset.sum_congr rfl
  intro j _
  ring

theorem matrix_action_term1 {ndof c dim : Nat} (m dx : R) (B : Fin c → Fin dim → R)
    (dN : Fin ndof → Fin dim → R) (du : Fin c → Fin ndof → R) :
    (∑ j : Fin ndof, ∑ b : Fin c, (∑ k, m * B b k * dN j k * dx) * du b j)
      = m * (∑ b, ∑ k, B b k * ∑ j, du b j * dN j k) * dx := by
  simp only [Finset.mul_sum, Finset.sum_mul]
  rw [Finset.sum_comm]
  apply Finset.sum_congr rfl
  intro b _
  rw [Finset.sum_comm]
  apply Finset.sum_congr rfl
  intro k _
  apply Finset.sum_congr rfl
  intro j _
  ring

theorem matrix_action_term2 {ndof c dim : Nat} (dx : R) (dM : Fin dim → R)
    (C : Fin dim → Fin c → Fin dim → R)
    (dN : Fin ndof → Fin dim → R) (du : Fin c → Fin ndof → R) :
    (∑ j : Fin ndof, ∑ b : Fin c, (∑ k, ∑ l, dM k * C k b l * dN j l * dx) * du b j)
      = (∑ k, dM k * ∑ b, ∑ l, C k b l * ∑ j, du b j * dN j l) * dx := by
  simp only [Finset.mul_sum, Finset.sum_mul]
  rw [Finset.sum_comm]
  rw [Finset.sum_congr rfl (fun b _ => Finset.sum_comm)]
  rw [Finset.sum_comm]
  apply Finset.sum_congr rfl
  intro k _
  apply Finset.sum_congr rfl
  intro b _
  rw [Finset.sum_comm]
  apply Finset.sum_congr rfl
  intro l _
  apply Finset.sum_congr rfl
  intro j _
  ring

/-- The H1 `Postprocess` of a chain-rule output whose `df1_du` block vanishes. -/
theorem Postprocess_chain_rule {dim ndof c : Nat} (T : TensorLib R)
    (element_type : finite_element R dim ndof) (rec : derivatives_type R c dim)
    (darg : qf_argument R c dim) (xi : Vec R dim) (J : Mat R dim dim)
    (hc : c = 1 ∨ c = dim)
    (h1 : ∀ a m b, rec.df1_du a m b = 0)
    (hsym : c ≠ 1 → ∀ (h : c = dim) (a : Fin c) (k : Fin dim) (b : Fin c) (l : Fin dim),
      rec.df1_dgradu a k b l = rec.df1_dgradu (Fin.cast h.symm k) (Fin.cast h a) b l)
    (i : Fin ndof) (a : Fin c) :
    impl.Postprocess T element_type (chain_rule rec darg) xi J i a
      = element_type.shape_functions xi i
          * ((∑ b, rec.df0_du a b * darg.1 b) + ∑ b, ∑ k, rec.df0_dgradu a b k * darg.2 b k)
        + ∑ k, dot (element_type.shape_function_gradients xi) (T.inv J) i k
            * ∑ b, ∑ l, rec.df1_dgradu a k b l * darg.2 b l := by
  unfold impl.Postprocess
  by_cases hc1 : c = 1
  · rw [if_pos hc1]
    simp [outer, dot_mv, chain_rule, h1]
  · rw [if_neg hc1]
    have hd : c = dim := hc.resolve_left hc1
    rw [dif_pos hd]
    simp only [outer, dot, chain_rule, h1, zero_mul, Finset.sum_const_zero, zero_add]
    congr 1
    apply Finset.sum_congr rfl
    intro k _
    congr 1
    apply Finset.sum_congr rfl
    intro b _
    apply Finset.sum_congr rfl
    intro l _
    rw [hsym hc1 hd a k b l]

end matrix_action

/-! ## The kernels on the affine q-function -/

section affine_lemmas

variable {dim ndof : Nat}

theorem evaluation_kernel_element_affine (T : TensorLib R)
    (el : finite_element R dim ndof) (rule : QuadratureRule R dim) (a b : R)
    (s : Vec R dim → R) (U J_ X_ : Buffer R) (e : Nat)
    (cache : Nat → derivatives_type R 1 dim) (i : Fin ndof) :
    (evaluation_kernel_element T el el rule (affine_qf a b s) U J_ X_ cache e).1 i 0
      = (∑ j : Fin ndof,
          (a * mass_matrix T el rule J_ e i j + b * stiffness_matrix T el rule J_ e i j)
            * U (j + ndof * e))
        - load_vector T el rule s J_ X_ e i := by
  rw [evaluation_kernel_element_fst]
  simp only [qf_output, get_value_affine_qf, impl.Postprocess_scalar, impl.Measure_square,
    impl.Preprocess_fst, impl.Preprocess_snd, impl.Load_scalar]
  exact affine_sum_identity
    (fun q => el.shape_functions (rule.points q))
    (fun q => dot (el.shape_function_gradients (rule.points q)) (T.inv (J_q rule.size J_ e q)))
    (fun q => T.det (J_q rule.size J_ e q : Mat R dim dim) * rule.weights q)
    (fun q => s (x_q rule.size X_ e q)) a b (fun j => U (j + ndof * e)) i

theorem gradient_kernel_element_affine (T : TensorLib R)
    (el : finite_element R dim ndof) (rule : QuadratureRule R dim) (a b : R)
    (s : Vec R dim → R) (U R_ dU J_ X_ : Buffer R)
    (derivatives_ptr : Nat → derivatives_type R 1 dim) (n e : Nat) (he : e < n)
    (i : Fin ndof) :
    gradient_kernel_element T el el rule dU J_
        (evaluation_kernel T el el rule (affine_qf a b s) U R_ derivatives_ptr J_ X_ n).2 e i 0
      = ∑ j : Fin ndof,
          (a * mass_matrix T el rule J_ e i j + b * stiffness_matrix T el rule J_ e i j)
            * dU (j + ndof * e) := by
  rw [gradient_kernel_element_eq]
  simp only [evaluation_kernel_cache T el el rule (affine_qf a b s) U R_ derivatives_ptr J_ X_
    n e he, qf_output, chain_rule_affine_qf, impl.Postprocess_scalar, impl.Measure_square,
    impl.Preprocess_fst, impl.Preprocess_snd, impl.Load_scalar]
  have h := affine_sum_identity
    (fun q => el.shape_functions (rule.points q))
    (fun q => dot (el.shape_function_gradients (rule.points q)) (T.inv (J_q rule.size J_ e q)))
    (fun q => T.det (J_q rule.size J_ e q : Mat R dim dim) * rule.weights q)
    (fun _ => 0) a b (fun j => dU (j + ndof * e)) i
  simpa [mass_matrix, stiffness_matrix] using h

end affine_lemmas

/-! ## Zero arguments -/

section zero_lemmas

variable {dim ndof c : Nat}

theorem chain_rule_zero_left (darg : qf_argument R c dim) :
    chain_rule (0 : derivatives_type R c dim) darg = 0 := by
  unfold chain_rule
  ext <;> simp [show (0 : derivatives_type R c dim).df0_du = fun _ _ => 0 from rfl,
    show (0 : derivatives_type R c dim).df0_dgradu = fun _ _ _ => 0 from rfl,
    show (0 : derivatives_type R c dim).df1_du = fun _ _ _ => 0 from rfl,
    show (0 : derivatives_type R c dim).df1_dgradu = fun _ _ _ _ => 0 from rfl]

theorem impl.Postprocess_zero (T : TensorLib R) (element_type : finite_element R dim ndof)
    (xi : Vec R dim) (J : Mat R dim dim) :
    impl.Postprocess T element_type (0 : qf_argument R c dim) xi J = 0 := by
  unfold impl.Postprocess
  funext i a
  split
  · simp [outer, dot_mv]
  · split
    · simp [outer, dot]
    · rfl

theorem gradient_kernel_element_zero_cache (T : TensorLib R)
    (test trial : finite_element R dim ndof) (rule : QuadratureRule R dim) (dU J_ : Buffer R)
    (cache : Nat → derivatives_type R c dim) (e : Nat)
    (h : ∀ q : Fin rule.size, cache (e * rule.size + q) = 0) :
    gradient_kernel_element T test trial rule dU J_ cache e = 0 := by
  rw [gradient_kernel_element_eq]
  funext i a
  apply Finset.sum_eq_zero
  intro q _
  rw [h q, chain_rule_zero_left, impl.Postprocess_zero]
  simp

theorem gradient_kernel_zero_cache (T : TensorLib R)
    (test trial : finite_element R dim ndof) (rule : QuadratureRule R dim) (dU dR J_ : Buffer R)
    (cache : Nat → derivatives_type R c dim) (n : Nat)
    (h : ∀ e, e < n → ∀ q : Fin rule.size, cache (e * rule.size + q) = 0) (k : Nat) :
    gradient_kernel T test trial rule dU dR cache J_ n k = dR k := by
  rw [gradient_kernel_apply]
  have : (∑ e in Finset.range n, ∑ i : Fin ndof, ∑ a : Fin c,
      if (i : Nat) + ndof * ((a : Nat) + c * e) = k
      then gradient_kernel_element T test trial rule dU J_ cache e i a else 0) = 0 := by
    apply Finset.sum_eq_zero
    intro e he
    rw [gradient_kernel_element_zero_cache T test trial rule dU J_ cache e
      (h e (Finset.mem_range.mp he))]
    simp
  rw [this, add_zero]

end zero_lemmas

/-! ## Dual numbers carry values and directional derivatives -/

section dual_lemmas

variable {c dim ndof : Nat}

theorem qf_expr.value_eval (e : qf_expr R c dim) (x : Vec R dim)
    (darg : qf_tuple (dual R c dim) c dim) :
    (e.eval dual.const x darg).value = e.eval id x (get_value darg) := by
  induction e with
  | coef f => rfl
  | u a => rfl
  | du_dx a k => rfl
  | add e1 e2 ih1 ih2 => simp only [qf_expr.eval, dual.add_value, ih1, ih2]
  | sub e1 e2 ih1 ih2 => simp only [qf_expr.eval, dual.sub_value, ih1, ih2]
  | mul e1 e2 ih1 ih2 => simp only [qf_expr.eval, dual.mul_value, ih1, ih2]
  | neg e1 ih1 => simp only [qf_expr.eval, dual.neg_value, ih1]
  | smul r e1 ih1 => simp only [qf_expr.eval, dual.smul_value, ih1, smul_eq_mul]

theorem get_value_make_dual (arg : qf_argument R c dim) : get_value (make_dual arg) = arg := rfl

theorem get_value_qf_dual (f : qf_tuple (qf_expr R c dim) c dim) (x : Vec R dim)
    (darg : qf_tuple (dual R c dim) c dim) :
    get_value (qf_dual f x darg) = qf_plain f x (get_value darg) := by
  unfold get_value qf_dual qf_plain qf_of_expr
  simp only [qf_expr.value_eval]
  rfl

theorem directional_zero (d : qf_argument R c dim) : directional 0 d = 0 := by
  simp [directional]

theorem directional_add (g1 g2 d : qf_argument R c dim) :
    directional (g1 + g2) d = directional g1 d + directional g2 d := by
  simp only [directional, Prod.fst_add, Prod.snd_add, Pi.add_apply, add_mul,
    Finset.sum_add_distrib]
  ring

theorem directional_sub (g1 g2 d : qf_argument R c dim) :
    directional (g1 - g2) d = directional g1 d - directional g2 d := by
  simp only [directional, Prod.fst_sub, Prod.snd_sub, Pi.sub_apply, sub_mul,
    Finset.sum_sub_distrib]
  ring

theorem directional_neg (g d : qf_argument R c dim) :
    directional (-g) d = - directional g d := by
  simp only [directional, Prod.fst_neg, Prod.snd_neg, Pi.neg_apply, neg_mul,
    Finset.sum_neg_distrib]
  ring

theorem directional_smul (r : R) (g d : qf_argument R c dim) :
    directional (r • g) d = r * directional g d := by
  simp only [directional, Prod.smul_fst, Prod.smul_snd, Pi.smul_apply, smul_eq_mul, mul_add,
    Finset.mul_sum, mul_assoc]

theorem directional_seed_u (a : Fin c) (d : qf_argument R c dim) :
    directional ((Pi.single a 1, 0) : qf_argument R c dim) d = d.1 a := by
  simp [directional, Pi.single_apply]

theorem directional_seed_du_dx (a : Fin c) (k : Fin dim) (d : qf_argument R c dim) :
    directional ((0, Pi.single a (Pi.single k 1)) : qf_argument R c dim) d = d.2 a k := by
  simp only [directional, Pi.zero_apply, zero_mul, Finset.sum_const_zero, zero_add]
  rw [Finset.sum_eq_single a, Finset.sum_eq_single k]
  · simp
  · intro l _ hl
    simp [Pi.single_apply, hl]
  · simp
  · intro b _ hb
    apply Finset.sum_eq_zero
    intro l _
    simp [Pi.single_apply, hb]
  · simp

/-- The directional derivative that a dual gradient encodes. -/
theorem qf_expr.hasDerivAt (e : qf_expr ℝ c dim) (x : Vec ℝ dim)
    (arg darg : qf_argument ℝ c dim) (t : ℝ) :
    HasDerivAt (fun eps : ℝ => e.eval id x (arg + eps • darg))
      (directional (e.eval dual.const x (make_dual (arg + t • darg))).gradient darg) t := by
  induction e with
  | coef f =>
    convert hasDerivAt_const t (f x) using 1
    exact directional_zero darg
  | u a =>
    have h := ((hasDerivAt_id t).mul_const (darg.1 a)).const_add (arg.1 a)
    convert h using 1
    rw [one_mul]
    exact directional_seed_u a darg
  | du_dx a k =>
    have h := ((hasDerivAt_id t).mul_const (darg.2 a k)).const_add (arg.2 a k)
    convert h using 1
    rw [one_mul]
    exact directional_seed_du_dx a k darg
  | add e1 e2 ih1 ih2 =>
    convert ih1.add ih2 using 1
    exact directional_add _ _ _
  | sub e1 e2 ih1 ih2 =>
    convert ih1.sub ih2 using 1
    exact directional_sub _ _ _
  | mul e1 e2 ih1 ih2 =>
    convert ih1.mul ih2 using 1
    simp only [qf_expr.eval, dual.mul_gradient, directional_add, directional_smul,
      qf_expr.value_eval, get_value_make_dual]
    ring
  | neg e1 ih1 =>
    convert ih1.neg using 1
    exact directional_neg _ _
  | smul r e1 ih1 =>
    convert ih1.const_mul r using 1
    exact directional_smul _ _ _


theorem chain_rule_get_gradient_fst (out : qf_tuple (dual R c dim) c dim)
    (darg : qf_argument R c dim) (a : Fin c) :
    (chain_rule (get_gradient out) darg).1 a = directional (out.1 a).gradient darg := rfl

theorem chain_rule_get_gradient_snd (out : qf_tuple (dual R c dim) c dim)
    (darg : qf_argument R c dim) (a : Fin c) (m : Fin dim) :
    (chain_rule (get_gradient out) darg).2 a m = directional (out.2 a m).gradient darg := rfl

theorem impl.Load_add_smul (U dU : Buffer R) (eps : R) (e : Nat) :
    impl.Load ndof c (U + eps • dU) e = impl.Load ndof c U e + eps • impl.Load ndof c dU e := by
  unfold impl.Load
  split <;> rfl

theorem impl.Preprocess_add_smul (T : TensorLib R) (element_type : finite_element R dim ndof)
    (u du : Fin c → Fin ndof → R) (eps : R) (xi : Vec R dim) (J : Mat R dim dim) :
    impl.Preprocess T element_type (u + eps • du) xi J
      = impl.Preprocess T element_type u xi J + eps • impl.Preprocess T element_type du xi J := by
  unfold impl.Preprocess
  ext a
  · simp only [dot_mv, Pi.add_apply, Pi.smul_apply, smul_eq_mul, Prod.fst_add, Prod.smul_fst,
      add_mul, Finset.sum_add_distrib, Finset.mul_sum, mul_assoc]
  · simp only [dot, Pi.add_apply, Pi.smul_apply, smul_eq_mul, Prod.snd_add, Prod.smul_snd,
      add_mul, Finset.sum_add_distrib, Finset.mul_sum, mul_assoc]

theorem impl.Postprocess_hasDerivAt (T : TensorLib ℝ) (element_type : finite_element ℝ dim ndof)
    (F : ℝ → qf_argument ℝ c dim) (F' : qf_argument ℝ c dim) (t : ℝ)
    (h1 : ∀ a, HasDerivAt (fun eps => (F eps).1 a) (F'.1 a) t)
    (h2 : ∀ a k, HasDerivAt (fun eps => (F eps).2 a k) (F'.2 a k) t)
    (xi : Vec ℝ dim) (J : Mat ℝ dim dim) (i : Fin ndof) (a : Fin c) :
    HasDerivAt (fun eps => impl.Postprocess T element_type (F eps) xi J i a)
      (impl.Postprocess T element_type F' xi J i a) t := by
  unfold impl.Postprocess
  by_cases hc1 : c = 1
  · simp only [if_pos hc1, outer, dot_mv]
    exact ((h1 a).const_mul _).add (HasDerivAt.sum (fun k _ => (h2 a k).const_mul _))
  · by_cases hd : c = dim
    · simp only [if_neg hc1, dif_pos hd, outer, dot]
      exact ((h1 a).const_mul _).add (HasDerivAt.sum (fun k _ => (h2 _ _).const_mul _))
    · simp only [if_neg hc1, dif_neg hd]
      exact hasDerivAt_const t _

theorem evaluation_kernel_element_hasDerivAt (T : TensorLib ℝ)
    (test trial : finite_element ℝ dim ndof) (rule : QuadratureRule ℝ dim)
    (f : qf_tuple (qf_expr ℝ c dim) c dim) (U R_ dU J_ X_ : Buffer ℝ)
    (derivatives_ptr cache : Nat → derivatives_type ℝ c dim) (n e : Nat) (he : e < n)
    (i : Fin ndof) (a : Fin c) :
    HasDerivAt
      (fun eps : ℝ =>
        (evaluation_kernel_element T test trial rule (qf_dual f) (U + eps • dU) J_ X_ cache
          e).1 i a)
      (gradient_kernel_element T test trial rule dU J_
        (evaluation_kernel T test trial rule (qf_dual f) U R_ derivatives_ptr J_ X_ n).2 e i a)
      0 := by
  rw [gradient_kernel_element_eq]
  simp only [evaluation_kernel_element_fst,
    evaluation_kernel_cache T test trial rule (qf_dual f) U R_ derivatives_ptr J_ X_ n e he]
  apply HasDerivAt.sum
  intro q _
  apply HasDerivAt.mul_const
  apply impl.Postprocess_hasDerivAt
  · intro b
    have h := qf_expr.hasDerivAt (f.1 b) (x_q rule.size X_ e q)
      (impl.Preprocess T trial (impl.Load ndof c U e) (rule.points q) (J_q rule.size J_ e q))
      (impl.Preprocess T trial (impl.Load ndof c dU e) (rule.points q) (J_q rule.size J_ e q))
      0
    rw [zero_smul, add_zero] at h
    simp only [qf_output, get_value_qf_dual, get_value_make_dual, impl.Load_add_smul,
      impl.Preprocess_add_smul, chain_rule_get_gradient_fst]
    exact h
  · intro b k
    have h := qf_expr.hasDerivAt (f.2 b k) (x_q rule.size X_ e q)
      (impl.Preprocess T trial (impl.Load ndof c U e) (rule.points q) (J_q rule.size J_ e q))
      (impl.Preprocess T trial (impl.Load ndof c dU e) (rule.points q) (J_q rule.size J_ e q))
      0
    rw [zero_smul, add_zero] at h
    simp only [qf_output, get_value_qf_dual, get_value_make_dual, impl.Load_add_smul,
      impl.Preprocess_add_smul, chain_rule_get_gradient_snd]
    exact h

end dual_lemmas

/-! ## The evaluation kernel: element residual and derivative records -/

section claims

variable {dim ndof c : Nat}

/-- C1: for every element `e < num_elements` and every q-function `qf`, the element
residual that `evaluation_kernel` accumulates for `e` (whatever the derivative storage
holds when the element is entered) is the sum over the quadrature points `q` of
`Postprocess(get_value(qf(x_q, make_dual(Preprocess(u_e, xi_q, J_q)))), xi_q, J_q)
 * Measure(J_q) * w_q`, and after the call the derivative record `e * rule.size() + q`
is `get_gradient` of that same q-function output. -/
theorem evaluation_kernel_element_residual (T : TensorLib R)
    (test trial : finite_element R dim ndof) (rule : QuadratureRule R dim)
    (qf : Vec R dim → qf_tuple (dual R c dim) c dim → qf_tuple (dual R c dim) c dim)
    (U R_ : Buffer R) (derivatives_ptr : Nat → derivatives_type R c dim) (J_ X_ : Buffer R)
    (num_elements e : Nat) (he : e < num_elements) :
    (∀ (cache : Nat → derivatives_type R c dim) (i : Fin ndof) (a : Fin c),
      (evaluation_kernel_element T test trial rule qf U J_ X_ cache e).1 i a
        = ∑ q : Fin rule.size,
            impl.Postprocess T test
              (get_value (qf (x_q rule.size X_ e q)
                (make_dual (impl.Preprocess T trial (impl.Load ndof c U e) (rule.points q)
                  (J_q rule.size J_ e q)))))
              (rule.points q) (J_q rule.size J_ e q) i a
            * impl.Measure T (J_q rule.size J_ e q : Mat R dim dim) * rule.weights q)
    ∧ ∀ q : Fin rule.size,
        (evaluation_kernel T test trial rule qf U R_ derivatives_ptr J_ X_ num_elements).2
            (e * rule.size + q)
          = get_gradient (qf (x_q rule.size X_ e q)
              (make_dual (impl.Preprocess T trial (impl.Load ndof c U e) (rule.points q)
                (J_q rule.size J_ e q)))) := by
  constructor
  · intro cache i a
    rw [evaluation_kernel_element_fst]
    apply Finset.sum_congr rfl
    intro q _
    simp only [qf_output, mul_assoc]
  · intro q
    exact evaluation_kernel_cache T test trial rule qf U R_ derivatives_ptr J_ X_
      num_elements e he q

/-- Witness for C1: element `0` of two elements of the sample data. -/
theorem evaluation_kernel_element_residual_witness :
    (0 : Nat) < 2 ∧
    (evaluation_kernel sample.T sample.segment sample.segment sample.rule sample.qf
        sample.U sample.R5 (fun _ => 0) sample.J sample.X 2).2
        (0 * sample.rule.size + (sample.q1 : Nat))
      = get_gradient (sample.qf (x_q sample.rule.size sample.X 0 (sample.q1 : Nat))
          (make_dual (impl.Preprocess sample.T sample.segment (impl.Load 2 1 sample.U 0)
            (sample.rule.points sample.q1) (J_q sample.rule.size sample.J 0 (sample.q1 : Nat))))) :=
  ⟨by decide,
   (evaluation_kernel_element_residual sample.T sample.segment sample.segment sample.rule
      sample.qf sample.U sample.R5 (fun _ => 0) sample.J sample.X 2 0 (by decide)).2 sample.q1⟩

/-! ## Storing the element value -/

/-- C9 (as stated, refuted): on the sample data the output buffer holds `5` at offset `0`
before the call; element `0` accumulates `-4` for its first entry, and after
`evaluation_kernel` the output holds `1`, not `-4`. -/
theorem store_is_not_overwrite_counterexample :
    (evaluation_kernel_element sample.T sample.segment sample.segment sample.rule sample.qf
        sample.U sample.J sample.X (fun _ => 0) 0).1 0 0 = -4
    ∧ (evaluation_kernel sample.T sample.segment sample.segment sample.rule sample.qf
        sample.U sample.R5 (fun _ => 0) sample.J sample.X 2).1 0 = 1
    ∧ (evaluation_kernel sample.T sample.segment sample.segment sample.rule sample.qf
        sample.U sample.R5 (fun _ => 0) sample.J sample.X 2).1 0
      ≠ (evaluation_kernel_element sample.T sample.segment sample.segment sample.rule sample.qf
        sample.U sample.J sample.X (fun _ => 0) 0).1 0 0 := by
  decide

/-- C9 (amended): when a kernel finishes element `e < num_elements` it adds the
accumulated element value to the output: after `evaluation_kernel`, `gradient_kernel` and
`gradient_matrix_kernel` every entry of the output block of `e` is the content the output
held there before the call plus the value accumulated for `e` in that call. -/
theorem kernels_add_element_value (T : TensorLib R)
    (test trial : finite_element R dim ndof) (rule : QuadratureRule R dim)
    (qf : Vec R dim → qf_tuple (dual R c dim) c dim → qf_tuple (dual R c dim) c dim)
    (U R_ dU dR K_e : Buffer R) (derivatives_ptr : Nat → derivatives_type R c dim)
    (J_ X_ : Buffer R) {test_ndof trial_ndof : Nat}
    (mtest : finite_element R dim test_ndof) (mtrial : finite_element R dim trial_ndof)
    (trial_components : Nat)
    (num_elements e : Nat) (he : e < num_elements) :
    (∀ (i : Fin ndof) (a : Fin c) (cache : Nat → derivatives_type R c dim),
      (evaluation_kernel T test trial rule qf U R_ derivatives_ptr J_ X_ num_elements).1
          (i + ndof * (a + c * e))
        = R_ (i + ndof * (a + c * e))
          + (evaluation_kernel_element T test trial rule qf U J_ X_ cache e).1 i a)
    ∧ (∀ (i : Fin ndof) (a : Fin c),
      gradient_kernel T test trial rule dU dR derivatives_ptr J_ num_elements
          (i + ndof * (a + c * e))
        = dR (i + ndof * (a + c * e))
          + gradient_kernel_element T test trial rule dU J_ derivatives_ptr e i a)
    ∧ (∀ r s : Nat, r < test_ndof * c → s < trial_ndof * c →
      gradient_matrix_kernel T mtest mtrial c trial_components rule K_e derivatives_ptr J_
          num_elements (r + test_ndof * c * (s + trial_ndof * c * e))
        = K_e (r + test_ndof * c * (s + trial_ndof * c * e))
          + gradient_matrix_kernel_element T mtest mtrial c trial_components rule J_
              derivatives_ptr e r s) := by
  refine ⟨?_, ?_, ?_⟩
  · intro i a cache
    exact evaluation_kernel_block T test trial rule qf U R_ derivatives_ptr J_ X_
      num_elements e he i a cache
  · intro i a
    exact gradient_kernel_block T test trial rule dU dR derivatives_ptr J_ num_elements e he i a
  · intro r s hr hs
    exact gradient_matrix_kernel_block T mtest mtrial c trial_components rule K_e
      derivatives_ptr J_ num_elements e he r s hr hs

/-- Witness for C9: element `1` of two elements of the sample data, evaluation kernel. -/
theorem kernels_add_element_value_witness :
    (1 : Nat) < 2 ∧
    (evaluation_kernel sample.T sample.segment sample.segment sample.rule sample.qf
        sample.U sample.R5 (fun _ => 0) sample.J sample.X 2).1
        (((0 : Fin 2) : Nat) + 2 * (((0 : Fin 1) : Nat) + 1 * 1))
      = sample.R5 (((0 : Fin 2) : Nat) + 2 * (((0 : Fin 1) : Nat) + 1 * 1))
        + (evaluation_kernel_element sample.T sample.segment sample.segment sample.rule
            sample.qf sample.U sample.J sample.X (fun _ => 0) 1).1 0 0 :=
  ⟨by decide,
   (kernels_add_element_value sample.T sample.segment sample.segment sample.rule sample.qf
      sample.U sample.R5 sample.U sample.R5 sample.R5 (fun _ => 0) sample.J sample.X
      sample.segment sample.segment 1 2 1 (by decide)).1 0 0 (fun _ => 0)⟩

/-! ## GradientMult before any Mult -/

/-- C10 (as stated, refuted): on a freshly constructed Integral over the sample data,
`GradientMult` applied to an output vector that holds `5` leaves `5` at offset `0`:
the output is not zeroed. -/
theorem GradientMult_fresh_not_zeroed_counterexample :
    sample.fresh.GradientMult sample.U sample.R5 0 = 5
    ∧ sample.fresh.GradientMult sample.U sample.R5 0 ≠ 0 := by
  decide

/-- C10 (amended): on a freshly constructed Integral on which `Mult` has never been
called, and whose derivative storage has a record for every quadrature point of every
element (`num_elements * rule.size() <= X.Size() / spatial_dim`), `GradientMult` adds
zero to the output: for every input `dU` and every output vector passed in, every entry
of the output after the call equals its value before the call. -/
theorem GradientMult_fresh_unchanged (T : TensorLib R) (test trial : finite_element R dim ndof)
    (test_order trial_order : Nat) (GaussQuadratureRule : Nat → QuadratureRule R dim)
    (outside : Nat → derivatives_type R c dim) (num_elements : Nat) (J X : Vector R)
    (qf : Vec R dim → qf_tuple (dual R c dim) c dim → qf_tuple (dual R c dim) c dim)
    (hsize : num_elements * (GaussQuadratureRule (max test_order trial_order + 1)).size
      ≤ X.Size / dim)
    (dU dR : Buffer R) (k : Nat) :
    (Integral.construct T test trial test_order trial_order GaussQuadratureRule outside
      num_elements J X qf).GradientMult dU dR k = dR k := by
  unfold Integral.GradientMult Integral.construct
  apply gradient_kernel_zero_cache
  intro e he q
  simp only at he q ⊢
  rw [if_pos]
  have hq := q.isLt
  have h1 : (e + 1) * (GaussQuadratureRule (max test_order trial_order + 1)).size
      ≤ num_elements * (GaussQuadratureRule (max test_order trial_order + 1)).size :=
    Nat.mul_le_mul_right _ he
  have h2 : (e + 1) * (GaussQuadratureRule (max test_order trial_order + 1)).size
      = e * (GaussQuadratureRule (max test_order trial_order + 1)).size
        + (GaussQuadratureRule (max test_order trial_order + 1)).size := by ring
  omega

/-- Witness for C10: the fresh sample Integral, whose storage has `4 / 1` records for
`2 * 2` quadrature points. -/
theorem GradientMult_fresh_unchanged_witness :
    2 * ((fun _ : Nat => sample.rule) (max 1 1 + 1)).size ≤ sample.Xv.Size / 1
    ∧ (Integral.construct sample.T sample.segment sample.segment 1 1 (fun _ => sample.rule)
        sample.outside 2 sample.Jv sample.Xv sample.qf).GradientMult sample.U sample.R5 3
      = sample.R5 3 :=
  ⟨by decide,
   GradientMult_fresh_unchanged sample.T sample.segment sample.segment 1 1
     (fun _ => sample.rule) sample.outside 2 sample.Jv sample.Xv sample.qf (by decide)
     sample.U sample.R5 3⟩

/-! ## The zero q-function -/

/-- C7: for every q-function that returns `(f0 = 0, f1 = 0)` for all inputs, and for every
`U`, `dU`, Jacobian table and coordinate table, the element residual computed by
`evaluation_kernel` is zero for every element, and the element output computed by
`gradient_kernel` afterwards, from the derivative records that the evaluation left, is
zero for every element `e < num_elements`.  This holds for every q-function on dual
numbers whose output is the zero tuple, and for every q-function built from arithmetic
over the reals whose output values are zero for all inputs. -/
theorem zero_qf_zero_residual_and_gradient (num_elements e : Nat) (he : e < num_elements) :
    (∀ (T : TensorLib R) (test trial : finite_element R dim ndof) (rule : QuadratureRule R dim)
        (qf : Vec R dim → qf_tuple (dual R c dim) c dim → qf_tuple (dual R c dim) c dim),
      (∀ x arg, qf x arg = 0) →
      ∀ (U R_ dU J_ X_ : Buffer R) (derivatives_ptr : Nat → derivatives_type R c dim),
        (∀ cache : Nat → derivatives_type R c dim,
          (evaluation_kernel_element T test trial rule qf U J_ X_ cache e).1 = 0)
        ∧ gradient_kernel_element T test trial rule dU J_
            (evaluation_kernel T test trial rule qf U R_ derivatives_ptr J_ X_
              num_elements).2 e = 0)
    ∧ (∀ (T : TensorLib ℝ) (test trial : finite_element ℝ dim ndof)
        (rule : QuadratureRule ℝ dim) (f : qf_tuple (qf_expr ℝ c dim) c dim),
      (∀ x arg, qf_plain f x arg = 0) →
      ∀ (U R_ dU J_ X_ : Buffer ℝ) (derivatives_ptr : Nat → derivatives_type ℝ c dim),
        (∀ cache : Nat → derivatives_type ℝ c dim,
          (evaluation_kernel_element T test trial rule (qf_dual f) U J_ X_ cache e).1 = 0)
        ∧ gradient_kernel_element T test trial rule dU J_
            (evaluation_kernel T test trial rule (qf_dual f) U R_ derivatives_ptr J_ X_
              num_elements).2 e = 0) := by
  constructor
  · intro T test trial rule qf hqf U R_ dU J_ X_ derivatives_ptr
    constructor
    · intro cache
      rw [evaluation_kernel_element_fst]
      funext i a
      apply Finset.sum_eq_zero
      intro q _
      have h0 : get_value (qf_output T trial rule qf U J_ X_ e q) = 0 := by
        unfold qf_output
        rw [hqf]
        rfl
      rw [h0, impl.Postprocess_zero]
      simp
    · apply gradient_kernel_element_zero_cache
      intro q
      rw [evaluation_kernel_cache T test trial rule qf U R_ derivatives_ptr J_ X_
        num_elements e he q]
      unfold qf_output
      rw [hqf]
      rfl
  · intro T test trial rule f hf U R_ dU J_ X_ derivatives_ptr
    have hres : ∀ (V : Buffer ℝ) (cache : Nat → derivatives_type ℝ c dim),
        (evaluation_kernel_element T test trial rule (qf_dual f) V J_ X_ cache e).1 = 0 := by
      intro V cache
      rw [evaluation_kernel_element_fst]
      funext i a
      apply Finset.sum_eq_zero
      intro q _
      have h0 : get_value (qf_output T trial rule (qf_dual f) V J_ X_ e q) = 0 := by
        unfold qf_output
        rw [get_value_qf_dual, hf]
      rw [h0, impl.Postprocess_zero]
      simp
    refine ⟨hres U, ?_⟩
    funext i a
    have hd := evaluation_kernel_element_hasDerivAt T test trial rule f U R_ dU J_ X_
      derivatives_ptr derivatives_ptr num_elements e he i a
    simp only [hres] at hd
    exact hd.unique (hasDerivAt_const (0 : ℝ) (0 : ℝ))

/-- Witness for C7: the zero q-function on the sample data, element `1` of two. -/
theorem zero_qf_zero_residual_and_gradient_witness :
    (1 : Nat) < 2 ∧ (∀ x arg, sample.zero_qf x arg = 0) ∧
    gradient_kernel_element sample.T sample.segment sample.segment sample.rule sample.U
        sample.J
        (evaluation_kernel sample.T sample.segment sample.segment sample.rule sample.zero_qf
          sample.U sample.R5 sample.outside sample.J sample.X 2).2 1
      = 0 :=
  ⟨by decide, fun _ _ => rfl,
   ((zero_qf_zero_residual_and_gradient 2 1 (by decide)).1 sample.T sample.segment
      sample.segment sample.rule sample.zero_qf (fun _ _ => rfl) sample.U sample.R5 sample.U
      sample.J sample.X sample.outside).2⟩

/-! ## The affine q-function on a scalar H1 element -/

/-- C2: for a scalar H1-family element with test = trial and the q-function
`f0 = a * u - s(x)`, `f1 = b * grad(u)`, for every element `e` and every DOF vector the
element residual computed by `evaluation_kernel` equals `(a * M_e + b * K_e) * u_e - F_e`
with the element mass matrix, diffusion matrix and load vector of the same shape
functions, Jacobians and quadrature rule; this value is what the call adds to the output
block of `e`. -/
theorem affine_residual_eq_mass_stiffness_load (T : TensorLib R)
    (el : finite_element R dim ndof) (rule : QuadratureRule R dim) (a b : R)
    (s : Vec R dim → R) (U R_ : Buffer R) (derivatives_ptr : Nat → derivatives_type R 1 dim)
    (J_ X_ : Buffer R) (num_elements e : Nat) (he : e < num_elements) :
    (∀ (cache : Nat → derivatives_type R 1 dim) (i : Fin ndof),
      (evaluation_kernel_element T el el rule (affine_qf a b s) U J_ X_ cache e).1 i 0
        = (∑ j : Fin ndof,
            (a * mass_matrix T el rule J_ e i j + b * stiffness_matrix T el rule J_ e i j)
              * U (j + ndof * e))
          - load_vector T el rule s J_ X_ e i)
    ∧ ∀ i : Fin ndof,
      (evaluation_kernel T el el rule (affine_qf a b s) U R_ derivatives_ptr J_ X_
          num_elements).1 (i + ndof * e)
        = R_ (i + ndof * e)
          + ((∑ j : Fin ndof,
              (a * mass_matrix T el rule J_ e i j + b * stiffness_matrix T el rule J_ e i j)
                * U (j + ndof * e))
            - load_vector T el rule s J_ X_ e i) := by
  have h1 : ∀ (cache : Nat → derivatives_type R 1 dim) (i : Fin ndof),
      (evaluation_kernel_element T el el rule (affine_qf a b s) U J_ X_ cache e).1 i 0
        = (∑ j : Fin ndof,
            (a * mass_matrix T el rule J_ e i j + b * stiffness_matrix T el rule J_ e i j)
              * U (j + ndof * e))
          - load_vector T el rule s J_ X_ e i :=
    fun cache i => evaluation_kernel_element_affine T el rule a b s U J_ X_ e cache i
  refine ⟨h1, ?_⟩
  intro i
  have h2 := evaluation_kernel_block T el el rule (affine_qf a b s) U R_ derivatives_ptr
    J_ X_ num_elements e he i 0 derivatives_ptr
  rw [h1] at h2
  simpa using h2

/-- Witness for C2: the sample q-function `f0 = 2 * u - x[0]`, `f1 = 3 * du_dx` on the
sample segment element, element `1` of two. -/
theorem affine_residual_eq_mass_stiffness_load_witness :
    (1 : Nat) < 2 ∧
    (evaluation_kernel sample.T sample.segment sample.segment sample.rule
        (affine_qf 2 3 (fun x => x 0)) sample.U sample.R5 sample.outside sample.J sample.X
        2).1 (((1 : Fin 2) : Nat) + 2 * 1)
      = sample.R5 (((1 : Fin 2) : Nat) + 2 * 1)
        + ((∑ j : Fin 2,
            (2 * mass_matrix sample.T sample.segment sample.rule sample.J 1 1 j
              + 3 * stiffness_matrix sample.T sample.segment sample.rule sample.J 1 1 j)
              * sample.U (j + 2 * 1))
          - load_vector sample.T sample.segment sample.rule (fun x => x 0) sample.J sample.X
              1 1) :=
  ⟨by decide,
   (affine_residual_eq_mass_stiffness_load sample.T sample.segment sample.rule 2 3
      (fun x => x 0) sample.U sample.R5 sample.outside sample.J sample.X 2 1
      (by decide)).2 1⟩

/-- C3: for the affine q-function `f0 = a * u - s(x)`, `f1 = b * grad(u)`, after
`evaluation_kernel` has run at any state `U`, `gradient_kernel` applied to any `dU`
produces for each element `e < num_elements` the value `(a * M_e + b * K_e) * du_e`, in
which `U` does not occur (so for `dU = U` it is the matrix of the linear part times
`U`); the call adds it to the output block of `e`; and it equals the element residual at
`U + dU` minus the element residual at `U`. -/
theorem affine_gradient_action (T : TensorLib R)
    (el : finite_element R dim ndof) (rule : QuadratureRule R dim) (a b : R)
    (s : Vec R dim → R) (U R_ dU dR : Buffer R)
    (derivatives_ptr : Nat → derivatives_type R 1 dim)
    (J_ X_ : Buffer R) (num_elements e : Nat) (he : e < num_elements) :
    (∀ i : Fin ndof,
      gradient_kernel_element T el el rule dU J_
          (evaluation_kernel T el el rule (affine_qf a b s) U R_ derivatives_ptr J_ X_
            num_elements).2 e i 0
        = ∑ j : Fin ndof,
            (a * mass_matrix T el rule J_ e i j + b * stiffness_matrix T el rule J_ e i j)
              * dU (j + ndof * e))
    ∧ (∀ i : Fin ndof,
      gradient_kernel T el el rule dU dR
          (evaluation_kernel T el el rule (affine_qf a b s) U R_ derivatives_ptr J_ X_
            num_elements).2 J_ num_elements (i + ndof * e)
        = dR (i + ndof * e)
          + ∑ j : Fin ndof,
            (a * mass_matrix T el rule J_ e i j + b * stiffness_matrix T el rule J_ e i j)
              * dU (j + ndof * e))
    ∧ ∀ (i : Fin ndof) (cache1 cache2 : Nat → derivatives_type R 1 dim),
      gradient_kernel_element T el el rule dU J_
          (evaluation_kernel T el el rule (affine_qf a b s) U R_ derivatives_ptr J_ X_
            num_elements).2 e i 0
        = (evaluation_kernel_element T el el rule (affine_qf a b s) (U + dU) J_ X_ cache1 e).1
            i 0
          - (evaluation_kernel_element T el el rule (affine_qf a b s) U J_ X_ cache2 e).1
            i 0 := by
  refine ⟨?_, ?_, ?_⟩
  · intro i
    exact gradient_kernel_element_affine T el rule a b s U R_ dU J_ X_ derivatives_ptr
      num_elements e he i
  · intro i
    have h2 := gradient_kernel_block T el el rule dU dR
      (evaluation_kernel T el el rule (affine_qf a b s) U R_ derivatives_ptr J_ X_
        num_elements).2 J_ num_elements e he i 0
    rw [gradient_kernel_element_affine T el rule a b s U R_ dU J_ X_ derivatives_ptr
      num_elements e he i] at h2
    simpa using h2
  · intro i cache1 cache2
    rw [gradient_kernel_element_affine T el rule a b s U R_ dU J_ X_ derivatives_ptr
      num_elements e he i, evaluation_kernel_element_affine,
      evaluation_kernel_element_affine]
    simp only [Pi.add_apply, mul_add, Finset.sum_add_distrib]
    ring

/-- Witness for C3: the sample affine q-function, linearised at `U = sample.U`, applied
to `dU = sample.X`, element `0` of two. -/
theorem affine_gradient_action_witness :
    (0 : Nat) < 2 ∧
    gradient_kernel sample.T sample.segment sample.segment sample.rule sample.X sample.R5
        (evaluation_kernel sample.T sample.segment sample.segment sample.rule
          (affine_qf 2 3 (fun x => x 0)) sample.U sample.R5 sample.outside sample.J sample.X
          2).2 sample.J 2 (((1 : Fin 2) : Nat) + 2 * 0)
      = sample.R5 (((1 : Fin 2) : Nat) + 2 * 0)
        + ∑ j : Fin 2,
            (2 * mass_matrix sample.T sample.segment sample.rule sample.J 0 1 j
              + 3 * stiffness_matrix sample.T sample.segment sample.rule sample.J 0 1 j)
              * sample.X (j + 2 * 0) :=
  ⟨by decide,
   (affine_gradient_action sample.T sample.segment sample.rule 2 3 (fun x => x 0) sample.U
      sample.R5 sample.X sample.R5 sample.outside sample.J sample.X 2 0 (by decide)).2.1 1⟩

/-- C6: for a scalar H1 element with test = trial and the q-function
`f0 = a * u - s(x)`, `f1 = b * grad(u)`, after evaluation at any `U` the block that
`gradient_matrix_kernel` produces for element `e < num_elements` equals
`a * M_e + b * K_e` entry by entry, with the element mass and diffusion matrices of the
same shape functions, Jacobians and quadrature rule; the call adds this block to the
output block of `e`. -/
theorem affine_gradient_matrix_eq_mass_stiffness (T : TensorLib R)
    (el : finite_element R dim ndof) (rule : QuadratureRule R dim) (a b : R)
    (s : Vec R dim → R) (U R_ K_e : Buffer R)
    (derivatives_ptr : Nat → derivatives_type R 1 dim)
    (J_ X_ : Buffer R) (trial_components num_elements e : Nat) (he : e < num_elements) :
    (∀ i j : Fin ndof,
      gradient_matrix_kernel_element T el el 1 trial_components rule J_
          (evaluation_kernel T el el rule (affine_qf a b s) U R_ derivatives_ptr J_ X_
            num_elements).2 e i j
        = a * mass_matrix T el rule J_ e i j + b * stiffness_matrix T el rule J_ e i j)
    ∧ ∀ i j : Fin ndof,
      gradient_matrix_kernel T el el 1 trial_components rule K_e
          (evaluation_kernel T el el rule (affine_qf a b s) U R_ derivatives_ptr J_ X_
            num_elements).2 J_ num_elements (i + ndof * (j + ndof * e))
        = K_e (i + ndof * (j + ndof * e))
          + (a * mass_matrix T el rule J_ e i j + b * stiffness_matrix T el rule J_ e i j) := by
  refine ⟨fun i j => gradient_matrix_kernel_element_affine T el rule a b s U R_ J_ X_
    derivatives_ptr trial_components num_elements e he i j, ?_⟩
  intro i j
  have h := gradient_matrix_kernel_block T el el 1 trial_components rule K_e
    (evaluation_kernel T el el rule (affine_qf a b s) U R_ derivatives_ptr J_ X_
      num_elements).2 J_ num_elements e he i j (by simp) (by simp)
  rw [gradient_matrix_kernel_element_affine T el rule a b s U R_ J_ X_
    derivatives_ptr trial_components num_elements e he i j] at h
  simpa using h

/-- Witness for C6: the sample affine q-function, element `1` of two, entry `(0, 1)`. -/
theorem affine_gradient_matrix_eq_mass_stiffness_witness :
    (1 : Nat) < 2 ∧
    gradient_matrix_kernel_element sample.T sample.segment sample.segment 1 1 sample.rule
        sample.J
        (evaluation_kernel sample.T sample.segment sample.segment sample.rule
          (affine_qf 2 3 (fun x => x 0)) sample.U sample.R5 sample.outside sample.J sample.X
          2).2 1 ((0 : Fin 2) : Nat) ((1 : Fin 2) : Nat)
      = 2 * mass_matrix sample.T sample.segment sample.rule sample.J 1 0 1
        + 3 * stiffness_matrix sample.T sample.segment sample.rule sample.J 1 0 1 :=
  ⟨by decide,
   (affine_gradient_matrix_eq_mass_stiffness sample.T sample.segment sample.rule 2 3
      (fun x => x 0) sample.U sample.R5 sample.R5 sample.outside sample.J sample.X 1 2 1
      (by decide)).1 0 1⟩

/-! ## The gradient matrix against the gradient action -/

/-- C5 (as stated, refuted): on the scalar sample element with derivative records whose
`df1_du` block is `1`, the element matrix of `gradient_matrix_kernel` applied to `du_e`
gives `0` where `gradient_kernel` gives `-3`; and on a two-component element in two
dimensions with the records of `f1 = du_dx`, the matrix applied to `du_e` gives `2` where
`gradient_kernel` gives `3`. -/
theorem gradient_matrix_differs_from_gradient_counterexample :
    (∑ j : Fin 2,
        gradient_matrix_kernel_element sample.T sample.segment sample.segment 1 1 sample.rule
            sample.J sample.cache_df1_du 0
            (((0 : Fin 2) : Nat) * 1 + ((0 : Fin 1) : Nat)) ((j : Nat) * 1 + ((0 : Fin 1) : Nat))
          * impl.Load 2 1 sample.U 0 0 j)
      ≠ gradient_kernel_element sample.T sample.segment sample.segment sample.rule sample.U
          sample.J sample.cache_df1_du 0 0 0
    ∧ (∑ j : Fin 1, ∑ jd : Fin 2,
        gradient_matrix_kernel_element sample.T sample.point2 sample.point2 2 2 sample.rule2
            sample.J sample.cache_grad 0
            (((0 : Fin 1) : Nat) * 2 + ((0 : Fin 2) : Nat)) ((j : Nat) * 2 + (jd : Nat))
          * impl.Load 1 2 sample.U 0 jd j)
      ≠ gradient_kernel_element sample.T sample.point2 sample.point2 sample.rule2 sample.U
          sample.J sample.cache_grad 0 0 0 := by
  decide

/-- C5 (amended): for H1 test and trial spaces with `c` components, `c = 1` or `c = dim`,
for every element `e`, every perturbation `du` and every cache content whose `df1/du`
block is zero at the quadrature points of `e` and, when `c > 1`, whose `df1/dgrad u`
block is symmetric in its first two indices
(`df1_dgradu[id][k][jd][l] = df1_dgradu[k][id][jd][l]`), the element matrix accumulated by
`gradient_matrix_kernel` applied to `du_e` equals the element output of
`gradient_kernel` for `du`: for all `i`, `id`,
`sum over (j, jd) of K_e[i*c+id][j*c+jd] * du_e[jd][j] = dr_e[i][id]`. -/
theorem gradient_matrix_action_eq_gradient_kernel (T : TensorLib R)
    (test trial : finite_element R dim ndof) (trial_components : Nat)
    (rule : QuadratureRule R dim) (dU J_ : Buffer R)
    (cache : Nat → derivatives_type R c dim) (e : Nat)
    (hc : c = 1 ∨ c = dim)
    (h1 : ∀ (q : Fin rule.size) a m b, (cache (e * rule.size + q)).df1_du a m b = 0)
    (hsym : c ≠ 1 → ∀ (h : c = dim) (q : Fin rule.size) (a : Fin c) (k : Fin dim) (b : Fin c)
      (l : Fin dim),
      (cache (e * rule.size + q)).df1_dgradu a k b l
        = (cache (e * rule.size + q)).df1_dgradu (Fin.cast h.symm k) (Fin.cast h a) b l)
    (i : Fin ndof) (id : Fin c) :
    (∑ j : Fin ndof, ∑ jd : Fin c,
      gradient_matrix_kernel_element T test trial c trial_components rule J_ cache e
          (i * c + id) (j * c + jd)
        * impl.Load ndof c dU e jd j)
      = gradient_kernel_element T test trial rule dU J_ cache e i id := by
  rw [gradient_kernel_element_eq]
  simp only [gradient_matrix_kernel_element_entry, Finset.sum_mul]
  rw [Finset.sum_congr rfl (fun j _ => Finset.sum_comm)]
  rw [Finset.sum_comm]
  apply Finset.sum_congr rfl
  intro q _
  rw [Postprocess_chain_rule T test _ _ _ _ hc (h1 q) (fun hc1 hd => hsym hc1 hd q)]
  simp only [impl.Preprocess_fst, impl.Preprocess_snd, add_mul, Finset.sum_add_distrib]
  rw [matrix_action_term0, matrix_action_term1]
  rw [matrix_action_term2
    (impl.Measure T (J_q rule.size J_ e q : Mat R dim dim) * rule.weights q)
    (fun k => dot (test.shape_function_gradients (rule.points q))
      (T.inv (J_q rule.size J_ e q)) i k)
    (fun k b l => (cache (e * rule.size + q)).df1_dgradu id k b l)
    (fun j l => dot (trial.shape_function_gradients (rule.points q))
      (T.inv (J_q rule.size J_ e q)) j l)
    (impl.Load ndof c dU e)]
  ring

/-- Witness for C5: two components in two dimensions with the records of the symmetric
flux `f1 = du_dx + transpose(du_dx)`. -/
theorem gradient_matrix_action_eq_gradient_kernel_witness :
    ((2 : Nat) = 1 ∨ (2 : Nat) = 2)
    ∧ (∀ (q : Fin sample.rule2.size) (a : Fin 2) (m : Fin 2) (b : Fin 2),
        (sample.cache_sym (0 * sample.rule2.size + q)).df1_du a m b = 0)
    ∧ (∑ j : Fin 1, ∑ jd : Fin 2,
        gradient_matrix_kernel_element sample.T sample.point2 sample.point2 2 2 sample.rule2
            sample.J sample.cache_sym 0
            (((0 : Fin 1) : Nat) * 2 + ((1 : Fin 2) : Nat)) ((j : Nat) * 2 + (jd : Nat))
          * impl.Load 1 2 sample.U 0 jd j)
      = gradient_kernel_element sample.T sample.point2 sample.point2 sample.rule2 sample.U
          sample.J sample.cache_sym 0 0 1 :=
  ⟨Or.inr rfl, fun _ _ _ _ => rfl,
   gradient_matrix_action_eq_gradient_kernel sample.T sample.point2 sample.point2 2
     sample.rule2 sample.U sample.J sample.cache_sym 0 (Or.inr rfl) (fun _ _ _ _ => rfl)
     (fun _ _ _ a k b l => by
        simp only [sample.cache_sym, Fin.cast_eq_self]
        revert a k b l
        decide) 0 1⟩

/-! ## Automatic differentiation of q-functions built from arithmetic -/

/-- C8: for every q-function built from tensor arithmetic (plain numbers, sums,
differences, products, negations, scalar multiples of the argument entries) and every
argument `arg`, `get_value(qf(x, make_dual(arg)))` equals `qf(x, arg)`; so the element
residual that `evaluation_kernel` computes through dual numbers equals the one obtained by
applying the q-function to the plain `Preprocess` output. -/
theorem dual_value_eq_plain_qf (f : qf_tuple (qf_expr R c dim) c dim) :
    (∀ (x : Vec R dim) (arg : qf_argument R c dim),
      get_value (qf_dual f x (make_dual arg)) = qf_plain f x arg)
    ∧ ∀ (T : TensorLib R) (test trial : finite_element R dim ndof) (rule : QuadratureRule R dim)
        (U J_ X_ : Buffer R) (cache : Nat → derivatives_type R c dim) (e : Nat)
        (i : Fin ndof) (a : Fin c),
      (evaluation_kernel_element T test trial rule (qf_dual f) U J_ X_ cache e).1 i a
        = ∑ q : Fin rule.size,
            impl.Postprocess T test
              (qf_plain f (x_q rule.size X_ e q)
                (impl.Preprocess T trial (impl.Load ndof c U e) (rule.points q)
                  (J_q rule.size J_ e q)))
              (rule.points q) (J_q rule.size J_ e q) i a
            * impl.Measure T (J_q rule.size J_ e q : Mat R dim dim) * rule.weights q := by
  constructor
  · intro x arg
    rw [get_value_qf_dual]
    rfl
  · intro T test trial rule U J_ X_ cache e i a
    rw [evaluation_kernel_element_fst]
    apply Finset.sum_congr rfl
    intro q _
    simp only [qf_output, get_value_qf_dual, mul_assoc]
    rfl

/-- C4: for every q-function that is polynomial in `(u, grad u)` (built from arithmetic,
over the reals), every state `U` and every direction `dU`, the element output of
`gradient_kernel` for `dU`, run after `evaluation_kernel` at `U`, is the derivative at
`eps = 0` of `eps -> (element residual of evaluation_kernel at U + eps * dU)`; that is,
`(F(U + eps * dU) - F(U)) / eps` tends to the gradient action as `eps` tends to `0`. -/
theorem gradient_kernel_is_directional_derivative (T : TensorLib ℝ)
    (test trial : finite_element ℝ dim ndof) (rule : QuadratureRule ℝ dim)
    (f : qf_tuple (qf_expr ℝ c dim) c dim) (U R_ dU J_ X_ : Buffer ℝ)
    (derivatives_ptr cache1 cache2 : Nat → derivatives_type ℝ c dim) (num_elements e : Nat)
    (he : e < num_elements) (i : Fin ndof) (a : Fin c) :
    HasDerivAt
      (fun eps : ℝ =>
        (evaluation_kernel_element T test trial rule (qf_dual f) (U + eps • dU) J_ X_ cache1
          e).1 i a)
      (gradient_kernel_element T test trial rule dU J_
        (evaluation_kernel T test trial rule (qf_dual f) U R_ derivatives_ptr J_ X_
          num_elements).2 e i a)
      0
    ∧ Filter.Tendsto
      (fun eps : ℝ =>
        ((evaluation_kernel_element T test trial rule (qf_dual f) (U + eps • dU) J_ X_ cache1
            e).1 i a
          - (evaluation_kernel_element T test trial rule (qf_dual f) U J_ X_ cache2 e).1 i a)
         / eps)
      (nhdsWithin 0 {0}ᶜ)
      (nhds (gradient_kernel_element T test trial rule dU J_
        (evaluation_kernel T test trial rule (qf_dual f) U R_ derivatives_ptr J_ X_
          num_elements).2 e i a)) := by
  have h := evaluation_kernel_element_hasDerivAt T test trial rule f U R_ dU J_ X_
    derivatives_ptr cache1 num_elements e he i a
  refine ⟨h, ?_⟩
  have h2 := hasDerivAt_iff_tendsto_slope.mp h
  refine h2.congr (fun eps => ?_)
  rw [slope_def_field]
  simp only [sub_zero, zero_smul, add_zero, evaluation_kernel_element_fst]

/-- Witness for C4: the nonlinear q-function `f0 = u * u - x[0]`, `f1 = (3 * du_dx) * u`
on the sample segment element over the reals, element `0` of two. -/
theorem gradient_kernel_is_directional_derivative_witness :
    (0 : Nat) < 2 ∧
    HasDerivAt
      (fun eps : ℝ =>
        (evaluation_kernel_element (sample.T_over ℝ) (sample.segment_over ℝ)
          (sample.segment_over ℝ) (sample.rule_over ℝ) (qf_dual (sample.nonlinear_over ℝ))
          (sample.U_over ℝ + eps • sample.ones_over ℝ) (sample.ones_over ℝ)
          (sample.U_over ℝ) (fun _ => 0) 0).1 1 0)
      (gradient_kernel_element (sample.T_over ℝ) (sample.segment_over ℝ)
        (sample.segment_over ℝ) (sample.rule_over ℝ) (sample.ones_over ℝ) (sample.ones_over ℝ)
        (evaluation_kernel (sample.T_over ℝ) (sample.segment_over ℝ) (sample.segment_over ℝ)
          (sample.rule_over ℝ) (qf_dual (sample.nonlinear_over ℝ)) (sample.U_over ℝ)
          (sample.ones_over ℝ) (fun _ => 0) (sample.ones_over ℝ) (sample.U_over ℝ) 2).2 0 1 0)
      0 :=
  ⟨by decide,
   (gradient_kernel_is_directional_derivative (sample.T_over ℝ) (sample.segment_over ℝ)
      (sample.segment_over ℝ) (sample.rule_over ℝ) (sample.nonlinear_over ℝ)
      (sample.U_over ℝ) (sample.ones_over ℝ) (sample.ones_over ℝ) (sample.ones_over ℝ)
      (sample.U_over ℝ) (fun _ => 0) (fun _ => 0) (fun _ => 0) 2 0 (by decide) 1 0).1⟩

end claims

/-! ## The hexahedron tables -/

section hexahedron

/-- The last iteration of a `for_constexpr` loop. -/
theorem for_constexpr_succ_last {σ : Type} (n : Nat) (body : Fin (n + 1) → σ → σ) (s : σ) :
    for_constexpr (n + 1) body s
      = body (Fin.last n) (for_constexpr n (fun i => body i.castSucc) s) := by
  unfold for_constexpr
  rw [List.finRange_succ_last, List.foldl_append, List.foldl_map]
  rfl

/-- Loop invariants: a property indexed by the iteration count that holds initially and is
preserved by every iteration holds after the loop. -/
theorem for_constexpr_inv {σ : Type} (n : Nat) (body : Fin n → σ → σ) (P : Nat → σ → Prop)
    (s : σ) (h0 : P 0 s) (hstep : ∀ (i : Fin n) (s : σ), P i s → P (i + 1) (body i s)) :
    P n (for_constexpr n body s) := by
  induction n with
  | zero => exact h0
  | succ n ih =>
    rw [for_constexpr_succ_last]
    exact hstep (Fin.last n) _ (ih (fun i => body i.castSucc) (fun i s hs => hstep i.castSucc s hs))

/-- Composition of block writers: a loop over `n` writers of blocks of size `b` writes a
block of size `b * n`. -/
theorem block_loop {V ι : Type} (n b : Nat)
    (W : Fin n → Nat × (Nat → V) → Nat × (Nat → V)) (pos : ι → Nat) (val : Fin n → ι → V)
    (hpos : ∀ x, pos x < b)
    (hW : ∀ a st, (W a st).1 = st.1 + b ∧ (∀ x, (W a st).2 (st.1 + pos x) = val a x)
      ∧ ∀ m, m < st.1 ∨ st.1 + b ≤ m → (W a st).2 m = st.2 m)
    (st0 : Nat × (Nat → V)) :
    (for_constexpr n W st0).1 = st0.1 + b * n
    ∧ (∀ (a : Fin n) (x : ι), (for_constexpr n W st0).2 (st0.1 + (b * a + pos x)) = val a x)
    ∧ ∀ m, m < st0.1 ∨ st0.1 + b * n ≤ m → (for_constexpr n W st0).2 m = st0.2 m := by
  have key := for_constexpr_inv n W
    (fun t st => st.1 = st0.1 + b * t
      ∧ (∀ (a : Fin n) (x : ι), (a : Nat) < t → st.2 (st0.1 + (b * a + pos x)) = val a x)
      ∧ ∀ m, m < st0.1 ∨ st0.1 + b * t ≤ m → st.2 m = st0.2 m) st0
    ⟨by simp, fun a x h => absurd h (Nat.not_lt_zero _), fun m _ => rfl⟩
    (by
      intro i st ⟨h1, h2, h3⟩
      obtain ⟨w1, w2, w3⟩ := hW i st
      refine ⟨?_, ?_, ?_⟩
      · rw [w1, h1]; ring
      · intro a x ha
        by_cases hai : (a : Nat) = i
        · have : a = i := Fin.ext hai
          subst this
          have hp : st0.1 + (b * (a : Nat) + pos x) = st.1 + pos x := by rw [h1]; ring
          rw [hp]
          exact w2 x
        · have hlt : (a : Nat) < i := by omega
          have hx := hpos x
          have hb : b * ((a : Nat) + 1) ≤ b * (i : Nat) := Nat.mul_le_mul_left b hlt
          have hb2 : b * ((a : Nat) + 1) = b * a + b := by ring
          rw [w3 _ (Or.inl (by rw [h1]; omega))]
          exact h2 a x hlt
      · intro m hm
        have hb2 : b * ((i : Nat) + 1) = b * i + b := by ring
        rw [w3 m (by rw [h1]; omega)]
        exact h3 m (by omega))
  obtain ⟨k1, k2, k3⟩ := key
  exact ⟨k1, fun a x => k2 a x a.isLt, k3⟩

/-- A loop over `n` writers that each log a run of `b` consecutive indices logs a run of
`b * n` consecutive indices. -/
theorem log_loop (n b : Nat) (W : Fin n → Nat × List Nat → Nat × List Nat)
    (hW : ∀ a st, W a st = (st.1 + b, st.2 ++ List.range' st.1 b))
    (st0 : Nat × List Nat) :
    for_constexpr n W st0 = (st0.1 + b * n, st0.2 ++ List.range' st0.1 (b * n)) := by
  refine for_constexpr_inv n W
    (fun t st => st = (st0.1 + b * t, st0.2 ++ List.range' st0.1 (b * t))) st0 (by simp) ?_
  intro i st hst
  rw [hW, hst]
  simp only [List.append_assoc]
  have h1 : b * ((i : Nat) + 1) = b * i + b := by ring
  have h2 := List.range'_append st0.1 (b * i) b 1
  simp only [Nat.one_mul] at h2
  rw [h2, h1, add_assoc, Nat.add_comm b (b * i)]

/-- The loop nest over an array store: the entry at the packed index of `(i, j, k)` is
`entry i j k`, and the store is unchanged from `ndof` on. -/
theorem hexahedron_loops_update {V : Type} (p : Nat)
    (entry : Fin (p + 1) → Fin (p + 1) → Fin (p + 1) → V) (table : Nat → V) :
    (∀ i j k : Fin (p + 1),
      (hexahedron_loops (fun (N : Nat → V) n v => Function.update N n v) p entry table).2
          (i + (p + 1) * j + (p + 1) ^ 2 * k) = entry i j k)
    ∧ ∀ m, hexahedron_ndof p ≤ m →
      (hexahedron_loops (fun (N : Nat → V) n v => Function.update N n v) p entry table).2 m
        = table m := by
  have l1 : ∀ (j k : Fin (p + 1)) (st : Nat × (Nat → V)),
      (for_constexpr (p + 1) (fun i (st : Nat × (Nat → V)) =>
          (st.1 + 1, Function.update st.2 st.1 (entry i j k))) st).1 = st.1 + 1 * (p + 1)
      ∧ (∀ (i : Fin (p + 1)) (x : Unit),
          (for_constexpr (p + 1) (fun i (st : Nat × (Nat → V)) =>
            (st.1 + 1, Function.update st.2 st.1 (entry i j k))) st).2
              (st.1 + (1 * i + 0)) = entry i j k)
      ∧ ∀ m, m < st.1 ∨ st.1 + 1 * (p + 1) ≤ m →
          (for_constexpr (p + 1) (fun i (st : Nat × (Nat → V)) =>
            (st.1 + 1, Function.update st.2 st.1 (entry i j k))) st).2 m = st.2 m := by
    intro j k st
    refine block_loop (p + 1) 1 _ (fun _ : Unit => 0) (fun i _ => entry i j k)
      (fun _ => Nat.one_pos) ?_ st
    intro a st
    refine ⟨rfl, fun _ => by simp, fun m hm => ?_⟩
    exact Function.update_noteq (by omega) _ _
  have l2 : ∀ (k : Fin (p + 1)) (st : Nat × (Nat → V)),
      (for_constexpr (p + 1) (fun j => for_constexpr (p + 1) (fun i (st : Nat × (Nat → V)) =>
          (st.1 + 1, Function.update st.2 st.1 (entry i j k)))) st).1
        = st.1 + 1 * (p + 1) * (p + 1)
      ∧ (∀ (j : Fin (p + 1)) (x : Fin (p + 1) × Unit),
          (for_constexpr (p + 1) (fun j => for_constexpr (p + 1)
            (fun i (st : Nat × (Nat → V)) =>
              (st.1 + 1, Function.update st.2 st.1 (entry i j k)))) st).2
              (st.1 + (1 * (p + 1) * j + (1 * x.1 + 0))) = entry x.1 j k)
      ∧ ∀ m, m < st.1 ∨ st.1 + 1 * (p + 1) * (p + 1) ≤ m →
          (for_constexpr (p + 1) (fun j => for_constexpr (p + 1)
            (fun i (st : Nat × (Nat → V)) =>
              (st.1 + 1, Function.update st.2 st.1 (entry i j k)))) st).2 m = st.2 m := by
    intro k st
    refine block_loop (p + 1) (1 * (p + 1)) _ (fun x : Fin (p + 1) × Unit => 1 * x.1 + 0)
      (fun j x => entry x.1 j k)
      (fun x => by have := x.1.isLt; simp only [Nat.one_mul, Nat.add_zero]; omega) ?_ st
    intro j st
    obtain ⟨a1, a2, a3⟩ := l1 j k st
    exact ⟨a1, fun x => a2 x.1 x.2, a3⟩
  have l3 := block_loop (p + 1) (1 * (p + 1) * (p + 1))
    (fun k => for_constexpr (p + 1) (fun j => for_constexpr (p + 1)
      (fun i (st : Nat × (Nat → V)) =>
        (st.1 + 1, Function.update st.2 st.1 (entry i j k)))))
    (fun x : Fin (p + 1) × Fin (p + 1) × Unit => 1 * (p + 1) * x.1 + (1 * x.2.1 + 0))
    (fun k x => entry x.2.1 x.1 k)
    (fun x => by
      have h1 := x.1.isLt
      have h2 := x.2.1.isLt
      have h3 : (p + 1) * ((x.1 : Nat) + 1) ≤ (p + 1) * (p + 1) := Nat.mul_le_mul_left _ h1
      have h4 : (p + 1) * ((x.1 : Nat) + 1) = (p + 1) * x.1 + (p + 1) := by ring
      simp only [Nat.one_mul, Nat.add_zero]
      omega)
    (fun k st => by
      obtain ⟨a1, a2, a3⟩ := l2 k st
      exact ⟨a1, fun x => a2 x.1 x.2, a3⟩)
    (0, table)
  obtain ⟨b1, b2, b3⟩ := l3
  constructor
  · intro i j k
    have h := b2 k (j, i, ())
    simp only [Nat.one_mul, Nat.add_zero, Nat.zero_add] at h
    have hidx : (i : Nat) + (p + 1) * j + (p + 1) ^ 2 * k
        = (p + 1) * (p + 1) * k + ((p + 1) * j + i) := by ring
    unfold hexahedron_loops
    rw [hidx]
    exact h
  · intro m hm
    unfold hexahedron_loops
    exact b3 m (Or.inr (by
      simp only [Nat.one_mul, Nat.zero_add]
      exact hm))

/-- The stores of the loop nest go to `0, 1, ..., ndof - 1`, in this order. -/
theorem hexahedron_writes_eq (p : Nat) : hexahedron_writes p = List.range (hexahedron_ndof p) := by
  unfold hexahedron_writes hexahedron_loops
  have l1 : ∀ (st : Nat × List Nat),
      for_constexpr (p + 1) (fun (_ : Fin (p + 1)) (st : Nat × List Nat) =>
        (st.1 + 1, st.2 ++ [st.1])) st
      = (st.1 + 1 * (p + 1), st.2 ++ List.range' st.1 (1 * (p + 1))) :=
    fun st => log_loop (p + 1) 1 _ (fun _ _ => rfl) st
  have l2 : ∀ (st : Nat × List Nat),
      for_constexpr (p + 1) (fun (_ : Fin (p + 1)) =>
        for_constexpr (p + 1) (fun (_ : Fin (p + 1)) (st : Nat × List Nat) =>
          (st.1 + 1, st.2 ++ [st.1]))) st
      = (st.1 + 1 * (p + 1) * (p + 1), st.2 ++ List.range' st.1 (1 * (p + 1) * (p + 1))) :=
    fun st => log_loop (p + 1) (1 * (p + 1)) _ (fun _ st => l1 st) st
  have l3 := log_loop (p + 1) (1 * (p + 1) * (p + 1))
    (fun (_ : Fin (p + 1)) => for_constexpr (p + 1) (fun (_ : Fin (p + 1)) =>
        for_constexpr (p + 1) (fun (_ : Fin (p + 1)) (st : Nat × List Nat) =>
          (st.1 + 1, st.2 ++ [st.1]))))
    (fun _ st => l2 st) (0, [])
  rw [l3]
  simp [List.range_eq_range', hexahedron_ndof]

/-- A sum over `Fin (a * b)` as a double sum, with the second index the fast one. -/
theorem sum_fin_mul {a b : Nat} (G : Nat → R) :
    (∑ n : Fin (a * b), G n) = ∑ x : Fin a, ∑ y : Fin b, G (y + b * x) := by
  rw [← Fintype.sum_equiv finProdFinEquiv (fun x : Fin a × Fin b => G (x.2 + b * x.1))
    (fun n : Fin (a * b) => G n) (fun x => rfl)]
  exact Fintype.sum_prod_type _

/-- A sum over the `ndof` indices as a triple sum over the packed index. -/
theorem sum_hexahedron (p : Nat) (G : Nat → R) :
    (∑ n : Fin (hexahedron_ndof p), G n)
      = ∑ k : Fin (p + 1), ∑ j : Fin (p + 1), ∑ i : Fin (p + 1),
          G (i + (p + 1) * j + (p + 1) ^ 2 * k) := by
  unfold hexahedron_ndof
  rw [sum_fin_mul, sum_fin_mul (fun n => ∑ y : Fin (p + 1), G (y + (p + 1) * n))]
  apply Finset.sum_congr rfl
  intro k _
  apply Finset.sum_congr rfl
  intro j _
  apply Finset.sum_congr rfl
  intro i _
  congr 1
  ring

/-- The packed index of `(i, j, k)` is below `ndof`. -/
theorem hexahedron_index_lt (p : Nat) (i j k : Fin (p + 1)) :
    (i : Nat) + (p + 1) * j + (p + 1) ^ 2 * k < hexahedron_ndof p := by
  have h1 := i.isLt
  have h2 : (p + 1) * ((j : Nat) + 1) ≤ (p + 1) * (p + 1) := Nat.mul_le_mul_left _ j.isLt
  have h3 : (p + 1) * (p + 1) * ((k : Nat) + 1) ≤ (p + 1) * (p + 1) * (p + 1) :=
    Nat.mul_le_mul_left _ k.isLt
  have e2 : (p + 1) * ((j : Nat) + 1) = (p + 1) * j + (p + 1) := by ring
  have e3 : (p + 1) * (p + 1) * ((k : Nat) + 1) = (p + 1) ^ 2 * k + (p + 1) * (p + 1) := by
    ring
  unfold hexahedron_ndof
  omega

/-- The counter of the loop nest ends at `ndof`, whatever the store. -/
theorem hexahedron_loops_count {S V : Type} (write : S → Nat → V → S) (p : Nat)
    (entry : Fin (p + 1) → Fin (p + 1) → Fin (p + 1) → V) (table : S) :
    (hexahedron_loops write p entry table).1 = hexahedron_ndof p := by
  unfold hexahedron_loops
  have l1 : ∀ (j k : Fin (p + 1)) (st : Nat × S),
      (for_constexpr (p + 1) (fun i (st : Nat × S) =>
        (st.1 + 1, write st.2 st.1 (entry i j k))) st).1 = st.1 + (p + 1) := by
    intro j k st
    exact for_constexpr_inv (p + 1) _ (fun t (s : Nat × S) => s.1 = st.1 + t) st rfl
      (fun i s hs => by simp only [hs]; ring)
  have l2 : ∀ (k : Fin (p + 1)) (st : Nat × S),
      (for_constexpr (p + 1) (fun j => for_constexpr (p + 1) (fun i (st : Nat × S) =>
        (st.1 + 1, write st.2 st.1 (entry i j k)))) st).1 = st.1 + (p + 1) * (p + 1) := by
    intro k st
    exact for_constexpr_inv (p + 1) _ (fun t (s : Nat × S) => s.1 = st.1 + (p + 1) * t) st
      (by simp) (fun j s hs => by
        have hs2 : s.1 = st.1 + (p + 1) * j := hs
        show (for_constexpr (p + 1) (fun i (st : Nat × S) =>
          (st.1 + 1, write st.2 st.1 (entry i j k))) s).1 = st.1 + (p + 1) * ((j : Nat) + 1)
        rw [l1, hs2]; ring)
  have l3 := for_constexpr_inv (p + 1)
    (fun k => for_constexpr (p + 1) (fun j => for_constexpr (p + 1) (fun i (st : Nat × S) =>
        (st.1 + 1, write st.2 st.1 (entry i j k)))))
    (fun t (s : Nat × S) => s.1 = (p + 1) * (p + 1) * t) (0, table)
    (by simp) (fun k s hs => by
      have hs2 : s.1 = (p + 1) * (p + 1) * k := hs
      show (for_constexpr (p + 1) (fun j => for_constexpr (p + 1) (fun i (st : Nat × S) =>
        (st.1 + 1, write st.2 st.1 (entry i j k)))) s).1 = (p + 1) * (p + 1) * ((k : Nat) + 1)
      rw [l2, hs2]; ring)
  exact l3

/-- Occurrences of `m` in `List.range n`. -/
theorem count_range (n m : Nat) : (List.range n).count m = if m < n then 1 else 0 := by
  split
  · exact List.count_eq_one_of_mem (List.nodup_range n) (List.mem_range.mpr ‹_›)
  · exact List.count_eq_zero_of_not_mem (fun h => ‹¬ m < n› (List.mem_range.mp h))

/-- C18: for the hexahedron H1 and L2 elements of every order `p` and all `i, j, k ≤ p`,
the packed index `i + (p+1)*j + (p+1)^2*k` is below `ndof = (p+1)^3` and
`shape_functions(xi)` holds `N_xi[i] * N_eta[j] * N_zeta[k]` there; the stores of the loop
nest go to the indices `0, 1, ..., ndof - 1` in this order, so every index below `ndof`
is written exactly once and no index `≥ ndof` is written: the final `count` is `ndof` and
the table is unchanged at every index from `ndof` on. -/
theorem hexahedron_shape_functions_lexicographic (p : Nat)
    (GaussLobattoInterpolation01 GaussLegendreInterpolation : R → Vec R (p + 1))
    (xi : Vec R 3) :
    (∀ i j k : Fin (p + 1), ∃ h : (i : Nat) + (p + 1) * j + (p + 1) ^ 2 * k < hexahedron_ndof p,
        hexahedron_H1.shape_functions p GaussLobattoInterpolation01 xi
            ⟨i + (p + 1) * j + (p + 1) ^ 2 * k, h⟩
          = GaussLobattoInterpolation01 (xi 0) i * GaussLobattoInterpolation01 (xi 1) j
              * GaussLobattoInterpolation01 (xi 2) k
        ∧ hexahedron_L2.shape_functions p GaussLegendreInterpolation xi
            ⟨i + (p + 1) * j + (p + 1) ^ 2 * k, h⟩
          = GaussLegendreInterpolation (xi 0) i * GaussLegendreInterpolation (xi 1) j
              * GaussLegendreInterpolation (xi 2) k)
    ∧ hexahedron_writes p = List.range (hexahedron_ndof p)
    ∧ (∀ n : Nat, (hexahedron_writes p).count n = if n < hexahedron_ndof p then 1 else 0)
    ∧ (∀ (entry : Fin (p + 1) → Fin (p + 1) → Fin (p + 1) → R) (table : Nat → R) (m : Nat),
        (hexahedron_loops (fun (N : Nat → R) n v => Function.update N n v) p entry table).1
            = hexahedron_ndof p
          ∧ (hexahedron_loops (fun (N : Nat → R) n v => Function.update N n v) p entry
              table).2 (hexahedron_ndof p + m) = table (hexahedron_ndof p + m)) := by
  refine ⟨fun i j k => ⟨hexahedron_index_lt p i j k, ?_, ?_⟩, hexahedron_writes_eq p, ?_, ?_⟩
  · exact (hexahedron_loops_update p _ _).1 i j k
  · exact (hexahedron_loops_update p _ _).1 i j k
  · intro n
    rw [hexahedron_writes_eq]
    exact count_range _ _
  · intro entry table m
    exact ⟨hexahedron_loops_count _ p entry table,
      (hexahedron_loops_update p entry table).2 _ (Nat.le_add_right _ _)⟩

/-- C17: for the hexahedron H1 element of every order `p` and every reference point `xi`,
the `(p+1)^3` values of `shape_functions(xi)` sum to one when the `p + 1` values of the
one-dimensional interpolant sum to one at each coordinate of `xi`. -/
theorem hexahedron_H1_partition_of_unity (p : Nat)
    (GaussLobattoInterpolation01 : R → Vec R (p + 1)) (xi : Vec R 3)
    (h : ∀ d : Fin 3, ∑ i, GaussLobattoInterpolation01 (xi d) i = 1) :
    ∑ n, hexahedron_H1.shape_functions p GaussLobattoInterpolation01 xi n = 1 := by
  have hs := sum_hexahedron p
    (hexahedron_loops (fun (N : Nat → R) n v => Function.update N n v) p
      (fun i j k => GaussLobattoInterpolation01 (xi 0) i * GaussLobattoInterpolation01 (xi 1) j
        * GaussLobattoInterpolation01 (xi 2) k) (fun _ => 0)).2
  unfold hexahedron_H1.shape_functions
  rw [hs]
  simp only [(hexahedron_loops_update p _ _).1]
  simp only [← Finset.sum_mul, ← Finset.mul_sum, h, mul_one]

/-- The partition of unity at order one, for the interpolant `(1 - x, x)`. -/
theorem hexahedron_H1_partition_of_unity_witness :
    (∀ d : Fin 3, ∑ i, sample.linear_interpolation (sample.xi3 d) i = 1)
    ∧ ∑ n, hexahedron_H1.shape_functions 1 sample.linear_interpolation sample.xi3 n = 1 :=
  ⟨by decide, hexahedron_H1_partition_of_unity 1 sample.linear_interpolation sample.xi3
    (by decide)⟩

end hexahedron

/-! ## The measure and the sign of the Jacobian -/

section measure_claims

variable {dim ndof c : Nat}

/-- C11 (as amended): `evaluation_kernel` has no failure path.  For every input, whether
`Measure(J_q)` is positive or not, its outcome is a result and never `DegenerateElement`:
the output block of every element `e` receives the sum over the quadrature points of
`Postprocess(...) * Measure(J_q) * dxi`, each point with the weight as computed, and the
record of every `(e, q)` is written. -/
theorem evaluation_kernel_never_degenerate (T : TensorLib R)
    (test trial : finite_element R dim ndof) (rule : QuadratureRule R dim)
    (qf : Vec R dim → qf_tuple (dual R c dim) c dim → qf_tuple (dual R c dim) c dim)
    (U R_ : Buffer R) (cache : Nat → derivatives_type R c dim) (J_ X_ : Buffer R)
    (num_elements : Nat) :
    evaluation_kernel_outcome T test trial rule qf U R_ cache J_ X_ num_elements
        ≠ Except.error KernelError.DegenerateElement
    ∧ ∃ r, evaluation_kernel_outcome T test trial rule qf U R_ cache J_ X_ num_elements
          = Except.ok r
        ∧ (∀ (e : Fin num_elements) (i : Fin ndof) (a : Fin c),
            r.1 (i + ndof * (a + c * e))
              = R_ (i + ndof * (a + c * e))
                + ∑ q : Fin rule.size,
                    impl.Postprocess T test
                        (get_value (qf_output T trial rule qf U J_ X_ e q))
                        (rule.points q) (J_q rule.size J_ e q) i a
                      * (impl.Measure T (J_q rule.size J_ e q : Mat R dim dim)
                          * rule.weights q))
        ∧ ∀ (e : Fin num_elements) (q : Fin rule.size),
            r.2 (e * rule.size + q) = get_gradient (qf_output T trial rule qf U J_ X_ e q) := by
  refine ⟨fun h => (by cases h), _, rfl, fun e i a => ?_, fun e q => ?_⟩
  · rw [evaluation_kernel_block T test trial rule qf U R_ cache J_ X_ num_elements e e.isLt
      i a cache, evaluation_kernel_element_fst]
  · exact evaluation_kernel_cache _ _ _ _ _ _ _ _ _ _ _ e e.isLt q

/-- C11 (counterexample): on the sample data with the Jacobian table `-1`, the measure is
`-1` at every quadrature point, and `evaluation_kernel` still returns a residual: entry
`0` of the output goes from `5` to `9`, not an error. -/
theorem degenerate_element_not_reported_counterexample :
    (∀ e : Fin 2, ∀ q : Fin sample.rule.size,
        impl.Measure sample.T (J_q sample.rule.size sample.J_neg e q : Mat Int 1 1) = -1)
    ∧ (∃ r, evaluation_kernel_outcome sample.T sample.segment sample.segment sample.rule
          sample.qf sample.U sample.R5 sample.outside sample.J_neg sample.X 2 = Except.ok r
        ∧ r.1 0 = 9) := by
  refine ⟨by decide, _, rfl, by decide⟩

end measure_claims

/-! ## The measure of a matrix -/

section gram_lemmas

/-- The product `transpose(A) * A` as a Mathlib matrix. -/
theorem of_dot_transpose {m n : Nat} (A : Mat ℝ m n) :
    Matrix.of (dot (transpose A) A) = (Matrix.of A).conjTranspose * Matrix.of A := by
  ext i j
  simp [dot, transpose, Matrix.mul_apply, Matrix.conjTranspose_apply]

/-- The determinant of `transpose(A) * A` is not negative. -/
theorem det_gram_nonneg {m n : Nat} (A : Mat ℝ m n) :
    0 ≤ Matrix.det (Matrix.of (dot (transpose A) A)) := by
  rw [of_dot_transpose]
  have h := Matrix.posSemidef_conjTranspose_mul_self (Matrix.of A)
  rw [h.isHermitian.det_eq_prod_eigenvalues]
  exact Finset.prod_nonneg (fun i _ => by exact_mod_cast h.eigenvalues_nonneg i)

end gram_lemmas

section measure_spec

/-- C12: `Measure(J) = det(J)` for a square `J`; for an `m x n` matrix with `m ≠ n`,
`Measure(J) = sqrt(det(transpose(J) * J))` with the `n x n` matrix product, and then,
when `det` is the determinant and `sqrt` the square root of the reals,
`Measure(J) ≥ 0` and `Measure(J)^2 = det(transpose(J) * J)`. -/
theorem Measure_det_or_sqrt_gram (T : TensorLib ℝ)
    (hdet : ∀ (n : Nat) (A : Mat ℝ n n), T.det A = Matrix.det (Matrix.of A))
    (hsqrt : ∀ x : ℝ, T.sqrt x = Real.sqrt x) :
    (∀ (n : Nat) (J : Mat ℝ n n), impl.Measure T J = T.det J)
    ∧ ∀ (m n : Nat) (J : Mat ℝ m n), m ≠ n →
        impl.Measure T J = T.sqrt (T.det (dot (transpose J) J))
        ∧ (∀ i k, dot (transpose J) J i k = ∑ l, J l i * J l k)
        ∧ 0 ≤ impl.Measure T J
        ∧ impl.Measure T J ^ 2 = T.det (dot (transpose J) J) := by
  refine ⟨fun n J => impl.Measure_square T J, fun m n J hmn => ?_⟩
  have hM : impl.Measure T J = T.sqrt (T.det (dot (transpose J) J)) := by
    unfold impl.Measure
    rw [dif_neg hmn]
  refine ⟨hM, fun i k => rfl, ?_, ?_⟩
  · rw [hM, hsqrt]
    exact Real.sqrt_nonneg _
  · rw [hM, hsqrt, hdet]
    exact Real.sq_sqrt (det_gram_nonneg J)

/-- The measure of the `2 x 1` matrix with the entries `3` and `4`, for the determinant and
the square root of the reals: not negative, with square `3 * 3 + 4 * 4 = 25`. -/
theorem Measure_det_or_sqrt_gram_witness :
    0 ≤ impl.Measure
          ({ det := fun A => Matrix.det (Matrix.of A), inv := fun A => A,
             sqrt := Real.sqrt } : TensorLib ℝ) (sample.column_over ℝ)
    ∧ impl.Measure
          ({ det := fun A => Matrix.det (Matrix.of A), inv := fun A => A,
             sqrt := Real.sqrt } : TensorLib ℝ) (sample.column_over ℝ) ^ 2 = 25 := by
  have h := (Measure_det_or_sqrt_gram
    ({ det := fun A => Matrix.det (Matrix.of A), inv := fun A => A,
       sqrt := Real.sqrt } : TensorLib ℝ)
    (fun _ _ => rfl) (fun _ => rfl)).2 2 1 (sample.column_over ℝ) (by decide)
  refine ⟨h.2.2.1, ?_⟩
  rw [h.2.2.2]
  simp [dot, transpose, sample.column_over, Matrix.det_fin_one]
  norm_num

end measure_spec

/-! ## The H1 transformations -/

section h1_lemmas

variable {dim ndof c : Nat}

omit [CommRing R] in
/-- The load of element `e` reads the element-packed buffer at `i + ndof * (a + c * e)`. -/
theorem impl.Load_apply (U : Buffer R) (e : Nat) (a : Fin c) (i : Fin ndof) :
    impl.Load ndof c U e a i = U (i + ndof * (a + c * e)) := by
  unfold impl.Load
  split
  · rename_i h
    subst h
    simp [Fin.val_eq_zero a]
  · rfl

/-- The H1 `Postprocess` of a field with as many components as dimensions contracts the
gradient index with the first index of the flux. -/
theorem impl.Postprocess_square (T : TensorLib R) (element_type : finite_element R dim ndof)
    (f : qf_argument R dim dim) (xi : Vec R dim) (J : Mat R dim dim) (i : Fin ndof)
    (a : Fin dim) :
    impl.Postprocess T element_type f xi J i a
      = element_type.shape_functions xi i * f.1 a
        + ∑ k, dot (element_type.shape_function_gradients xi) (T.inv J) i k * f.2 k a := by
  unfold impl.Postprocess
  by_cases h : dim = 1
  · subst h
    simp only [if_true, outer, dot_mv]
    congr 1
    apply Finset.sum_congr rfl
    intro k _
    rw [Subsingleton.elim k a]
  · simp only [if_neg h, dif_pos, outer, dot]
    rfl

end h1_lemmas

section h1_claims

variable {dim ndof c : Nat}

/-- C13: the H1 `Preprocess` returns `(u . N(xi), u . (gradN(xi) * inv(J)))`: for the
`[c][ndof]` tensor `u`, `value[a] = sum_i u[a][i] * N_i(xi)` and
`grad[a][k] = sum_i sum_m u[a][i] * gradN(xi)[i][m] * inv(J)[m][k]`; the tensor loaded for
element `e` has `u[a][i] = U[i + ndof * (a + c * e)]`. -/
theorem Preprocess_H1_value_and_gradient (T : TensorLib R)
    (element_type : finite_element R dim ndof) (u : Fin c → Fin ndof → R) (xi : Vec R dim)
    (J : Mat R dim dim) (U : Buffer R) (e : Nat) :
    impl.Preprocess T element_type u xi J
        = (dot_mv u (element_type.shape_functions xi),
           dot u (dot (element_type.shape_function_gradients xi) (T.inv J)))
    ∧ (∀ a, (impl.Preprocess T element_type u xi J).1 a
        = ∑ i, u a i * element_type.shape_functions xi i)
    ∧ (∀ a k, (impl.Preprocess T element_type u xi J).2 a k
        = ∑ i, ∑ m, u a i * element_type.shape_function_gradients xi i m * T.inv J m k)
    ∧ (∀ (a : Fin c) (i : Fin ndof), impl.Load ndof c U e a i = U (i + ndof * (a + c * e)))
    ∧ (∀ a, (impl.Preprocess T element_type (impl.Load ndof c U e) xi J).1 a
        = ∑ i : Fin ndof, U (i + ndof * (a + c * e)) * element_type.shape_functions xi i)
    ∧ (∀ a k, (impl.Preprocess T element_type (impl.Load ndof c U e) xi J).2 a k
        = ∑ i : Fin ndof, ∑ m, U (i + ndof * (a + c * e))
            * element_type.shape_function_gradients xi i m * T.inv J m k) := by
  refine ⟨rfl, fun a => rfl, fun a k => ?_, fun a i => impl.Load_apply U e a i,
    fun a => ?_, fun a k => ?_⟩
  · rw [impl.Preprocess_snd]
    simp only [dot, Finset.mul_sum, mul_assoc]
  · rw [impl.Preprocess_fst]
    simp only [impl.Load_apply]
  · rw [impl.Preprocess_snd]
    simp only [dot, Finset.mul_sum, mul_assoc, impl.Load_apply]

/-- The entries of the H1 `Postprocess`.  For one component they are the entries of the
specification, `N_i(xi) * f0 + sum_k (gradN(xi) * inv(J))[i][k] * f1[k]`.  For a field with
`dim` components the entry `(i, a)` is
`N_i(xi) * f0[a] + sum_k (gradN(xi) * inv(J))[i][k] * f1[k][a]`: the entries of the
specification for the transposed flux. -/
theorem Postprocess_H1_entries (T : TensorLib R) (element_type : finite_element R dim ndof)
    (xi : Vec R dim) (J : Mat R dim dim) :
    (∀ f : qf_argument R 1 dim,
        impl.Postprocess T element_type f xi J = impl.Postprocess_spec T element_type f xi J)
    ∧ (∀ (f : qf_argument R dim dim) (i : Fin ndof) (a : Fin dim),
        impl.Postprocess T element_type f xi J i a
          = element_type.shape_functions xi i * f.1 a
            + ∑ k, dot (element_type.shape_function_gradients xi) (T.inv J) i k * f.2 k a)
    ∧ (∀ f : qf_argument R dim dim,
        impl.Postprocess T element_type f xi J
          = impl.Postprocess_spec T element_type (f.1, transpose f.2) xi J) := by
  refine ⟨fun f => ?_, fun f i a => impl.Postprocess_square T element_type f xi J i a,
    fun f => ?_⟩
  · funext i a
    rw [impl.Postprocess_scalar]
    rfl
  · funext i a
    rw [impl.Postprocess_square]
    rfl

/-- C14: the H1 `Postprocess` at a flux that is not symmetric, for two components in two
dimensions: the element with one shape function of gradient `(1, 0)`, the identity
Jacobian, `f0 = 0` and the flux with the single non-zero entry `f1[0][1] = 1`.  The source
gives the entry `(i, a) = (0, 1)` the value `sum_k dW[0][k] * f1[k][1] = 1`; the entry
`N_0 * f0[1] + sum_k dW[0][k] * f1[1][k]` of the specification is `0`.  On the records of
the q-function `f1 = du_dx` the same entry of `gradient_kernel`, which goes through
`Postprocess`, is `3`, and the element matrix of `gradient_matrix_kernel`, which contracts
the second index of the flux, applied to the same perturbation gives `4`. -/
theorem Postprocess_H1_vector_flux_divergence :
    impl.Postprocess sample.T sample.point2 sample.flux01 (fun _ => 0) sample.I2 0 1 = 1
    ∧ impl.Postprocess_spec sample.T sample.point2 sample.flux01 (fun _ => 0) sample.I2 0 1
        = 0
    ∧ gradient_kernel_element sample.T sample.point2 sample.point2 sample.rule2 sample.U
        sample.J sample.cache_grad 0 0 1 = 3
    ∧ (∑ j : Fin 1, ∑ jd : Fin 2,
        gradient_matrix_kernel_element sample.T sample.point2 sample.point2 2 2 sample.rule2
            sample.J sample.cache_grad 0
            (((0 : Fin 1) : Nat) * 2 + ((1 : Fin 2) : Nat)) ((j : Nat) * 2 + (jd : Nat))
          * impl.Load 1 2 sample.U 0 jd j) = 4 := by
  decide

end h1_claims

/-! ## The H(curl) transformations -/

section hcurl_claims

variable {F : Type} [Field F] {ndof : Nat}

/-- C15: the H(curl) `Preprocess` returns `value = u . (N(xi) * inv(J))` in every dimension;
in two dimensions `curl = u . (curl_N(xi) / det(J))`, and in three dimensions this vector
is multiplied on the right by `transpose(J)`:
`curl[k] = sum_m (u . (curl_N(xi) / det(J)))[m] * J[k][m]`. -/
theorem Preprocess_Hcurl_value_and_curl (T : TensorLib F) :
    (∀ (dim : Nat) (element_type : finite_element_Hcurl F dim ndof) (u : Vec F ndof)
        (xi : Vec F dim) (J : Mat F dim dim) (k : Fin dim),
        (impl.Preprocess_Hcurl T element_type u xi J).1 k
          = ∑ i, u i * ∑ m, element_type.shape_functions xi i m * T.inv J m k)
    ∧ (∀ (element_type : finite_element_Hcurl F 2 ndof) (u : Vec F ndof) (xi : Vec F 2)
        (J : Mat F 2 2) (k : Fin 1),
        (impl.Preprocess_Hcurl T element_type u xi J).2 k
          = ∑ i, u i * (element_type.shape_function_curl xi i k / T.det J))
    ∧ (∀ (element_type : finite_element_Hcurl F 3 ndof) (u : Vec F ndof) (xi : Vec F 3)
        (J : Mat F 3 3) (k : Fin 3),
        (impl.Preprocess_Hcurl T element_type u xi J).2 k
          = ∑ m : Fin 3, (∑ i, u i * (element_type.shape_function_curl xi i m / T.det J))
              * J k m) := by
  refine ⟨fun dim element_type u xi J k => ?_, fun element_type u xi J k => ?_,
    fun element_type u xi J k => ?_⟩
  · unfold impl.Preprocess_Hcurl
    split <;> rfl
  · rfl
  · rfl

/-- C16: the H(curl) `Postprocess` returns one entry per element degree of freedom,
`(N(xi) * inv(J)) . f0 + curl_W . f1`, where `curl_W = curl_N(xi) / det(J)` in two
dimensions and `curl_W = (curl_N(xi) / det(J)) * transpose(J)` in three. -/
theorem Postprocess_Hcurl_entries (T : TensorLib F) :
    (∀ (element_type : finite_element_Hcurl F 2 ndof) (f : Vec F 2 × Vec F 1) (xi : Vec F 2)
        (J : Mat F 2 2) (i : Fin ndof),
        impl.Postprocess_Hcurl T element_type f xi J i
          = ∑ k, (∑ m, element_type.shape_functions xi i m * T.inv J m k) * f.1 k
            + ∑ k, (element_type.shape_function_curl xi i k / T.det J) * f.2 k)
    ∧ (∀ (element_type : finite_element_Hcurl F 3 ndof) (f : Vec F 3 × Vec F 3)
        (xi : Vec F 3) (J : Mat F 3 3) (i : Fin ndof),
        impl.Postprocess_Hcurl T element_type f xi J i
          = ∑ k, (∑ m, element_type.shape_functions xi i m * T.inv J m k) * f.1 k
            + ∑ k : Fin 3, (∑ m : Fin 3,
                (element_type.shape_function_curl xi i m / T.det J) * J k m) * f.2 k) := by
  refine ⟨fun element_type f xi J i => rfl, fun element_type f xi J i => rfl⟩

end hcurl_claims

/-! ## The derivative storage -/

section storage_lemmas

variable {dim ndof c : Nat}

/-- The writes of one more element follow the writes of the elements before it. -/
theorem derivative_writes_succ (T : TensorLib R) (trial : finite_element R dim ndof)
    (rule : QuadratureRule R dim)
    (qf : Vec R dim → qf_tuple (dual R c dim) c dim → qf_tuple (dual R c dim) c dim)
    (U J_ X_ : Buffer R) (n : Nat) :
    derivative_writes T trial rule qf U J_ X_ (n + 1)
      = derivative_writes T trial rule qf U J_ X_ n
        ++ (List.finRange rule.size).map (fun (q : Fin rule.size) =>
            (n * rule.size + q, get_gradient (qf_output T trial rule qf U J_ X_ n q))) := by
  unfold derivative_writes
  rw [List.range_succ, List.flatMap_append, List.flatMap_singleton]

/-- The derivative storage after `evaluation_kernel` is the storage before the call with
the writes applied in order. -/
theorem evaluation_kernel_snd_eq_writes (T : TensorLib R)
    (test trial : finite_element R dim ndof) (rule : QuadratureRule R dim)
    (qf : Vec R dim → qf_tuple (dual R c dim) c dim → qf_tuple (dual R c dim) c dim)
    (U R_ : Buffer R) (cache : Nat → derivatives_type R c dim) (J_ X_ : Buffer R) (n : Nat) :
    (evaluation_kernel T test trial rule qf U R_ cache J_ X_ n).2
      = (derivative_writes T trial rule qf U J_ X_ n).foldl
          (fun s w => Function.update s w.1 w.2) cache := by
  induction n with
  | zero => rfl
  | succ n ih =>
    rw [evaluation_kernel_succ, derivative_writes_succ, List.foldl_append, List.foldl_map,
      ← ih, evaluation_kernel_element_snd]

omit [CommRing R] in
/-- The indices of a run of `size` consecutive records. -/
theorem map_finRange_offset (s size : Nat) :
    (List.finRange size).map (fun (q : Fin size) => s + (q : Nat)) = List.range' s size := by
  rw [List.range'_eq_map_range, ← List.map_coe_finRange, List.map_map]
  rfl

/-- The indices written by `evaluation_kernel` are `0, 1, ..., n * rule.size - 1`, in this
order. -/
theorem derivative_writes_indices (T : TensorLib R) (trial : finite_element R dim ndof)
    (rule : QuadratureRule R dim)
    (qf : Vec R dim → qf_tuple (dual R c dim) c dim → qf_tuple (dual R c dim) c dim)
    (U J_ X_ : Buffer R) (n : Nat) :
    (derivative_writes T trial rule qf U J_ X_ n).map Prod.fst
      = List.range (n * rule.size) := by
  induction n with
  | zero => simp [derivative_writes]
  | succ n ih =>
    rw [derivative_writes_succ, List.map_append, ih, List.map_map]
    have h : (Prod.fst ∘ fun (q : Fin rule.size) =>
        (n * rule.size + (q : Nat), get_gradient (qf_output T trial rule qf U J_ X_ n q)))
        = fun (q : Fin rule.size) => n * rule.size + (q : Nat) := rfl
    rw [h, map_finRange_offset, List.range_eq_range', List.range_eq_range']
    have h2 := List.range'_append 0 (n * rule.size) rule.size 1
    simp only [Nat.one_mul, Nat.zero_add] at h2
    rw [h2]
    congr 1
    ring

end storage_lemmas

section storage_claims

variable {dim ndof c : Nat}

/-- C19 (as amended): the constructor sizes the derivative storage to exactly
`X.Size() / spatial_dim` records, all zero after construction, and instantiates the
kernels with the rule of `Q = max(test order, trial order) + 1` points per dimension;
neither `num_elements` nor `Q` enters the size.  The storage holds
`num_elements * Q^dim` records when the coordinate table `X` has
`Q^dim * spatial_dim * num_elements` entries, and this is then the number
`num_elements * rule.size()` of records that the kernels address. -/
theorem construct_cache_size (T : TensorLib R) (test trial : finite_element R dim ndof)
    (test_order trial_order : Nat) (GaussQuadratureRule : Nat → QuadratureRule R dim)
    (outside : Nat → derivatives_type R c dim) (num_elements : Nat) (J X : Vector R)
    (qf : Vec R dim → qf_tuple (dual R c dim) c dim → qf_tuple (dual R c dim) c dim) :
    (Integral.construct T test trial test_order trial_order GaussQuadratureRule outside
        num_elements J X qf).num_quadrature_points = X.Size / dim
    ∧ (Integral.construct T test trial test_order trial_order GaussQuadratureRule outside
        num_elements J X qf).rule = GaussQuadratureRule (max test_order trial_order + 1)
    ∧ (∀ k : Fin (X.Size / dim),
        (Integral.construct T test trial test_order trial_order GaussQuadratureRule outside
          num_elements J X qf).qf_derivatives k = 0)
    ∧ (0 < dim →
        X.Size = (max test_order trial_order + 1) ^ dim * dim * num_elements →
        (Integral.construct T test trial test_order trial_order GaussQuadratureRule outside
            num_elements J X qf).num_quadrature_points
          = num_elements * (max test_order trial_order + 1) ^ dim
        ∧ ((GaussQuadratureRule (max test_order trial_order + 1)).size
              = (max test_order trial_order + 1) ^ dim →
            (Integral.construct T test trial test_order trial_order GaussQuadratureRule
                outside num_elements J X qf).num_quadrature_points
              = num_elements * (Integral.construct T test trial test_order trial_order
                  GaussQuadratureRule outside num_elements J X qf).rule.size)) := by
  refine ⟨rfl, rfl, fun k => ?_, fun hdim hX => ?_⟩
  · show (if (k : Nat) < X.Size / dim then 0 else outside k) = 0
    rw [if_pos k.isLt]
  · have hn : X.Size / dim = num_elements * (max test_order trial_order + 1) ^ dim := by
      rw [hX, Nat.mul_right_comm, Nat.mul_comm _ num_elements]
      exact Nat.mul_div_cancel _ hdim
    refine ⟨hn, fun hQ => ?_⟩
    show X.Size / dim = num_elements * (GaussQuadratureRule _).size
    rw [hn, hQ]

/-- The sample Integral: two elements, order one, one dimension, a rule of two points and
a coordinate table of `2 * 1 * 2` entries: four records. -/
theorem construct_cache_size_witness :
    sample.Xv.Size = (max 1 1 + 1) ^ 1 * 1 * 2
    ∧ sample.fresh.num_quadrature_points = 2 * (max 1 1 + 1) ^ 1
    ∧ sample.fresh.num_quadrature_points = 2 * sample.fresh.rule.size :=
  ⟨by decide,
   ((construct_cache_size sample.T sample.segment sample.segment 1 1 (fun _ => sample.rule)
      sample.outside 2 sample.Jv sample.Xv sample.qf).2.2.2 (by decide) (by decide)).1,
   ((construct_cache_size sample.T sample.segment sample.segment 1 1 (fun _ => sample.rule)
      sample.outside 2 sample.Jv sample.Xv sample.qf).2.2.2 (by decide) (by decide)).2
      (by decide)⟩

/-- C19 (counterexample): with two elements of order one in one dimension (`Q = 2`) and a
coordinate table of three entries the constructor allocates three records, not
`num_elements * Q^dim = 2 * 2^1 = 4`; the record `1 * 2 + 1 = 3` that `evaluation_kernel`
addresses for element `1` lies past them. -/
theorem construct_cache_size_counterexample :
    (Integral.construct sample.T sample.segment sample.segment 1 1 (fun _ => sample.rule)
        sample.outside 2 sample.Jv sample.Xv3 sample.qf).num_quadrature_points = 3
    ∧ (Integral.construct sample.T sample.segment sample.segment 1 1 (fun _ => sample.rule)
        sample.outside 2 sample.Jv sample.Xv3 sample.qf).num_quadrature_points
        ≠ 2 * (max 1 1 + 1) ^ 1
    ∧ (Integral.construct sample.T sample.segment sample.segment 1 1 (fun _ => sample.rule)
        sample.outside 2 sample.Jv sample.Xv3 sample.qf).num_quadrature_points
        ≤ 1 * sample.rule.size + 1 := by
  decide

/-- C20: `gradient_kernel` and `gradient_matrix_kernel` leave every derivative record as
it was before the call; `evaluation_kernel` changes the storage by the assignments
`derivatives_ptr[e * rule.size() + q] = get_gradient(qf_output)` only, whose indices are
`0, 1, ..., num_elements * rule.size() - 1` in this order, so that the record of every
`(e, q)` is written exactly once per call, and no other record is written. -/
theorem derivative_cache_written_once_by_evaluation (T : TensorLib R)
    (test trial : finite_element R dim ndof) (rule : QuadratureRule R dim)
    (qf : Vec R dim → qf_tuple (dual R c dim) c dim → qf_tuple (dual R c dim) c dim)
    (U R_ dU dR K_e : Buffer R) (cache : Nat → derivatives_type R c dim) (J_ X_ : Buffer R)
    (num_elements : Nat) :
    (gradient_kernel_state T test trial rule dU dR cache J_ num_elements).2 = cache
    ∧ (gradient_matrix_kernel_state T test trial c c rule K_e cache J_ num_elements).2
        = cache
    ∧ (evaluation_kernel T test trial rule qf U R_ cache J_ X_ num_elements).2
        = (derivative_writes T trial rule qf U J_ X_ num_elements).foldl
            (fun s w => Function.update s w.1 w.2) cache
    ∧ (derivative_writes T trial rule qf U J_ X_ num_elements).map Prod.fst
        = List.range (num_elements * rule.size)
    ∧ (∀ (e : Fin num_elements) (q : Fin rule.size),
        ((derivative_writes T trial rule qf U J_ X_ num_elements).map Prod.fst).count
          (e * rule.size + q) = 1)
    ∧ (∀ m : Nat,
        ((derivative_writes T trial rule qf U J_ X_ num_elements).map Prod.fst).count
          (num_elements * rule.size + m) = 0)
    ∧ (∀ m : Nat,
        (evaluation_kernel T test trial rule qf U R_ cache J_ X_ num_elements).2
          (num_elements * rule.size + m) = cache (num_elements * rule.size + m)) := by
  refine ⟨rfl, rfl, evaluation_kernel_snd_eq_writes _ _ _ _ _ _ _ _ _ _ _,
    derivative_writes_indices _ _ _ _ _ _ _ _, fun e q => ?_, fun m => ?_, fun m => ?_⟩
  · rw [derivative_writes_indices]
    refine List.count_eq_one_of_mem (List.nodup_range _) (List.mem_range.mpr ?_)
    have h1 : ((e : Nat) + 1) * rule.size ≤ num_elements * rule.size :=
      Nat.mul_le_mul_right _ e.isLt
    have h2 : ((e : Nat) + 1) * rule.size = e * rule.size + rule.size := by ring
    have h3 := q.isLt
    omega
  · rw [derivative_writes_indices]
    exact List.count_eq_zero_of_not_mem (fun h => by
      have := List.mem_range.mp h
      omega)
  · exact evaluation_kernel_cache_frame _ _ _ _ _ _ _ _ _ _ _ _ (Nat.le_add_right _ _)

end storage_claims

/-! ## The entries of the element matrix -/

section matrix_claims

variable {dim : Nat}

/-- The packed row (or column) index of a degree of freedom and a component is below the
extent of the element matrix. -/
theorem dof_component_index_lt {ndof c : Nat} (i : Fin ndof) (id : Fin c) :
    (i : Nat) * c + id < ndof * c := by
  have h1 : ((i : Nat) + 1) * c ≤ ndof * c := Nat.mul_le_mul_right _ i.isLt
  have h2 : ((i : Nat) + 1) * c = i * c + c := by ring
  have h3 := id.isLt
  omega

/-- C21: for H1 test and trial spaces with `c` components, after `gradient_matrix_kernel`
runs on a zeroed `K`, the entry `(i*c+id, j*c+jd)` of the block of element `e` is the sum
over the quadrature points of
`[N_i * df0_du[id][jd] * N_j + N_i * sum_k df0_dgradu[id][jd][k] * dN_dx[j][k]
  + sum_{k,l} dM_dx[i][k] * df1_dgradu[id][k][jd][l] * dN_dx[j][l]] * dx_q`
with the cached blocks of `(e, q)`; the `df1_du` block contributes nothing: the kernel
returns the same buffer whatever the `df1_du` blocks hold. -/
theorem gradient_matrix_kernel_entries (T : TensorLib R) {test_ndof trial_ndof : Nat}
    (test : finite_element R dim test_ndof) (trial : finite_element R dim trial_ndof)
    (c : Nat) (rule : QuadratureRule R dim)
    (cache : Nat → derivatives_type R c dim) (J_ : Buffer R) (n e : Nat) (he : e < n)
    (i : Fin test_ndof) (id : Fin c) (j : Fin trial_ndof) (jd : Fin c) :
    gradient_matrix_kernel T test trial c c rule (fun _ => 0) cache J_ n
        ((i * c + id) + test_ndof * c * ((j * c + jd) + trial_ndof * c * e))
      = ∑ q : Fin rule.size,
          (test.shape_functions (rule.points q) i
              * (cache (e * rule.size + q)).df0_du id jd
              * trial.shape_functions (rule.points q) j
            + test.shape_functions (rule.points q) i
              * (∑ k : Fin dim, (cache (e * rule.size + q)).df0_dgradu id jd k
                  * dot (trial.shape_function_gradients (rule.points q))
                      (T.inv (J_q rule.size J_ e q)) j k)
            + ∑ k : Fin dim, ∑ l : Fin dim,
                dot (test.shape_function_gradients (rule.points q))
                    (T.inv (J_q rule.size J_ e q)) i k
                  * (cache (e * rule.size + q)).df1_dgradu id k jd l
                  * dot (trial.shape_function_gradients (rule.points q))
                      (T.inv (J_q rule.size J_ e q)) j l)
          * (impl.Measure T (J_q rule.size J_ e q : Mat R dim dim) * rule.weights q)
    ∧ ∀ (K_e : Buffer R) (df1_du : Nat → Fin c → Fin dim → Fin c → R),
        gradient_matrix_kernel T test trial c c rule K_e
            (fun k => { cache k with df1_du := df1_du k }) J_ n
          = gradient_matrix_kernel T test trial c c rule K_e cache J_ n := by
  refine ⟨?_, fun K_e df1_du => rfl⟩
  rw [gradient_matrix_kernel_block T test trial c c rule _ cache J_ n e he _ _
    (dof_component_index_lt i id) (dof_component_index_lt j jd),
    gradient_matrix_kernel_element_entry, zero_add]
  apply Finset.sum_congr rfl
  intro q _
  simp only [add_mul, Finset.sum_mul, Finset.mul_sum, mul_assoc]

end matrix_claims

section symmetry_claims

variable {dim ndof : Nat}

/-- C28: with the same H1 space as test and trial space, if at every quadrature point of
element `e` the cached blocks satisfy `df0_du[id][jd] = df0_du[jd][id]`, `df0_dgradu = 0`
and `df1_dgradu[id][k][jd][l] = df1_dgradu[jd][l][id][k]`, the element matrix accumulated
by `gradient_matrix_kernel` is symmetric: `K_e[r][s] = K_e[s][r]` for all rows and columns
`r, s < ndof * c`, in particular for `r = i*c+id`, `s = j*c+jd`. -/
theorem gradient_matrix_kernel_element_symmetric (T : TensorLib R)
    (el : finite_element R dim ndof) (c : Nat) (rule : QuadratureRule R dim) (J_ : Buffer R)
    (cache : Nat → derivatives_type R c dim) (e : Nat)
    (h0 : ∀ (q : Fin rule.size) (id jd : Fin c),
      (cache (e * rule.size + q)).df0_du id jd = (cache (e * rule.size + q)).df0_du jd id)
    (h1 : ∀ (q : Fin rule.size) (id jd : Fin c) (k : Fin dim),
      (cache (e * rule.size + q)).df0_dgradu id jd k = 0)
    (h2 : ∀ (q : Fin rule.size) (id jd : Fin c) (k l : Fin dim),
      (cache (e * rule.size + q)).df1_dgradu id k jd l
        = (cache (e * rule.size + q)).df1_dgradu jd l id k) :
    (∀ (i j : Fin ndof) (id jd : Fin c),
      gradient_matrix_kernel_element T el el c c rule J_ cache e (i * c + id) (j * c + jd)
        = gradient_matrix_kernel_element T el el c c rule J_ cache e (j * c + jd) (i * c + id))
    ∧ ∀ r s : Fin (ndof * c),
      gradient_matrix_kernel_element T el el c c rule J_ cache e r s
        = gradient_matrix_kernel_element T el el c c rule J_ cache e s r := by
  have key : ∀ (i j : Fin ndof) (id jd : Fin c),
      gradient_matrix_kernel_element T el el c c rule J_ cache e (i * c + id) (j * c + jd)
        = gradient_matrix_kernel_element T el el c c rule J_ cache e (j * c + jd)
            (i * c + id) := by
    intro i j id jd
    rw [gradient_matrix_kernel_element_entry, gradient_matrix_kernel_element_entry]
    apply Finset.sum_congr rfl
    intro q _
    simp only [h1, mul_zero, zero_mul, Finset.sum_const_zero, add_zero]
    congr 1
    · rw [h0 q id jd]
      ring
    · rw [Finset.sum_comm]
      apply Finset.sum_congr rfl
      intro l _
      apply Finset.sum_congr rfl
      intro k _
      rw [h2 q id jd k l]
      ring
  refine ⟨key, fun r s => ?_⟩
  have hc : 0 < c := by
    rcases Nat.eq_zero_or_pos c with h | h
    · exact absurd r.isLt (by simp [h])
    · exact h
  have hr : (r : Nat) / c < ndof := Nat.div_lt_of_lt_mul (lt_of_lt_of_eq r.isLt (Nat.mul_comm _ _))
  have hs : (s : Nat) / c < ndof := Nat.div_lt_of_lt_mul (lt_of_lt_of_eq s.isLt (Nat.mul_comm _ _))
  have h := key ⟨r / c, hr⟩ ⟨s / c, hs⟩ ⟨r % c, Nat.mod_lt _ hc⟩ ⟨s % c, Nat.mod_lt _ hc⟩
  simp only [Nat.div_add_mod'] at h
  exact h

end symmetry_claims

/-! ## The adjoint pair of the H1 transformations -/

section adjoint_lemmas

variable {dim ndof : Nat}

/-- For one component the H1 `Postprocess` is the transpose of the H1 `Preprocess`. -/
theorem Postprocess_Preprocess_adjoint_scalar (T : TensorLib R)
    (element_type : finite_element R dim ndof) (u : Fin 1 → Fin ndof → R)
    (f : qf_argument R 1 dim) (xi : Vec R dim) (J : Mat R dim dim) :
    (∑ i, impl.Postprocess T element_type f xi J i 0 * u 0 i)
      = f.1 0 * (impl.Preprocess T element_type u xi J).1 0
        + ∑ k, f.2 0 k * (impl.Preprocess T element_type u xi J).2 0 k := by
  simp only [impl.Postprocess_scalar, impl.Preprocess_fst, impl.Preprocess_snd, add_mul,
    Finset.sum_add_distrib, Finset.mul_sum, Finset.sum_mul]
  congr 1
  · apply Finset.sum_congr rfl
    intro i _
    ring
  · rw [Finset.sum_comm]
    apply Finset.sum_congr rfl
    intro k _
    apply Finset.sum_congr rfl
    intro i _
    ring

/-- For as many components as dimensions the H1 `Postprocess` is the transpose of the H1
`Preprocess` for the transposed flux. -/
theorem Postprocess_Preprocess_adjoint_square (T : TensorLib R)
    (element_type : finite_element R dim ndof) (u : Fin dim → Fin ndof → R)
    (f : qf_argument R dim dim) (xi : Vec R dim) (J : Mat R dim dim) :
    (∑ i, ∑ a, impl.Postprocess T element_type f xi J i a * u a i)
      = (∑ a, f.1 a * (impl.Preprocess T element_type u xi J).1 a)
        + ∑ a, ∑ k, f.2 k a * (impl.Preprocess T element_type u xi J).2 a k := by
  simp only [impl.Postprocess_square, impl.Preprocess_fst, impl.Preprocess_snd, add_mul,
    Finset.sum_add_distrib, Finset.mul_sum, Finset.sum_mul]
  congr 1
  · rw [Finset.sum_comm]
    apply Finset.sum_congr rfl
    intro a _
    apply Finset.sum_congr rfl
    intro i _
    ring
  · rw [Finset.sum_comm]
    apply Finset.sum_congr rfl
    intro a _
    rw [Finset.sum_comm]
    apply Finset.sum_congr rfl
    intro k _
    apply Finset.sum_congr rfl
    intro i _
    ring

end adjoint_lemmas

section adjoint_claims

/-- C27: the pairing of the H1 `Postprocess` with the degrees of freedom for two
components in two dimensions, at the element with one shape function of gradient
`(1, 0)`, the identity Jacobian, the degrees of freedom `u[0] = (1)`, `u[1] = (2)`,
`f0 = 0` and the flux with the single non-zero entry `f1[0][1] = 1`.  The source gives
`sum_{i,a} Postprocess[i][a] * u[a][i] = 2`, while `f0 . value + f1 : grad = 0` for
`(value, grad) = Preprocess(u, xi, J)`; the value `2` is `f0 . value` plus the contraction
of `grad` with the transposed flux. -/
theorem Postprocess_Preprocess_adjoint_divergence :
    (∑ i : Fin 1, ∑ a : Fin 2,
        impl.Postprocess sample.T sample.point2 sample.flux01 (fun _ => 0) sample.I2 i a
          * impl.Load 1 2 sample.U 0 a i) = 2
    ∧ (∑ a : Fin 2, sample.flux01.1 a
          * (impl.Preprocess sample.T sample.point2 (impl.Load 1 2 sample.U 0) (fun _ => 0)
              sample.I2).1 a)
        + (∑ a : Fin 2, ∑ k : Fin 2, sample.flux01.2 a k
          * (impl.Preprocess sample.T sample.point2 (impl.Load 1 2 sample.U 0) (fun _ => 0)
              sample.I2).2 a k) = 0
    ∧ (∑ a : Fin 2, sample.flux01.1 a
          * (impl.Preprocess sample.T sample.point2 (impl.Load 1 2 sample.U 0) (fun _ => 0)
              sample.I2).1 a)
        + (∑ a : Fin 2, ∑ k : Fin 2, sample.flux01.2 k a
          * (impl.Preprocess sample.T sample.point2 (impl.Load 1 2 sample.U 0) (fun _ => 0)
              sample.I2).2 a k) = 2 := by
  decide

end adjoint_claims

section L2_claims

/-- C30: the hexahedron `L2<p, c>` descriptor declares `family = Family::H1` and has the
static members (geometry, family, components, dim, ndof, residual_type) of the hexahedron
`H1<p, c>` descriptor, so `impl::Preprocess` and `impl::Postprocess` instantiate their H1
branch for it; its tables are the tables of the H1 descriptor for the one-dimensional basis
it is given, so that `Preprocess` returns `(u . N, u . (gradN * inv(J)))` and `Postprocess`
returns what it returns for the H1 element with that basis. -/
theorem hexahedron_L2_is_H1_family (p c : Nat) (T : TensorLib R)
    (GaussLegendreInterpolation GaussLegendreInterpolationDerivative : R → Vec R (p + 1))
    (u : Fin c → Fin (hexahedron_ndof p) → R) (f : qf_argument R c 3) (xi : Vec R 3)
    (J : Mat R 3 3) :
    (hexahedron_L2.descriptor p c).family = Family.H1
    ∧ hexahedron_L2.descriptor p c = hexahedron_H1.descriptor p c
    ∧ (hexahedron_L2.descriptor p c).ndof = hexahedron_ndof p
    ∧ impl.branch (hexahedron_L2.descriptor p c).family = family_branch.H1
    ∧ hexahedron_L2.shape_functions p GaussLegendreInterpolation
        = hexahedron_H1.shape_functions p GaussLegendreInterpolation
    ∧ hexahedron_L2.shape_function_gradients p GaussLegendreInterpolation
          GaussLegendreInterpolationDerivative
        = hexahedron_H1.shape_function_gradients p GaussLegendreInterpolation
          GaussLegendreInterpolationDerivative
    ∧ impl.Preprocess T
          (hexahedron_L2.element p GaussLegendreInterpolation
            GaussLegendreInterpolationDerivative) u xi J
        = (dot_mv u (hexahedron_L2.shape_functions p GaussLegendreInterpolation xi),
           dot u (dot (hexahedron_L2.shape_function_gradients p GaussLegendreInterpolation
             GaussLegendreInterpolationDerivative xi) (T.inv J)))
    ∧ impl.Postprocess T
          (hexahedron_L2.element p GaussLegendreInterpolation
            GaussLegendreInterpolationDerivative) f xi J
        = impl.Postprocess T
          (hexahedron_H1.element p GaussLegendreInterpolation
            GaussLegendreInterpolationDerivative) f xi J
    ∧ (∀ i j k : Fin (p + 1),
        ∃ h : (i : Nat) + (p + 1) * j + (p + 1) ^ 2 * k < hexahedron_ndof p,
          hexahedron_L2.shape_functions p GaussLegendreInterpolation xi
              ⟨i + (p + 1) * j + (p + 1) ^ 2 * k, h⟩
            = GaussLegendreInterpolation (xi 0) i * GaussLegendreInterpolation (xi 1) j
                * GaussLegendreInterpolation (xi 2) k
          ∧ hexahedron_L2.shape_function_gradients p GaussLegendreInterpolation
              GaussLegendreInterpolationDerivative xi ⟨i + (p + 1) * j + (p + 1) ^ 2 * k, h⟩
            = ![GaussLegendreInterpolationDerivative (xi 0) i
                  * GaussLegendreInterpolation (xi 1) j * GaussLegendreInterpolation (xi 2) k,
                GaussLegendreInterpolation (xi 0) i
                  * GaussLegendreInterpolationDerivative (xi 1) j
                  * GaussLegendreInterpolation (xi 2) k,
                GaussLegendreInterpolation (xi 0) i * GaussLegendreInterpolation (xi 1) j
                  * GaussLegendreInterpolationDerivative (xi 2) k]) := by
  refine ⟨rfl, rfl, rfl, rfl, rfl, rfl, rfl, rfl, fun i j k =>
    ⟨hexahedron_index_lt p i j k, (hexahedron_loops_update p _ _).1 i j k,
      (hexahedron_loops_update p _ _).1 i j k⟩⟩

end L2_claims

/-! ## The cache index map -/

section index_lemmas

variable {dim ndof c : Nat}

/-- The cache index map `(e, q) -> e * nq + q` is injective for `q < nq`. -/
theorem cache_index_inj (nq e e' : Nat) (q q' : Fin nq)
    (h : e * nq + q = e' * nq + q') : e = e' ∧ q = q' := by
  have hq := q.isLt
  have hq' := q'.isLt
  have h1 : (e * nq + (q : Nat)) / nq = e := by
    rw [Nat.add_comm, Nat.add_mul_div_right _ _ (by omega), Nat.div_eq_of_lt hq, Nat.zero_add]
  have h2 : (e' * nq + (q' : Nat)) / nq = e' := by
    rw [Nat.add_comm, Nat.add_mul_div_right _ _ (by omega), Nat.div_eq_of_lt hq',
      Nat.zero_add]
  have he : e = e' := by rw [← h1, ← h2, h]
  subst he
  exact ⟨rfl, Fin.ext (by omega)⟩

/-- The cache index of a quadrature point of element `e < n` is below `n * nq`. -/
theorem cache_index_lt (nq n e : Nat) (he : e < n) (q : Fin nq) : e * nq + q < n * nq := by
  have h1 : (e + 1) * nq ≤ n * nq := Nat.mul_le_mul_right _ he
  have h2 : (e + 1) * nq = e * nq + nq := by ring
  have := q.isLt
  omega

/-- The element output of `gradient_kernel` reads the cache at the records of the
element only. -/
theorem gradient_kernel_element_congr_cache (T : TensorLib R)
    (test trial : finite_element R dim ndof) (rule : QuadratureRule R dim) (dU J_ : Buffer R)
    (cache cache' : Nat → derivatives_type R c dim) (e : Nat)
    (h : ∀ q : Fin rule.size, cache' (e * rule.size + q) = cache (e * rule.size + q)) :
    gradient_kernel_element T test trial rule dU J_ cache' e
      = gradient_kernel_element T test trial rule dU J_ cache e := by
  simp only [gradient_kernel_element_eq, h]

/-- The element matrix of `gradient_matrix_kernel` reads the cache at the records of the
element only. -/
theorem gradient_matrix_kernel_element_congr_cache (T : TensorLib R)
    {test_ndof trial_ndof : Nat} (test : finite_element R dim test_ndof)
    (trial : finite_element R dim trial_ndof) (test_components trial_components : Nat)
    (rule : QuadratureRule R dim) (J_ : Buffer R)
    (cache cache' : Nat → derivatives_type R test_components dim) (e : Nat)
    (h : ∀ q : Fin rule.size, cache' (e * rule.size + q) = cache (e * rule.size + q)) :
    gradient_matrix_kernel_element T test trial test_components trial_components rule J_
        cache' e
      = gradient_matrix_kernel_element T test trial test_components trial_components rule J_
        cache e := by
  unfold gradient_matrix_kernel_element
  simp only [h]

/-- The kernel `gradient_kernel` reads the cache below `n * rule.size()` only. -/
theorem gradient_kernel_congr_cache (T : TensorLib R)
    (test trial : finite_element R dim ndof) (rule : QuadratureRule R dim) (dU dR J_ : Buffer R)
    (cache cache' : Nat → derivatives_type R c dim) (n : Nat)
    (h : ∀ k, k < n * rule.size → cache' k = cache k) :
    gradient_kernel T test trial rule dU dR cache' J_ n
      = gradient_kernel T test trial rule dU dR cache J_ n := by
  funext k
  rw [gradient_kernel_apply, gradient_kernel_apply]
  refine congrArg (fun x => dR k + x) ?_
  apply Finset.sum_congr rfl
  intro e he
  have hel := gradient_kernel_element_congr_cache T test trial rule dU J_ cache cache' e
    (fun q => h (e * rule.size + q) (cache_index_lt rule.size n e (Finset.mem_range.mp he) q))
  rw [hel]

/-- The kernel `gradient_matrix_kernel` reads the cache below `n * rule.size()` only. -/
theorem gradient_matrix_kernel_congr_cache (T : TensorLib R)
    {test_ndof trial_ndof : Nat} (test : finite_element R dim test_ndof)
    (trial : finite_element R dim trial_ndof) (test_components trial_components : Nat)
    (rule : QuadratureRule R dim) (K_e J_ : Buffer R)
    (cache cache' : Nat → derivatives_type R test_components dim) (n : Nat)
    (h : ∀ k, k < n * rule.size → cache' k = cache k) :
    gradient_matrix_kernel T test trial test_components trial_components rule K_e cache' J_ n
      = gradient_matrix_kernel T test trial test_components trial_components rule K_e cache
          J_ n := by
  funext k
  rw [gradient_matrix_kernel_apply, gradient_matrix_kernel_apply]
  refine congrArg (fun x => K_e k + x) ?_
  apply Finset.sum_congr rfl
  intro e he
  have hel := gradient_matrix_kernel_element_congr_cache T test trial test_components
    trial_components rule J_ cache cache' e
    (fun q => h (e * rule.size + q) (cache_index_lt rule.size n e (Finset.mem_range.mp he) q))
  rw [hel]

end index_lemmas

section index_claims

variable {dim ndof c : Nat}

/-- C23: the cache index map `(e, q) -> e * nq + q` of the kernels is injective for
`q < nq`, so the records of distinct elements are disjoint; and for an Integral
constructed on a coordinate table `X` of `nq * spatial_dim * num_elements` entries, every
index that the kernels access is below the number `X.Size() / spatial_dim` of allocated
records: the indices that `evaluation_kernel` writes are distinct and below it, and
`gradient_kernel` and `gradient_matrix_kernel` read no record from it on. -/
theorem cache_index_injective_and_allocated (T : TensorLib R)
    (test trial : finite_element R dim ndof)
    (test_order trial_order : Nat) (GaussQuadratureRule : Nat → QuadratureRule R dim)
    (outside : Nat → derivatives_type R c dim) (num_elements : Nat) (J X : Vector R)
    (qf : Vec R dim → qf_tuple (dual R c dim) c dim → qf_tuple (dual R c dim) c dim)
    (hdim : 0 < dim)
    (hX : X.Size
      = (GaussQuadratureRule (max test_order trial_order + 1)).size * dim * num_elements) :
    (∀ (e e' : Nat)
        (q q' : Fin (Integral.construct T test trial test_order trial_order
          GaussQuadratureRule outside num_elements J X qf).rule.size),
        e * (Integral.construct T test trial test_order trial_order GaussQuadratureRule
              outside num_elements J X qf).rule.size + q
          = e' * (Integral.construct T test trial test_order trial_order GaussQuadratureRule
              outside num_elements J X qf).rule.size + q'
        ↔ e = e' ∧ q = q')
    ∧ (Integral.construct T test trial test_order trial_order GaussQuadratureRule outside
        num_elements J X qf).num_quadrature_points = X.Size / dim
    ∧ (∀ (e : Fin num_elements)
        (q : Fin (Integral.construct T test trial test_order trial_order
          GaussQuadratureRule outside num_elements J X qf).rule.size),
        e * (Integral.construct T test trial test_order trial_order GaussQuadratureRule
              outside num_elements J X qf).rule.size + q
          < (Integral.construct T test trial test_order trial_order GaussQuadratureRule
              outside num_elements J X qf).num_quadrature_points)
    ∧ (∀ (U : Buffer R),
        ((derivative_writes T trial (GaussQuadratureRule (max test_order trial_order + 1)) qf
            U J.data X.data num_elements).map Prod.fst).Nodup
        ∧ ∀ k ∈ (derivative_writes T trial
            (GaussQuadratureRule (max test_order trial_order + 1)) qf U J.data X.data
            num_elements).map Prod.fst,
          k < (Integral.construct T test trial test_order trial_order GaussQuadratureRule
              outside num_elements J X qf).num_quadrature_points)
    ∧ (∀ (dU dR K_e : Buffer R) (cache cache' : Nat → derivatives_type R c dim),
        (∀ k, k < (Integral.construct T test trial test_order trial_order GaussQuadratureRule
              outside num_elements J X qf).num_quadrature_points → cache' k = cache k) →
        gradient_kernel T test trial (GaussQuadratureRule (max test_order trial_order + 1))
            dU dR cache' J.data num_elements
          = gradient_kernel T test trial
              (GaussQuadratureRule (max test_order trial_order + 1)) dU dR cache J.data
              num_elements
        ∧ gradient_matrix_kernel T test trial c c
            (GaussQuadratureRule (max test_order trial_order + 1)) K_e cache' J.data
            num_elements
          = gradient_matrix_kernel T test trial c c
              (GaussQuadratureRule (max test_order trial_order + 1)) K_e cache J.data
              num_elements) := by
  have hn : X.Size / dim
      = num_elements * (GaussQuadratureRule (max test_order trial_order + 1)).size := by
    rw [hX, Nat.mul_right_comm, Nat.mul_comm _ num_elements]
    exact Nat.mul_div_cancel _ hdim
  refine ⟨fun e e' q q' => ⟨fun h => cache_index_inj _ e e' q q' h, fun h => by rw [h.1, h.2]⟩,
    rfl, fun e q => ?_, fun U => ⟨?_, fun k hk => ?_⟩, fun dU dR K_e cache cache' h => ⟨?_, ?_⟩⟩
  · show _ < X.Size / dim
    rw [hn]
    exact cache_index_lt _ _ _ e.isLt q
  · rw [derivative_writes_indices]
    exact List.nodup_range _
  · rw [derivative_writes_indices] at hk
    show k < X.Size / dim
    rw [hn]
    exact List.mem_range.mp hk
  · exact gradient_kernel_congr_cache _ _ _ _ _ _ _ _ _ _
      (fun k hk => h k (by show k < X.Size / dim; rw [hn]; exact hk))
  · exact gradient_matrix_kernel_congr_cache _ _ _ _ _ _ _ _ _ _ _
      (fun k hk => h k (by show k < X.Size / dim; rw [hn]; exact hk))

end index_claims

/-! ## Linearity of the gradient kernel -/

section linearity_lemmas

variable {dim ndof c : Nat}

/-- The function `chain_rule` is linear in the perturbation. -/
theorem chain_rule_add_smul (rec : derivatives_type R c dim) (a b : qf_argument R c dim)
    (eps : R) :
    chain_rule rec (a + eps • b) = chain_rule rec a + eps • chain_rule rec b := by
  unfold chain_rule
  ext x
  · simp only [Prod.fst_add, Prod.snd_add, Prod.smul_fst, Prod.smul_snd, Pi.add_apply,
      Pi.smul_apply, smul_eq_mul, mul_add, Finset.sum_add_distrib, Finset.mul_sum]
    have h1 : ∀ y : Fin c, rec.df0_du x y * (eps * b.1 y) = eps * (rec.df0_du x y * b.1 y) :=
      fun y => by ring
    have h2 : ∀ (y : Fin c) (k : Fin dim),
        rec.df0_dgradu x y k * (eps * b.2 y k) = eps * (rec.df0_dgradu x y k * b.2 y k) :=
      fun y k => by ring
    simp only [h1, h2]
    ring
  · rename_i m
    simp only [Prod.fst_add, Prod.snd_add, Prod.smul_fst, Prod.smul_snd, Pi.add_apply,
      Pi.smul_apply, smul_eq_mul, mul_add, Finset.sum_add_distrib, Finset.mul_sum]
    have h1 : ∀ y : Fin c,
        rec.df1_du x m y * (eps * b.1 y) = eps * (rec.df1_du x m y * b.1 y) :=
      fun y => by ring
    have h2 : ∀ (y : Fin c) (k : Fin dim),
        rec.df1_dgradu x m y k * (eps * b.2 y k)
          = eps * (rec.df1_dgradu x m y k * b.2 y k) :=
      fun y k => by ring
    simp only [h1, h2]
    ring

/-- The H1 `Postprocess` is linear in the q-function output. -/
theorem impl.Postprocess_add_smul (T : TensorLib R) (element_type : finite_element R dim ndof)
    (f g : qf_argument R c dim) (eps : R) (xi : Vec R dim) (J : Mat R dim dim) :
    impl.Postprocess T element_type (f + eps • g) xi J
      = impl.Postprocess T element_type f xi J
        + eps • impl.Postprocess T element_type g xi J := by
  unfold impl.Postprocess
  funext i a
  by_cases hc1 : c = 1
  · simp only [if_pos hc1, outer, dot_mv, Prod.fst_add, Prod.snd_add, Prod.smul_fst,
      Prod.smul_snd, Pi.add_apply, Pi.smul_apply, smul_eq_mul, mul_add,
      Finset.sum_add_distrib, Finset.mul_sum]
    have h : ∀ k : Fin dim,
        dot (element_type.shape_function_gradients xi) (T.inv J) i k * (eps * g.2 a k)
          = eps * (dot (element_type.shape_function_gradients xi) (T.inv J) i k * g.2 a k) :=
      fun k => by ring
    simp only [h]
    ring
  · by_cases hd : c = dim
    · simp only [if_neg hc1, dif_pos hd, outer, dot, Prod.fst_add, Prod.snd_add,
        Prod.smul_fst, Prod.smul_snd, Pi.add_apply, Pi.smul_apply, smul_eq_mul, mul_add,
        Finset.sum_add_distrib, Finset.mul_sum]
      have h : ∀ (A : Fin dim → R) (B : Fin dim → R),
          (∑ k, A k * (eps * B k)) = ∑ k, eps * (A k * B k) :=
        fun A B => Finset.sum_congr rfl (fun k _ => by ring)
      rw [h]
      ring
    · simp only [if_neg hc1, dif_neg hd, Pi.zero_apply, Pi.add_apply, Pi.smul_apply,
        smul_zero, add_zero]

/-- The element output of `gradient_kernel` is additive and homogeneous in `dU`. -/
theorem gradient_kernel_element_add_smul (T : TensorLib R)
    (test trial : finite_element R dim ndof) (rule : QuadratureRule R dim)
    (dU1 dU2 J_ : Buffer R) (alpha : R) (cache : Nat → derivatives_type R c dim) (e : Nat) :
    gradient_kernel_element T test trial rule (dU2 + alpha • dU1) J_ cache e
      = gradient_kernel_element T test trial rule dU2 J_ cache e
        + alpha • gradient_kernel_element T test trial rule dU1 J_ cache e := by
  simp only [gradient_kernel_element_eq, impl.Load_add_smul, impl.Preprocess_add_smul,
    chain_rule_add_smul, impl.Postprocess_add_smul]
  funext i a
  simp only [Pi.add_apply, Pi.smul_apply, smul_eq_mul, add_mul, Finset.sum_add_distrib,
    Finset.mul_sum, mul_assoc]

/-- The element output of `gradient_kernel` for the zero perturbation. -/
theorem gradient_kernel_element_zero (T : TensorLib R)
    (test trial : finite_element R dim ndof) (rule : QuadratureRule R dim)
    (J_ : Buffer R) (cache : Nat → derivatives_type R c dim) (e : Nat) :
    gradient_kernel_element T test trial rule 0 J_ cache e = 0 := by
  have h := gradient_kernel_element_add_smul T test trial rule 0 0 J_ (-1) cache e
  have h0 : (0 : Buffer R) + (-1 : R) • (0 : Buffer R) = 0 := by simp
  rw [h0] at h
  have h2 : gradient_kernel_element T test trial rule 0 J_ cache e
      + (-1 : R) • gradient_kernel_element T test trial rule 0 J_ cache e = 0 := by
    funext i a
    simp
  rw [h2] at h
  exact h

end linearity_lemmas

section linearity_claims

variable {dim ndof c : Nat}

/-- C24: for a fixed Jacobian table and fixed cache content the output of
`gradient_kernel` is linear in `dU`: the element output for `alpha * dU1 + dU2` is `alpha`
times the element output for `dU1` plus the element output for `dU2`, and the element
output for `dU = 0` is zero; the same holds for the buffer that the kernel returns from a
zeroed `dR`. -/
theorem gradient_kernel_linear (T : TensorLib R) (test trial : finite_element R dim ndof)
    (rule : QuadratureRule R dim) (dU1 dU2 J_ : Buffer R) (alpha : R)
    (cache : Nat → derivatives_type R c dim) (e n : Nat) :
    gradient_kernel_element T test trial rule (alpha • dU1 + dU2) J_ cache e
        = alpha • gradient_kernel_element T test trial rule dU1 J_ cache e
          + gradient_kernel_element T test trial rule dU2 J_ cache e
    ∧ gradient_kernel_element T test trial rule 0 J_ cache e = 0
    ∧ gradient_kernel T test trial rule (alpha • dU1 + dU2) 0 cache J_ n
        = alpha • gradient_kernel T test trial rule dU1 0 cache J_ n
          + gradient_kernel T test trial rule dU2 0 cache J_ n
    ∧ gradient_kernel T test trial rule 0 0 cache J_ n = 0 := by
  have hel : ∀ e, gradient_kernel_element T test trial rule (alpha • dU1 + dU2) J_ cache e
      = alpha • gradient_kernel_element T test trial rule dU1 J_ cache e
        + gradient_kernel_element T test trial rule dU2 J_ cache e := by
    intro e
    rw [add_comm (alpha • dU1) dU2, gradient_kernel_element_add_smul, add_comm]
  refine ⟨hel e, gradient_kernel_element_zero T test trial rule J_ cache e, ?_, ?_⟩
  · funext k
    simp only [gradient_kernel_apply, hel, Pi.add_apply, Pi.smul_apply, Pi.zero_apply,
      smul_eq_mul, zero_add, Finset.mul_sum, ← Finset.sum_add_distrib]
    apply Finset.sum_congr rfl
    intro e _
    apply Finset.sum_congr rfl
    intro i _
    apply Finset.sum_congr rfl
    intro a _
    split <;> simp
  · funext k
    simp only [gradient_kernel_apply, gradient_kernel_element_zero, Pi.zero_apply, zero_add,
      ite_self, Finset.sum_const_zero]

end linearity_claims

/-! ## The two formulas of the measure on square matrices -/

section square_measure_lemmas

/-- The determinant of `transpose(A) * A` for a square matrix is the square of the
determinant. -/
theorem det_gram_square {n : Nat} (A : Mat ℝ n n) :
    Matrix.det (Matrix.of (dot (transpose A) A)) = Matrix.det (Matrix.of A) ^ 2 := by
  rw [of_dot_transpose, Matrix.det_mul, Matrix.det_conjTranspose, star_trivial, sq]

end square_measure_lemmas

section square_measure_claims

/-- C25 (as amended): for every square matrix `J`, with `det` the determinant and `sqrt`
the square root of the reals, `sqrt(det(transpose(J) * J))` is the absolute value of
`det(J)`: it is the value `det(J)` that the square branch of `Measure` returns when
`det(J) ≥ 0`, and the opposite value when `det(J) < 0`. -/
theorem Measure_square_branch_vs_general (T : TensorLib ℝ)
    (hdet : ∀ (n : Nat) (A : Mat ℝ n n), T.det A = Matrix.det (Matrix.of A))
    (hsqrt : ∀ x : ℝ, T.sqrt x = Real.sqrt x) (n : Nat) (J : Mat ℝ n n) :
    impl.Measure T J = T.det J
    ∧ T.sqrt (T.det (dot (transpose J) J)) = |impl.Measure T J|
    ∧ (0 ≤ T.det J → T.sqrt (T.det (dot (transpose J) J)) = impl.Measure T J)
    ∧ (T.det J < 0 → T.sqrt (T.det (dot (transpose J) J)) = - impl.Measure T J
        ∧ T.sqrt (T.det (dot (transpose J) J)) ≠ impl.Measure T J) := by
  have habs : T.sqrt (T.det (dot (transpose J) J)) = |impl.Measure T J| := by
    rw [impl.Measure_square, hsqrt, hdet, hdet, det_gram_square, Real.sqrt_sq_eq_abs]
  refine ⟨impl.Measure_square T J, habs, fun h => ?_, fun h => ?_⟩
  · rw [habs, impl.Measure_square, abs_of_nonneg h]
  · rw [habs, impl.Measure_square, abs_of_neg h]
    exact ⟨rfl, fun h2 => by linarith⟩

/-- The `1 x 1` matrix `(-1)`, for the determinant and the square root of the reals: the
general formula gives the absolute value of what the square branch returns. -/
theorem Measure_square_branch_vs_general_witness :
    (({ det := fun A => Matrix.det (Matrix.of A), inv := fun A => A,
        sqrt := Real.sqrt } : TensorLib ℝ).sqrt
      (({ det := fun A => Matrix.det (Matrix.of A), inv := fun A => A,
          sqrt := Real.sqrt } : TensorLib ℝ).det
        (dot (transpose (sample.minus_one_over ℝ)) (sample.minus_one_over ℝ))))
      = |impl.Measure
          ({ det := fun A => Matrix.det (Matrix.of A), inv := fun A => A,
             sqrt := Real.sqrt } : TensorLib ℝ) (sample.minus_one_over ℝ)| :=
  (Measure_square_branch_vs_general
    ({ det := fun A => Matrix.det (Matrix.of A), inv := fun A => A,
       sqrt := Real.sqrt } : TensorLib ℝ)
    (fun _ _ => rfl) (fun _ => rfl) 1 (sample.minus_one_over ℝ)).2.1

/-- C25 (counterexample): for the `1 x 1` matrix `J = (-1)`, with the determinant and the
square root of the reals, the square branch of `Measure` returns `det(J) = -1` and the
general formula `sqrt(det(transpose(J) * J))` gives `1`. -/
theorem Measure_square_branch_counterexample :
    impl.Measure
        ({ det := fun A => Matrix.det (Matrix.of A), inv := fun A => A,
           sqrt := Real.sqrt } : TensorLib ℝ) (sample.minus_one_over ℝ) = -1
    ∧ ({ det := fun A => Matrix.det (Matrix.of A), inv := fun A => A,
         sqrt := Real.sqrt } : TensorLib ℝ).sqrt
        (({ det := fun A => Matrix.det (Matrix.of A), inv := fun A => A,
            sqrt := Real.sqrt } : TensorLib ℝ).det
          (dot (transpose (sample.minus_one_over ℝ)) (sample.minus_one_over ℝ))) = 1 := by
  constructor
  · rw [impl.Measure_square]
    simp [sample.minus_one_over, Matrix.det_fin_one]
  · simp [dot, transpose, sample.minus_one_over, Matrix.det_fin_one]

end square_measure_claims

/-! ## The gradient table of the hexahedron -/

section gradient_lemmas

/-- Every index below `ndof` is the packed index of one triple `(i, j, k)`. -/
theorem hexahedron_index_surj (p : Nat) (n : Fin (hexahedron_ndof p)) :
    ∃ i j k : Fin (p + 1), (n : Nat) = i + (p + 1) * j + (p + 1) ^ 2 * k := by
  have hn : (n : Nat) < (p + 1) * (p + 1) * (p + 1) := n.isLt
  have hq : 0 < p + 1 := Nat.succ_pos p
  refine ⟨⟨n % (p + 1), Nat.mod_lt _ hq⟩, ⟨n / (p + 1) % (p + 1), Nat.mod_lt _ hq⟩,
    ⟨n / (p + 1) / (p + 1), ?_⟩, ?_⟩
  · apply Nat.div_lt_of_lt_mul
    apply Nat.div_lt_of_lt_mul
    calc (n : Nat) < (p + 1) * (p + 1) * (p + 1) := hn
      _ = (p + 1) * ((p + 1) * (p + 1)) := by ring
  · show (n : Nat) = n % (p + 1) + (p + 1) * (n / (p + 1) % (p + 1))
        + (p + 1) ^ 2 * (n / (p + 1) / (p + 1))
    have h1 := Nat.mod_add_div (n : Nat) (p + 1)
    have h2 := Nat.mod_add_div ((n : Nat) / (p + 1)) (p + 1)
    have h3 : (p + 1) ^ 2 * (n / (p + 1) / (p + 1))
        = (p + 1) * ((p + 1) * (n / (p + 1) / (p + 1))) := by ring
    rw [h3]
    have h4 : (p + 1) * (n / (p + 1) % (p + 1)) + (p + 1) * ((p + 1) * (n / (p + 1) / (p + 1)))
        = (p + 1) * (n / (p + 1)) := by
      rw [← Nat.mul_add, h2]
    omega

/-- The rows of the gradient table of the hexahedron H1 element. -/
theorem hexahedron_H1_gradient_row (p : Nat)
    (GaussLobattoInterpolation01 GaussLobattoInterpolationDerivative01 : R → Vec R (p + 1))
    (xi : Vec R 3) (i j k : Fin (p + 1))
    (h : (i : Nat) + (p + 1) * j + (p + 1) ^ 2 * k < hexahedron_ndof p) :
    hexahedron_H1.shape_function_gradients p GaussLobattoInterpolation01
        GaussLobattoInterpolationDerivative01 xi ⟨i + (p + 1) * j + (p + 1) ^ 2 * k, h⟩
      = ![GaussLobattoInterpolationDerivative01 (xi 0) i * GaussLobattoInterpolation01 (xi 1) j
            * GaussLobattoInterpolation01 (xi 2) k,
          GaussLobattoInterpolation01 (xi 0) i * GaussLobattoInterpolationDerivative01 (xi 1) j
            * GaussLobattoInterpolation01 (xi 2) k,
          GaussLobattoInterpolation01 (xi 0) i * GaussLobattoInterpolation01 (xi 1) j
            * GaussLobattoInterpolationDerivative01 (xi 2) k] :=
  (hexahedron_loops_update p _ _).1 i j k

/-- The entries of the table of the hexahedron H1 element. -/
theorem hexahedron_H1_shape_function (p : Nat)
    (GaussLobattoInterpolation01 : R → Vec R (p + 1))
    (xi : Vec R 3) (i j k : Fin (p + 1))
    (h : (i : Nat) + (p + 1) * j + (p + 1) ^ 2 * k < hexahedron_ndof p) :
    hexahedron_H1.shape_functions p GaussLobattoInterpolation01 xi
        ⟨i + (p + 1) * j + (p + 1) ^ 2 * k, h⟩
      = GaussLobattoInterpolation01 (xi 0) i * GaussLobattoInterpolation01 (xi 1) j
          * GaussLobattoInterpolation01 (xi 2) k :=
  (hexahedron_loops_update p _ _).1 i j k

/-- The derivative of a product of three functions of one coordinate each. -/
theorem hasFDerivAt_tensor_product (A B C : ℝ → ℝ) (A' B' C' : ℝ) (xi : Vec ℝ 3)
    (hA : HasDerivAt A A' (xi 0)) (hB : HasDerivAt B B' (xi 1)) (hC : HasDerivAt C C' (xi 2)) :
    HasFDerivAt (fun x : Vec ℝ 3 => A (x 0) * B (x 1) * C (x 2))
      (∑ d : Fin 3, (![A' * B (xi 1) * C (xi 2), A (xi 0) * B' * C (xi 2),
          A (xi 0) * B (xi 1) * C'] : Vec ℝ 3) d
        • (ContinuousLinearMap.proj d : Vec ℝ 3 →L[ℝ] ℝ)) xi := by
  have h0 : HasFDerivAt (fun x : Vec ℝ 3 => A (x 0))
      (A' • (ContinuousLinearMap.proj 0 : Vec ℝ 3 →L[ℝ] ℝ)) xi :=
    hA.comp_hasFDerivAt xi (hasFDerivAt_apply 0 xi)
  have h1 : HasFDerivAt (fun x : Vec ℝ 3 => B (x 1))
      (B' • (ContinuousLinearMap.proj 1 : Vec ℝ 3 →L[ℝ] ℝ)) xi :=
    hB.comp_hasFDerivAt xi (hasFDerivAt_apply 1 xi)
  have h2 : HasFDerivAt (fun x : Vec ℝ 3 => C (x 2))
      (C' • (ContinuousLinearMap.proj 2 : Vec ℝ 3 →L[ℝ] ℝ)) xi :=
    hC.comp_hasFDerivAt xi (hasFDerivAt_apply 2 xi)
  have h := (h0.mul h1).mul h2
  refine h.congr_fderiv ?_
  ext v
  simp [Fin.sum_univ_three]
  ring

end gradient_lemmas

section gradient_claims

/-- C26: for the hexahedron H1 element of every order `p` and all `i, j, k ≤ p`, the row
`i + (p+1)*j + (p+1)^2*k` of `shape_function_gradients(xi)` is
`(dN_xi[i]*N_eta[j]*N_zeta[k], N_xi[i]*dN_eta[j]*N_zeta[k], N_xi[i]*N_eta[j]*dN_zeta[k])`,
at the index where `shape_functions(xi)` holds `N_xi[i]*N_eta[j]*N_zeta[k]`; and whenever
the one-dimensional derivative table is the derivative of the one-dimensional interpolant,
every row `n` is the gradient with respect to `xi` of the shape function `n`. -/
theorem hexahedron_H1_gradients_are_gradients (p : Nat)
    (GaussLobattoInterpolation01 GaussLobattoInterpolationDerivative01 : ℝ → Vec ℝ (p + 1))
    (xi : Vec ℝ 3) :
    (∀ i j k : Fin (p + 1),
      ∃ h : (i : Nat) + (p + 1) * j + (p + 1) ^ 2 * k < hexahedron_ndof p,
        hexahedron_H1.shape_function_gradients p GaussLobattoInterpolation01
            GaussLobattoInterpolationDerivative01 xi ⟨i + (p + 1) * j + (p + 1) ^ 2 * k, h⟩
          = ![GaussLobattoInterpolationDerivative01 (xi 0) i
                * GaussLobattoInterpolation01 (xi 1) j * GaussLobattoInterpolation01 (xi 2) k,
              GaussLobattoInterpolation01 (xi 0) i
                * GaussLobattoInterpolationDerivative01 (xi 1) j
                * GaussLobattoInterpolation01 (xi 2) k,
              GaussLobattoInterpolation01 (xi 0) i * GaussLobattoInterpolation01 (xi 1) j
                * GaussLobattoInterpolationDerivative01 (xi 2) k]
        ∧ hexahedron_H1.shape_functions p GaussLobattoInterpolation01 xi
            ⟨i + (p + 1) * j + (p + 1) ^ 2 * k, h⟩
          = GaussLobattoInterpolation01 (xi 0) i * GaussLobattoInterpolation01 (xi 1) j
              * GaussLobattoInterpolation01 (xi 2) k)
    ∧ ((∀ (x : ℝ) (i : Fin (p + 1)),
          HasDerivAt (fun t => GaussLobattoInterpolation01 t i)
            (GaussLobattoInterpolationDerivative01 x i) x) →
        ∀ n : Fin (hexahedron_ndof p),
          HasFDerivAt
            (fun x : Vec ℝ 3 => hexahedron_H1.shape_functions p GaussLobattoInterpolation01 x n)
            (∑ d : Fin 3,
              hexahedron_H1.shape_function_gradients p GaussLobattoInterpolation01
                  GaussLobattoInterpolationDerivative01 xi n d
                • (ContinuousLinearMap.proj d : Vec ℝ 3 →L[ℝ] ℝ)) xi) := by
  refine ⟨fun i j k => ⟨hexahedron_index_lt p i j k, hexahedron_H1_gradient_row _ _ _ _ _ _ _ _,
    hexahedron_H1_shape_function _ _ _ _ _ _ _⟩, fun hderiv n => ?_⟩
  obtain ⟨i, j, k, hn⟩ := hexahedron_index_surj p n
  have hlt := hexahedron_index_lt p i j k
  have hnn : n = ⟨i + (p + 1) * j + (p + 1) ^ 2 * k, hlt⟩ := Fin.ext hn
  subst hnn
  have hf : (fun x : Vec ℝ 3 => hexahedron_H1.shape_functions p GaussLobattoInterpolation01 x
        ⟨i + (p + 1) * j + (p + 1) ^ 2 * k, hlt⟩)
      = fun x : Vec ℝ 3 => GaussLobattoInterpolation01 (x 0) i
          * GaussLobattoInterpolation01 (x 1) j * GaussLobattoInterpolation01 (x 2) k := by
    funext x
    exact hexahedron_H1_shape_function _ _ _ _ _ _ _
  rw [hf, hexahedron_H1_gradient_row]
  exact hasFDerivAt_tensor_product _ _ _ _ _ _ xi (hderiv (xi 0) i) (hderiv (xi 1) j)
    (hderiv (xi 2) k)

/-- The hexahedron of order one with the interpolant `(1 - x, x)` and its derivative
`(-1, 1)`: the rows of the gradient table are the gradients of the eight shape
functions. -/
theorem hexahedron_H1_gradients_are_gradients_witness :
    (∀ (x : ℝ) (i : Fin 2),
      HasDerivAt (fun t => sample.linear_over ℝ t i) (sample.linear_derivative_over ℝ x i) x)
    ∧ ∀ n : Fin (hexahedron_ndof 1),
        HasFDerivAt
          (fun x : Vec ℝ 3 => hexahedron_H1.shape_functions 1 (sample.linear_over ℝ) x n)
          (∑ d : Fin 3,
            hexahedron_H1.shape_function_gradients 1 (sample.linear_over ℝ)
                (sample.linear_derivative_over ℝ) (fun _ => 0) n d
              • (ContinuousLinearMap.proj d : Vec ℝ 3 →L[ℝ] ℝ)) (fun _ => 0) := by
  have hd : ∀ (x : ℝ) (i : Fin 2),
      HasDerivAt (fun t => sample.linear_over ℝ t i) (sample.linear_derivative_over ℝ x i) x := by
    intro x i
    by_cases hi : i = 0
    · simp only [sample.linear_over, sample.linear_derivative_over, if_pos hi]
      simpa using (hasDerivAt_id x).const_sub (1 : ℝ)
    · simp only [sample.linear_over, sample.linear_derivative_over, if_neg hi]
      exact hasDerivAt_id x
  exact ⟨hd, (hexahedron_H1_gradients_are_gradients 1 (sample.linear_over ℝ)
    (sample.linear_derivative_over ℝ) (fun _ => 0)).2 hd⟩

end gradient_claims

/-! ## Element locality of the kernels -/

section locality_lemmas

variable {dim ndof c : Nat}

/-- A slot of the element-packed layout of element `e < n` lies below `ndof * c * n`. -/
theorem packed_index_lt (i : Fin ndof) (a : Fin c) (e n : Nat) (he : e < n) :
    (i : Nat) + ndof * ((a : Nat) + c * e) < ndof * c * n := by
  have h1 : (a : Nat) + c * e + 1 ≤ c * n := by
    have h2 : c * (e + 1) ≤ c * n := Nat.mul_le_mul_left _ he
    have h3 : c * (e + 1) = c * e + c := by ring
    have := a.isLt
    omega
  have h4 : ndof * ((a : Nat) + c * e + 1) ≤ ndof * (c * n) := Nat.mul_le_mul_left _ h1
  have h5 : ndof * ((a : Nat) + c * e + 1) = ndof * ((a : Nat) + c * e) + ndof := by ring
  have h6 : ndof * (c * n) = ndof * c * n := by ring
  have := i.isLt
  omega

/-- The kernel `evaluation_kernel` changes no output entry from `ndof * c * n` on. -/
theorem evaluation_kernel_fst_frame (T : TensorLib R) (test trial : finite_element R dim ndof)
    (rule : QuadratureRule R dim)
    (qf : Vec R dim → qf_tuple (dual R c dim) c dim → qf_tuple (dual R c dim) c dim)
    (U R_ : Buffer R) (cache : Nat → derivatives_type R c dim) (J_ X_ : Buffer R)
    (n k : Nat) (hk : ndof * c * n ≤ k) :
    (evaluation_kernel T test trial rule qf U R_ cache J_ X_ n).1 k = R_ k := by
  rw [evaluation_kernel_fst_apply]
  have hz : (∑ e in Finset.range n, ∑ i : Fin ndof, ∑ a : Fin c,
      if (i : Nat) + ndof * ((a : Nat) + c * e) = k
      then (evaluation_kernel_element T test trial rule qf U J_ X_ cache e).1 i a
      else 0) = 0 := by
    apply Finset.sum_eq_zero
    intro e he
    apply Finset.sum_eq_zero
    intro i _
    apply Finset.sum_eq_zero
    intro a _
    rw [if_neg]
    have := packed_index_lt i a e n (Finset.mem_range.mp he)
    omega
  rw [hz, add_zero]

/-- The kernel `gradient_kernel` changes no output entry from `ndof * c * n` on. -/
theorem gradient_kernel_frame (T : TensorLib R) (test trial : finite_element R dim ndof)
    (rule : QuadratureRule R dim) (dU dR : Buffer R)
    (cache : Nat → derivatives_type R c dim) (J_ : Buffer R) (n k : Nat)
    (hk : ndof * c * n ≤ k) :
    gradient_kernel T test trial rule dU dR cache J_ n k = dR k := by
  rw [gradient_kernel_apply]
  have hz : (∑ e in Finset.range n, ∑ i : Fin ndof, ∑ a : Fin c,
      if (i : Nat) + ndof * ((a : Nat) + c * e) = k
      then gradient_kernel_element T test trial rule dU J_ cache e i a
      else 0) = 0 := by
    apply Finset.sum_eq_zero
    intro e he
    apply Finset.sum_eq_zero
    intro i _
    apply Finset.sum_eq_zero
    intro a _
    rw [if_neg]
    have := packed_index_lt i a e n (Finset.mem_range.mp he)
    omega
  rw [hz, add_zero]

/-- The q-function output at a quadrature point of element `e` is determined by the
degrees of freedom, the Jacobians and the coordinates of element `e`. -/
theorem qf_output_congr (T : TensorLib R) (trial : finite_element R dim ndof)
    (rule : QuadratureRule R dim)
    (qf : Vec R dim → qf_tuple (dual R c dim) c dim → qf_tuple (dual R c dim) c dim)
    (U U' J_ J' X_ X' : Buffer R) (e : Nat) (q : Fin rule.size)
    (hU : impl.Load ndof c U e = impl.Load ndof c U' e)
    (hJ : (J_q rule.size J_ e q : Mat R dim dim) = J_q rule.size J' e q)
    (hX : (x_q rule.size X_ e q : Vec R dim) = x_q rule.size X' e q) :
    qf_output T trial rule qf U J_ X_ e q = qf_output T trial rule qf U' J' X' e q := by
  unfold qf_output
  rw [hU, hJ, hX]

/-- The output block of element `e` after `gradient_kernel` is determined by the
degrees of freedom, the Jacobians, the cache records and the initial output block of
element `e`. -/
theorem gradient_kernel_block_congr (T : TensorLib R) (test trial : finite_element R dim ndof)
    (rule : QuadratureRule R dim) (dU dU' dR dR' J_ J' : Buffer R)
    (cache cache' : Nat → derivatives_type R c dim) (n n' e : Nat) (he : e < n) (he' : e < n')
    (hdU : impl.Load ndof c dU e = impl.Load ndof c dU' e)
    (hJ : ∀ q : Fin rule.size, (J_q rule.size J_ e q : Mat R dim dim) = J_q rule.size J' e q)
    (hdR : ∀ (i : Fin ndof) (a : Fin c),
      dR (i + ndof * (a + c * e)) = dR' (i + ndof * (a + c * e)))
    (hc : ∀ q : Fin rule.size, cache (e * rule.size + q) = cache' (e * rule.size + q))
    (i : Fin ndof) (a : Fin c) :
    gradient_kernel T test trial rule dU dR cache J_ n (i + ndof * (a + c * e))
      = gradient_kernel T test trial rule dU' dR' cache' J' n' (i + ndof * (a + c * e)) := by
  rw [gradient_kernel_block _ _ _ _ _ _ _ _ n e he i a,
    gradient_kernel_block _ _ _ _ _ _ _ _ n' e he' i a,
    gradient_kernel_element_eq, gradient_kernel_element_eq, hdR]
  simp only [hdU, hJ, hc]

end locality_lemmas

section locality_claims

variable {dim ndof c : Nat}

/-- C29: the kernels are element-local.  For two runs of `evaluation_kernel` whose inputs
agree on the degrees of freedom of element `e`, on `J[., ., ., e]`, on `X[., ., e]` and on
the initial output block of `e`, the output block of `e` and the cache records
`e*nq .. e*nq + nq - 1` after the runs are equal, whatever the other data (the other
elements, the cache content before the call, the number of elements); likewise for
`gradient_kernel`, on caches that agree on the records of `e`, and in particular on the
caches that the two runs of `evaluation_kernel` leave.  A run changes no output entry and
no cache record outside the blocks of the elements `0 .. n - 1`. -/
theorem kernels_element_local (T : TensorLib R) (test trial : finite_element R dim ndof)
    (rule : QuadratureRule R dim)
    (qf : Vec R dim → qf_tuple (dual R c dim) c dim → qf_tuple (dual R c dim) c dim)
    (U U' R_ R' J_ J' X_ X' : Buffer R) (cache cache' : Nat → derivatives_type R c dim)
    (n n' e : Nat) (he : e < n) (he' : e < n')
    (hU : impl.Load ndof c U e = impl.Load ndof c U' e)
    (hJ : ∀ q : Fin rule.size, (J_q rule.size J_ e q : Mat R dim dim) = J_q rule.size J' e q)
    (hX : ∀ q : Fin rule.size, (x_q rule.size X_ e q : Vec R dim) = x_q rule.size X' e q)
    (hR : ∀ (i : Fin ndof) (a : Fin c),
      R_ (i + ndof * (a + c * e)) = R' (i + ndof * (a + c * e))) :
    (∀ (i : Fin ndof) (a : Fin c),
      (evaluation_kernel T test trial rule qf U R_ cache J_ X_ n).1 (i + ndof * (a + c * e))
        = (evaluation_kernel T test trial rule qf U' R' cache' J' X' n').1
            (i + ndof * (a + c * e)))
    ∧ (∀ q : Fin rule.size,
      (evaluation_kernel T test trial rule qf U R_ cache J_ X_ n).2 (e * rule.size + q)
        = (evaluation_kernel T test trial rule qf U' R' cache' J' X' n').2
            (e * rule.size + q))
    ∧ (∀ dU dU' dR dR' : Buffer R,
        impl.Load ndof c dU e = impl.Load ndof c dU' e →
        (∀ (i : Fin ndof) (a : Fin c),
          dR (i + ndof * (a + c * e)) = dR' (i + ndof * (a + c * e))) →
        (∀ q : Fin rule.size, cache (e * rule.size + q) = cache' (e * rule.size + q)) →
        ∀ (i : Fin ndof) (a : Fin c),
          gradient_kernel T test trial rule dU dR cache J_ n (i + ndof * (a + c * e))
            = gradient_kernel T test trial rule dU' dR' cache' J' n' (i + ndof * (a + c * e)))
    ∧ (∀ dU dU' dR dR' : Buffer R,
        impl.Load ndof c dU e = impl.Load ndof c dU' e →
        (∀ (i : Fin ndof) (a : Fin c),
          dR (i + ndof * (a + c * e)) = dR' (i + ndof * (a + c * e))) →
        ∀ (i : Fin ndof) (a : Fin c),
          gradient_kernel T test trial rule dU dR
              (evaluation_kernel T test trial rule qf U R_ cache J_ X_ n).2 J_ n
              (i + ndof * (a + c * e))
            = gradient_kernel T test trial rule dU' dR'
              (evaluation_kernel T test trial rule qf U' R' cache' J' X' n').2 J' n'
              (i + ndof * (a + c * e)))
    ∧ (∀ m : Nat,
        (evaluation_kernel T test trial rule qf U R_ cache J_ X_ n).1 (ndof * c * n + m)
          = R_ (ndof * c * n + m)
        ∧ (evaluation_kernel T test trial rule qf U R_ cache J_ X_ n).2 (n * rule.size + m)
          = cache (n * rule.size + m)
        ∧ ∀ dU dR : Buffer R,
            gradient_kernel T test trial rule dU dR cache J_ n (ndof * c * n + m)
              = dR (ndof * c * n + m)) := by
  have hq : ∀ q : Fin rule.size,
      qf_output T trial rule qf U J_ X_ e q = qf_output T trial rule qf U' J' X' e q :=
    fun q => qf_output_congr T trial rule qf U U' J_ J' X_ X' e q hU (hJ q) (hX q)
  have hrec : ∀ q : Fin rule.size,
      (evaluation_kernel T test trial rule qf U R_ cache J_ X_ n).2 (e * rule.size + q)
        = (evaluation_kernel T test trial rule qf U' R' cache' J' X' n').2
            (e * rule.size + q) := by
    intro q
    rw [evaluation_kernel_cache _ _ _ _ _ _ _ _ _ _ _ e he q,
      evaluation_kernel_cache _ _ _ _ _ _ _ _ _ _ _ e he' q, hq]
  refine ⟨fun i a => ?_, hrec, fun dU dU' dR dR' hdU hdR hc i a => ?_,
    fun dU dU' dR dR' hdU hdR i a => ?_, fun m => ⟨?_, ?_, fun dU dR => ?_⟩⟩
  · rw [evaluation_kernel_block T test trial rule qf U R_ cache J_ X_ n e he i a cache,
      evaluation_kernel_block T test trial rule qf U' R' cache' J' X' n' e he' i a cache',
      evaluation_kernel_element_fst, evaluation_kernel_element_fst, hR]
    simp only [hq, hJ]
  · exact gradient_kernel_block_congr T test trial rule dU dU' dR dR' J_ J' cache cache'
      n n' e he he' hdU hJ hdR hc i a
  · exact gradient_kernel_block_congr T test trial rule dU dU' dR dR' J_ J' _ _
      n n' e he he' hdU hJ hdR hrec i a
  · exact evaluation_kernel_fst_frame _ _ _ _ _ _ _ _ _ _ _ _ (Nat.le_add_right _ _)
  · exact evaluation_kernel_cache_frame _ _ _ _ _ _ _ _ _ _ _ _ (Nat.le_add_right _ _)
  · exact gradient_kernel_frame _ _ _ _ _ _ _ _ _ _ (Nat.le_add_right _ _)

end locality_claims

/-! ## The theorems above on the concrete data -/

section sample_witnesses

/-- The entry `(0*2+1, 0*2+1)` of the element matrix for two components in two dimensions
on the records of `f1 = du_dx`, one element, a zeroed `K`: the value `2`. -/
theorem gradient_matrix_kernel_entries_witness :
    (0 < 1)
    ∧ gradient_matrix_kernel sample.T sample.point2 sample.point2 2 2 sample.rule2
        (fun _ => 0) sample.cache_grad sample.J 1
        ((((0 : Fin 1) : Nat) * 2 + ((1 : Fin 2) : Nat))
          + 1 * 2 * ((((0 : Fin 1) : Nat) * 2 + ((1 : Fin 2) : Nat)) + 1 * 2 * 0)) = 2 :=
  ⟨by decide,
   (gradient_matrix_kernel_entries sample.T sample.point2 sample.point2 2 sample.rule2
      sample.cache_grad sample.J 1 0 (by decide) 0 1 0 1).1.trans (by decide)⟩

/-- The element matrix for two components in two dimensions on the records of the
symmetric flux `f1 = du_dx + transpose(du_dx)`: the entries `(0, 1)` and `(1, 0)` agree. -/
theorem gradient_matrix_kernel_element_symmetric_witness :
    (∀ (q : Fin sample.rule2.size) (id jd : Fin 2) (k l : Fin 2),
      (sample.cache_sym (0 * sample.rule2.size + q)).df1_dgradu id k jd l
        = (sample.cache_sym (0 * sample.rule2.size + q)).df1_dgradu jd l id k)
    ∧ gradient_matrix_kernel_element sample.T sample.point2 sample.point2 2 2 sample.rule2
        sample.J sample.cache_sym 0
        (((0 : Fin 1) : Nat) * 2 + ((0 : Fin 2) : Nat))
        (((0 : Fin 1) : Nat) * 2 + ((1 : Fin 2) : Nat))
      = gradient_matrix_kernel_element sample.T sample.point2 sample.point2 2 2 sample.rule2
        sample.J sample.cache_sym 0
        (((0 : Fin 1) : Nat) * 2 + ((1 : Fin 2) : Nat))
        (((0 : Fin 1) : Nat) * 2 + ((0 : Fin 2) : Nat)) :=
  ⟨by decide,
   (gradient_matrix_kernel_element_symmetric sample.T sample.point2 2 sample.rule2 sample.J
      sample.cache_sym 0 (by decide) (by decide) (by decide)).1 0 0 0 1⟩

/-- The sample Integral: the record of the last quadrature point of the last element is
below the number of allocated records. -/
theorem cache_index_injective_and_allocated_witness :
    sample.Xv.Size = sample.rule.size * 1 * 2
    ∧ ((1 : Fin 2) : Nat) * sample.fresh.rule.size + (sample.q1 : Nat)
        < sample.fresh.num_quadrature_points :=
  ⟨by decide,
   (cache_index_injective_and_allocated sample.T sample.segment sample.segment 1 1
      (fun _ => sample.rule) sample.outside 2 sample.Jv sample.Xv sample.qf (by decide)
      (by decide)).2.2.1 1 sample.q1⟩

/-- Two runs on the sample data that agree on element `0` and differ in the data of the
other elements, in the cache content before the call and in the number of elements: the
first entry of the output is the same. -/
theorem kernels_element_local_witness :
    impl.Load 2 1 sample.U 0 = impl.Load 2 1 sample.U_first 0
    ∧ sample.U 2 ≠ sample.U_first 2
    ∧ (evaluation_kernel sample.T sample.segment sample.segment sample.rule sample.qf
          sample.U sample.R5 sample.outside sample.J sample.X 2).1
        (((0 : Fin 2) : Nat) + 2 * (((0 : Fin 1) : Nat) + 1 * 0))
      = (evaluation_kernel sample.T sample.segment sample.segment sample.rule sample.qf
          sample.U_first sample.R5 (fun _ => 0) sample.J_first sample.X 1).1
        (((0 : Fin 2) : Nat) + 2 * (((0 : Fin 1) : Nat) + 1 * 0)) :=
  ⟨by decide, by decide,
   (kernels_element_local sample.T sample.segment sample.segment sample.rule sample.qf
      sample.U sample.U_first sample.R5 sample.R5 sample.J sample.J_first sample.X sample.X
      sample.outside (fun _ => 0) 2 1 0 (by decide) (by decide) (by decide) (by decide)
      (by decide) (fun _ _ => rfl)).1 0 0⟩

end sample_witnesses

/-! ## The extents of the element matrix -/

section extent_lemmas

variable {dim : Nat}

end extent_lemmas

section extent_claims

variable {dim : Nat}

end extent_claims

end serac
